import Mathlib

/-!
# nloBK solver (`src/src/solver.cpp`): evolution driver, LO kernel, running coupling

A shallow embedding of `BKSolver::Solve`, `Evolve`, `BKSolver::Kernel_lo` and
`BKSolver::Alphas`, with theorems on the stepping of `Solve` (slices appended,
fatal exits), on the LO kernel (fixed and Balitsky prescriptions, symmetry in the
daughter distances) and on the running coupling.

## Modelling conventions

* A C `double` is a value of `Dbl F`: either a finite number `fin x` with `x` in an
  ordered field `F` (arithmetic on finite values is exact, there is no rounding and
  no overflow), or one of the IEEE special values `pinf`, `ninf`, `nan`.  Zero is
  unsigned: a division of a nonzero finite number by zero gives the infinity with
  the sign of the numerator.
* Rapidities (`y`, `maxy`, `DE_SOLVER_STEP`) and grid sizes `RVal(i)` are finite
  and are kept in `F` directly.
* `exit(1)` is the result `Run.exited`; every loop takes a fuel argument and
  `Run.timeout` is the result of a run that was cut off.
* Functions of libm / GSL (`sqrt`, `cos`, `log`, `exp`, `pow`, Bessel functions,
  the adaptive ODE stepper, the quadratures behind `RapidityDerivative_lo/nlo`)
  are parameters of the model.
* Output on `cout` / `cerr` and `Dipole::Save` (a file write) are not modelled.
-/

namespace NloBK

/-! ## Doubles -/

/-- A C `double`: a finite value of the field `F`, or an IEEE special value. -/
inductive Dbl (F : Type) where
  | fin (x : F)
  | pinf
  | ninf
  | nan
  deriving DecidableEq

namespace Dbl

variable {F : Type} [LinearOrderedField F]

/-- The infinity with the sign of `a`, `alt` when `a = 0`. -/
def signedInf (a : F) (alt : Dbl F) : Dbl F :=
  if 0 < a then pinf else if a < 0 then ninf else alt

/-- Unary minus. -/
def neg : Dbl F → Dbl F
  | fin a => fin (-a)
  | pinf => ninf
  | ninf => pinf
  | nan => nan

/-- IEEE addition, exact on finite values. -/
def add : Dbl F → Dbl F → Dbl F
  | fin a, fin b => fin (a + b)
  | nan, _ => nan
  | _, nan => nan
  | pinf, ninf => nan
  | ninf, pinf => nan
  | pinf, _ => pinf
  | _, pinf => pinf
  | ninf, _ => ninf
  | _, ninf => ninf

/-- IEEE subtraction. -/
def sub (a b : Dbl F) : Dbl F := add a (neg b)

/-- IEEE multiplication, exact on finite values; `0 * inf` is NaN. -/
def mul : Dbl F → Dbl F → Dbl F
  | fin a, fin b => fin (a * b)
  | nan, _ => nan
  | _, nan => nan
  | fin a, pinf => signedInf a nan
  | fin a, ninf => signedInf (-a) nan
  | pinf, fin b => signedInf b nan
  | ninf, fin b => signedInf (-b) nan
  | pinf, pinf => pinf
  | ninf, ninf => pinf
  | pinf, ninf => ninf
  | ninf, pinf => ninf

/-- IEEE division, exact on finite values; `x / 0` is an infinity with the sign of
`x` (NaN for `0 / 0`), a finite value over an infinity is `0`. -/
def div : Dbl F → Dbl F → Dbl F
  | fin a, fin b => if b = 0 then signedInf a nan else fin (a / b)
  | nan, _ => nan
  | _, nan => nan
  | fin _, pinf => fin 0
  | fin _, ninf => fin 0
  | pinf, fin b => if b < 0 then ninf else pinf
  | ninf, fin b => if b < 0 then pinf else ninf
  | pinf, pinf => nan
  | ninf, ninf => nan
  | pinf, ninf => nan
  | ninf, pinf => nan

instance : Neg (Dbl F) := ⟨neg⟩
instance : Add (Dbl F) := ⟨add⟩
instance : Sub (Dbl F) := ⟨sub⟩
instance : Mul (Dbl F) := ⟨mul⟩
instance : Div (Dbl F) := ⟨div⟩

/-- The comparison `a < b` of C: false as soon as one side is NaN. -/
def lt : Dbl F → Dbl F → Bool
  | fin a, fin b => decide (a < b)
  | nan, _ => false
  | _, nan => false
  | ninf, ninf => false
  | ninf, _ => true
  | _, ninf => false
  | pinf, _ => false
  | _, pinf => true

/-- The comparison `a >= b` of C: false as soon as one side is NaN. -/
def ge : Dbl F → Dbl F → Bool
  | fin a, fin b => decide (b ≤ a)
  | nan, _ => false
  | _, nan => false
  | pinf, _ => true
  | _, ninf => true
  | ninf, _ => false
  | _, pinf => false

/-- The test `std::isnan`. -/
def isnan : Dbl F → Bool
  | nan => true
  | _ => false

/-- The test `std::isinf`. -/
def isinf : Dbl F → Bool
  | pinf => true
  | ninf => true
  | _ => false

/-- The function `std::max(a, b)`, which is `(a < b) ? b : a`. -/
def max (a b : Dbl F) : Dbl F := if lt a b then b else a

/-- The function `std::min(a, b)`, which is `(b < a) ? b : a`. -/
def min (a b : Dbl F) : Dbl F := if lt b a then b else a

/-- The function `std::abs` on doubles. -/
def abs : Dbl F → Dbl F
  | fin a => fin |a|
  | pinf => pinf
  | ninf => pinf
  | nan => nan

/-- The macro `SQR(x)`, `x*x`. -/
def SQR (x : Dbl F) : Dbl F := x * x

end Dbl

/-! ## Configuration (`nlobk_config.hpp`, namespace `config`) -/

/-- Modelled from the spec: the header declaring `config::RunningCouplingLO` is
missing; the values are the LO coupling prescriptions of the spec (section 3), under
the names `Kernel_lo` compares `RC_LO` with. -/
inductive RunningCouplingLO where
  | FIXED_LO
  | BALITSKY_LO
  | SMALLEST_LO
  | PARENT_LO
  | FRAC_LO
  | GUILLAUME_LO
  deriving DecidableEq

/-- Modelled from the spec: the header declaring `config::RunningCouplingNLO` is
missing; the values are the NLO coupling prescriptions of the spec (section 3). -/
inductive RunningCouplingNLO where
  | FIXED_NLO
  | PARENT_NLO
  | SMALLEST_NLO
  deriving DecidableEq

/-- Modelled from the spec: the header declaring the resummation coupling scale is
missing; the values are the ones `Kernel_lo` compares `RESUM_RC` with. -/
inductive ResumRC where
  | RESUM_RC_PARENT
  | RESUM_RC_SMALLEST
  | RESUM_RC_GUILLAUME
  | RESUM_RC_BALITSKY
  | RESUM_RC_FIXED
  deriving DecidableEq

/-- Modelled from the spec: the header declaring the kinematical constraint is
missing; the values are the variants of the spec (none / K+ / K-). -/
inductive KinematicalConstraint where
  | KC_NONE
  | KC_BEUF_K_PLUS
  | KC_EDMOND_K_MINUS
  deriving DecidableEq

/-- Modelled from the spec: the header declaring the NLO integration method is
missing; the values are the methods of the spec (nested quadrature and the two Monte
Carlo variants), under the names `RapidityDerivative_nlo` compares `INTMETHOD_NLO`
with. -/
inductive IntMethodNLO where
  | MULTIPLE
  | VEGAS
  | MISER
  deriving DecidableEq

/-- Modelled from the spec: the process-wide configuration of namespace `config`
(the header is missing), one field per constant the solver reads.  Numeric constants
are finite. -/
structure Config (F : Type) where
  RC_LO : RunningCouplingLO
  RC_NLO : RunningCouplingNLO
  RESUM_RC : ResumRC
  KINEMATICAL_CONSTRAINT : KinematicalConstraint
  TARGET_KINEMATICAL_CONSTRAINT : Bool
  RESUM_DLOG : Bool
  RESUM_SINGLE_LOG : Bool
  DOUBLELOG_LO_KERNEL : Bool
  NO_K2 : Bool
  EULER_METHOD : Bool
  FORCE_POSITIVE_N : Bool
  DNDY : Bool
  INTMETHOD_NLO : IntMethodNLO
  MCINTPOINTS : Nat
  MCINTACCURACY : F
  DE_SOLVER_STEP : F
  FIXED_AS : F
  NC : F
  NF : F
  LAMBDAQCD : F
  KSUB : F
  MINR : F

open KinematicalConstraint RunningCouplingLO RunningCouplingNLO ResumRC

/-! ## The amplitude grid (`Dipole`) and the interpolator -/

/-- Modelled from the spec: the class `Dipole` is missing from the sources.  The grid
of dipole sizes, the rapidity axis with one amplitude vector per rapidity, and the
index of the rapidity the interpolation is initialised at (`none` before the first
initialisation). -/
structure Dipole (F : Type) where
  rvals : List F
  yvals : List F
  amplitude : List (List (Dbl F))
  interp_yind : Option Nat
  deriving DecidableEq

namespace Dipole

variable {F : Type} [LinearOrderedField F]

/-- Modelled from the spec: `pointCount()`, the number of grid points. -/
def RPoints (d : Dipole F) : Nat := d.rvals.length

/-- Modelled from the spec: `sizeAt(index)`. -/
def RVal (d : Dipole F) (i : Nat) : F := d.rvals.getD i 0

/-- Modelled from the spec: `initializeInterpolationAt(sliceIndex)`. -/
def InitializeInterpolation (d : Dipole F) (yind : Nat) : Dipole F :=
  { d with interp_yind := some yind }

/-- Modelled from the spec: `appendRapiditySlice(y, values) → newIndex`; the
rapidity axis grows by one element, paired with the amplitude vector. -/
def AddRapidity (d : Dipole F) (y : F) (ampvec : List (Dbl F)) : Dipole F × Nat :=
  ({ d with yvals := d.yvals ++ [y], amplitude := d.amplitude ++ [ampvec] },
    d.yvals.length)

end Dipole

/-- Modelled from the spec: the class `Interpolator` is missing; an interpolator is
the sample points it was built from and its boundary policy. -/
structure Interpolator (F : Type) where
  xs : List F
  ys : List (Dbl F)
  freeze : Bool
  underflow : Dbl F
  overflow : Dbl F

/-! ## Results of a run -/

/-- The result of running a piece of the solver: it returned, it called `exit(1)`,
or the fuel of the model ran out.  Each carries the state reached. -/
inductive Run (α : Type) where
  | returned (a : α)
  | exited (a : α)
  | timeout (a : α)
  deriving DecidableEq

/-- The state a run stopped in. -/
def Run.state {α : Type} : Run α → α
  | .returned a => a
  | .exited a => a
  | .timeout a => a

/-! ## The right-hand side `Evolve` -/

section Evolve

variable {F : Type} [LinearOrderedField F]

/-- The sample `n` pushed to `nvals` for the amplitude entry `a` (lines 183-186). -/
def nSample (cfg : Config F) (a : Dbl F) : Dbl F :=
  let n := a
  let n := if Dbl.lt (.fin 1) n then .fin 1 else n
  if Dbl.lt n (.fin 0) && cfg.FORCE_POSITIVE_N then .fin 0 else n

/-- The sample `s` pushed to `yvals_s` for the amplitude entry `a` (lines 188-191). -/
def sSample (cfg : Config F) (a : Dbl F) : Dbl F :=
  let s := Dbl.fin 1 - a
  let s := if Dbl.lt s (.fin 0) then .fin 0 else s
  if Dbl.lt (.fin 1) s && cfg.FORCE_POSITIVE_N then .fin 1 else s

/-- The entry `dydt[i]` written by the loop body of `Evolve` (lines 195-243); `none`
when the process exits inside `RapidityDerivative_lo` or `RapidityDerivative_nlo`.
The two derivative evaluators (GSL quadratures) are the parameters `lo` and `nlo`. -/
def evolveEntry (cfg : Config F)
    (lo : F → Interpolator F → F → Option (Dbl F))
    (nlo : F → Interpolator F → Interpolator F → Option (Dbl F))
    (d : Dipole F) (y : F) (amplitude : List (Dbl F))
    (rvals : List F) (nvals yvals_s : List (Dbl F)) (i : Nat) : Option (Dbl F) :=
  let interp : Interpolator F := ⟨rvals, nvals, true, .fin 0, .fin 1⟩
  if Dbl.lt (.fin (99999 / 100000)) (amplitude.getD i .nan) then some (.fin 0)
  else
    match lo (d.RVal i) interp y with
    | none => none
    | some lo =>
      let interp_s : Interpolator F := ⟨rvals, yvals_s, true, .fin 1, .fin 0⟩
      match (if !cfg.NO_K2 then nlo (d.RVal i) interp interp_s else some (.fin 0)) with
      | none => none
      | some nlo =>
        let dydt := lo + nlo
        if dydt.isnan || dydt.isinf then some (.fin 0) else some dydt

/-- The function `Evolve(y, amplitude, dydt, params)` (lines 169-247): the vector
`dydt`, or `none` when the process exits (in an evaluator, or at the end under
`DNDY`).  `amplitude` has `RPoints()` entries. -/
def Evolve (cfg : Config F)
    (lo : F → Interpolator F → F → Option (Dbl F))
    (nlo : F → Interpolator F → Interpolator F → Option (Dbl F))
    (d : Dipole F) (y : F) (amplitude : List (Dbl F)) : Option (List (Dbl F)) :=
  let idx := List.range d.RPoints
  let rvals := idx.map fun i => d.RVal i
  let nvals := idx.map fun i => nSample cfg (amplitude.getD i .nan)
  let yvals_s := idx.map fun i => sSample cfg (amplitude.getD i .nan)
  match idx.mapM' (evolveEntry cfg lo nlo d y amplitude rvals nvals yvals_s) with
  | none => none
  | some dydt => if cfg.DNDY then none else some dydt

/-- The vector `rvals` built by the first loop of `Evolve` (line 181). -/
def Evolve_rvals (d : Dipole F) : List F :=
  (List.range d.RPoints).map fun i => d.RVal i

/-- The vector `nvals` built by the first loop of `Evolve` (lines 183-186). -/
def Evolve_nvals (cfg : Config F) (d : Dipole F) (amplitude : List (Dbl F)) :
    List (Dbl F) :=
  (List.range d.RPoints).map fun i => nSample cfg (amplitude.getD i .nan)

/-- The vector `yvals_s` built by the first loop of `Evolve` (lines 188-191). -/
def Evolve_yvals_s (cfg : Config F) (d : Dipole F) (amplitude : List (Dbl F)) :
    List (Dbl F) :=
  (List.range d.RPoints).map fun i => sSample cfg (amplitude.getD i .nan)
end Evolve

/-! ## The driver `BKSolver::Solve` -/

section Solve

variable {F : Type} [LinearOrderedField F]

/-- What `gsl_odeiv_evolve_apply` hands back: its status (`0` is `GSL_SUCCESS`), and
the new stepper state, rapidity, step size and amplitude vector. -/
structure OdeOut (F σ : Type) where
  status : Int
  st : σ
  y : F
  h : F
  ampvec : List (Dbl F)

/-- The external collaborators of `Solve`, taken as parameters: `N` is
`dipole->N(r)` (the grid's current interpolation), `lo` and `nlo` are
`RapidityDerivative_lo` and `RapidityDerivative_nlo`, and `apply` is
`gsl_odeiv_evolve_apply(e, c, s, &sys, &y, nexty, &h, ampvec)`, called with the
right-hand side, the stepper state, `y`, `nexty`, `h` and `ampvec`; it is `none`
when the process exits inside the call. -/
structure Extern (F σ : Type) where
  N : Dipole F → F → Dbl F
  lo : F → Interpolator F → F → Option (Dbl F)
  nlo : F → Interpolator F → Interpolator F → Option (Dbl F)
  apply : (F → List (Dbl F) → Option (List (Dbl F))) → σ → F → F → F → List (Dbl F) →
    Option (OdeOut F σ)

/-- The collaborators `ext` with every status of the ODE stepper replaced by
`GSL_SUCCESS`. -/
def withSuccessStatus {σ : Type} (ext : Extern F σ) : Extern F σ :=
  { ext with
    apply := fun sys st y nexty h ampvec =>
      (ext.apply sys st y nexty h ampvec).map fun o => { o with status := 0 } }

/-- The local state of `Solve`: the grid, `y`, `h`, `ampvec` and the GSL stepper. -/
structure SolveState (F σ : Type) where
  dipole : Dipole F
  y : F
  h : F
  ampvec : List (Dbl F)
  st : σ

/-- The loop `while (y<nexty)` of the adaptive branch (lines 103-118).  The status
of a step is only printed. -/
def adaptiveLoop {σ : Type} (cfg : Config F) (ext : Extern F σ) (nexty : F) :
    Nat → SolveState F σ → Run (SolveState F σ)
  | 0, s => .timeout s
  | fuel + 1, s =>
    if s.y < nexty then
      match ext.apply (Evolve cfg ext.lo ext.nlo s.dipole) s.st s.y nexty s.h s.ampvec with
      | none => .exited s
      | some o =>
        adaptiveLoop cfg ext nexty fuel
          { s with st := o.st, y := o.y, h := o.h, ampvec := o.ampvec }
    else .returned s

/-- One rapidity increment, the `if (!EULER_METHOD) ... else ...` of lines
100-147.  The array `ampvec` has `vecsize = RPoints()` entries, all of which the
check of the adaptive branch visits. -/
def solveIncrement {σ : Type} (cfg : Config F) (ext : Extern F σ) (fuel : Nat)
    (s : SolveState F σ) : Run (SolveState F σ) :=
  let step := cfg.DE_SOLVER_STEP
  if !cfg.EULER_METHOD then
    let nexty := s.y + step
    match adaptiveLoop cfg ext nexty fuel s with
    | .timeout s => .timeout s
    | .exited s => .exited s
    | .returned s =>
      if s.ampvec.any (fun a => a.isinf || a.isnan) then .exited s else .returned s
  else
    match Evolve cfg ext.lo ext.nlo s.dipole s.y s.ampvec with
    | none => .exited s
    | some dydt =>
      let ampvec := (List.range s.dipole.RPoints).map fun i =>
        s.ampvec.getD i .nan + .fin step * dydt.getD i .nan
      .returned { s with ampvec := ampvec, y := s.y + step }

/-- The end of the loop body (lines 149-155): `yind = dipole->AddRapidity(y, ampvec)`
and `dipole->InitializeInterpolation(yind)`. -/
def recordSlice {σ : Type} (s : SolveState F σ) : SolveState F σ :=
  let r := s.dipole.AddRapidity s.y s.ampvec
  let yind := r.2
  { s with dipole := r.1.InitializeInterpolation yind }

/-- The loop `do ... while (y < maxy)` of lines 98-158. -/
def solveLoop {σ : Type} (cfg : Config F) (ext : Extern F σ) (maxy : F) :
    Nat → SolveState F σ → Run (SolveState F σ)
  | 0, s => .timeout s
  | fuel + 1, s =>
    match solveIncrement cfg ext fuel s with
    | .timeout s => .timeout s
    | .exited s => .exited s
    | .returned s =>
      let s := recordSlice s
      if s.y < maxy then solveLoop cfg ext maxy fuel s else .returned s

/-- The function `BKSolver::Solve(maxy)` (lines 54-167), run on the grid `d` with
the freshly allocated stepper `st0`. -/
def Solve {σ : Type} (cfg : Config F) (ext : Extern F σ) (d : Dipole F) (st0 : σ)
    (fuel : Nat) (maxy : F) : Run (SolveState F σ) :=
  if cfg.RESUM_DLOG && cfg.KINEMATICAL_CONSTRAINT != KC_NONE then
    .exited ⟨d, 0, cfg.DE_SOLVER_STEP, [], st0⟩
  else
    let vecsize := d.RPoints
    let d := d.InitializeInterpolation 0
    let ampvec := (List.range vecsize).map fun rind => ext.N d (d.RVal rind)
    let y : F := 0
    let step := cfg.DE_SOLVER_STEP
    let h := step
    solveLoop cfg ext maxy fuel ⟨d, y, h, ampvec, st0⟩

end Solve

/-! ## libm and GSL special functions -/

/-- The functions of libm and of GSL the kernels call, taken as parameters: the
constant `M_PI`, `std::sqrt`, `std::cos`, `std::log`, `std::exp`, `std::pow`,
`gsl_sf_bessel_J1`, and `gsl_sf_bessel_I1_e`, which hands back its status (`0` is
`GSL_SUCCESS`) and `res.val`. -/
structure Libm (F : Type) where
  M_PI : F
  sqrt : Dbl F → Dbl F
  cos : Dbl F → Dbl F
  log : Dbl F → Dbl F
  exp : Dbl F → Dbl F
  pow : Dbl F → Dbl F → Dbl F
  gsl_sf_bessel_J1 : Dbl F → Dbl F
  gsl_sf_bessel_I1_e : Dbl F → Int × Dbl F

/-! ## The running coupling `BKSolver::Alphas` -/

section Kernel

variable {F : Type} [LinearOrderedField F]

/-- The function `BKSolver::Alphas(r)` (lines 1210-1290); `alphas_scaling` is the
member of the solver. -/
def Alphas (m : Libm F) (cfg : Config F) (alphas_scaling : F) (r : Dbl F) : Dbl F :=
  if cfg.RC_LO = FIXED_LO ∨ cfg.RESUM_RC = RESUM_RC_FIXED ∨ cfg.RC_NLO = FIXED_NLO then
    .fin cfg.FIXED_AS
  else
    let maxalphas : Dbl F := .fin 1
    if 3 < cfg.NF then
      let dipolescale := .fin 4 * .fin alphas_scaling / (r * r)
      let nf : F :=
        if Dbl.lt dipolescale (Dbl.SQR (.fin (13 / 10))) then 3
        else if Dbl.lt dipolescale (Dbl.SQR (.fin (9 / 2))) then 4
        else 5
      let b0 := .fin 11 - .fin 2 / .fin 3 * .fin nf
      let lambda3 : Dbl F := .fin (146159 / 1000000)
      let lambda4 : Dbl F := .fin (122944 / 1000000)
      let lambda5 : Dbl F := .fin (904389 / 10000000)
      -- the last alternative (`lqcd` left uninitialised) is not reachable: nf is 3, 4 or 5
      let lqcd : Dbl F :=
        if nf = 5 then lambda5 else if nf = 4 then lambda4
        else if nf = 3 then lambda3 else .nan
      let scalefactor := .fin 4 * .fin alphas_scaling
      if Dbl.lt (scalefactor / (r * r * lqcd * lqcd)) (.fin 1) then maxalphas
      else
        let alpha := .fin 4 * .fin m.M_PI / (b0 * m.log (scalefactor / (r * r * lqcd * lqcd)))
        if Dbl.lt maxalphas alpha then maxalphas else alpha
    else
      let Csqr : Dbl F := .fin alphas_scaling
      let rsqr := r * r
      let lambdaqcd : Dbl F := .fin cfg.LAMBDAQCD
      let alphas_mu0 : Dbl F := .fin (5 / 2)
      let alphas_freeze_c : Dbl F := .fin (1 / 5)
      let b0 := (.fin 11 * .fin cfg.NC - .fin 2 * .fin cfg.NF) / .fin 3
      .fin 4 * .fin m.M_PI /
        (b0 * m.log
          (m.pow
            (m.pow alphas_mu0 (.fin 2 / alphas_freeze_c)
              + m.pow (.fin 4 * Csqr / (rsqr * lambdaqcd * lambdaqcd))
                  (.fin 1 / alphas_freeze_c))
            alphas_freeze_c))

/-! ## The LO kernel `BKSolver::Kernel_lo` -/

/-- The double-log resummation factor `resum` of `Kernel_lo` (lines 655-687);
`none` stands for the early `return 0` after a GSL error. -/
def resumFactor (m : Libm F) (cfg : Config F) (resummation_alphas r X Y : Dbl F) :
    Option (Dbl F) :=
  let NC : Dbl F := .fin cfg.NC
  let pi : Dbl F := .fin m.M_PI
  if cfg.RESUM_DLOG && Dbl.lt (.fin (101 / 100) * .fin cfg.MINR) r then
    let x := .fin 4 * m.log (X / r) * m.log (Y / r)
    if Dbl.ge x (.fin 0) then
      let as_x := m.sqrt (resummation_alphas * NC / pi * x)
      let resum := m.gsl_sf_bessel_J1 (.fin 2 * as_x) / as_x
      some (if resum.isnan then .fin 1 else resum)
    else
      let absx := Dbl.abs x
      let as_x := m.sqrt (resummation_alphas * NC / pi * absx)
      let res := m.gsl_sf_bessel_I1_e (.fin 2 * as_x)
      if res.1 ≠ 0 then none
      else
        let resum := res.2 / as_x
        some (if resum.isnan then .fin 1 else resum)
  else some (.fin 1)

/-- The scale `min` of `Kernel_lo` (lines 559-561): the smallest of `X`, `Y`, `r`. -/
def smallestDipole (r X Y : Dbl F) : Dbl F :=
  let min := Dbl.min X Y
  if Dbl.lt r min then r else min

/-- The coupling prescription of `Kernel_lo` (lines 569-623): the pair of `result`
and `alphas_scale`.  The last `else` of the source (an unknown prescription,
`return -1`) has no counterpart, the enumeration being closed. -/
def couplingLO (m : Libm F) (cfg : Config F) (alphas_scaling : F) (r X Y : Dbl F) :
    Dbl F × Dbl F :=
  let NC : Dbl F := .fin cfg.NC
  let pi : Dbl F := .fin m.M_PI
  let alphas := Alphas m cfg alphas_scaling
  let min := smallestDipole r X Y
  match cfg.RC_LO with
  | FIXED_LO =>
    (NC / (.fin 2 * Dbl.SQR pi) * .fin cfg.FIXED_AS * Dbl.SQR (r / (X * Y)), r)
  | BALITSKY_LO =>
    let alphas_y := alphas Y
    let alphas_x := alphas X
    (NC / (.fin 2 * Dbl.SQR pi) * alphas r
      * (Dbl.SQR r / (Dbl.SQR X * Dbl.SQR Y)
          + .fin 1 / Dbl.SQR Y * (alphas_y / alphas_x - .fin 1)
          + .fin 1 / Dbl.SQR X * (alphas_x / alphas_y - .fin 1)), r)
  | SMALLEST_LO =>
    (NC * alphas min / (.fin 2 * Dbl.SQR pi) * Dbl.SQR (r / (X * Y)), min)
  | PARENT_LO =>
    (NC * alphas r / (.fin 2 * Dbl.SQR pi) * Dbl.SQR (r / (X * Y)), r)
  | FRAC_LO =>
    let asbar_r := alphas r * NC / pi
    let asbar_x := alphas X * NC / pi
    let asbar_y := alphas Y * NC / pi
    let result := .fin 1 / (.fin 2 * pi)
      * m.pow (.fin 1 / asbar_r
          + (Dbl.SQR X - Dbl.SQR Y) / Dbl.SQR r * (asbar_x - asbar_y) / (asbar_x * asbar_y))
        (.fin (-1))
    (result * Dbl.SQR (r / (X * Y)), r)
  | GUILLAUME_LO =>
    let r_eff_sqr := r * r * m.pow (Y * Y / (X * X)) ((X * X - Y * Y) / (r * r))
    (NC * alphas (m.sqrt r_eff_sqr) / (.fin 2 * Dbl.SQR pi) * Dbl.SQR (r / (X * Y)),
      m.sqrt r_eff_sqr)

/-- The coupling `resummation_alphas` of `Kernel_lo` (lines 633-648); with
`RESUM_RC_BALITSKY` a message is printed and the value stays `0`.  The last `else`
of the source (an unknown scale, `exit(1)`) has no counterpart, the enumeration
being closed. -/
def resummationAlphas (m : Libm F) (cfg : Config F) (alphas_scaling : F)
    (r min alphas_scale : Dbl F) : Dbl F :=
  match cfg.RESUM_RC with
  | RESUM_RC_PARENT => Alphas m cfg alphas_scaling r
  | RESUM_RC_SMALLEST => Alphas m cfg alphas_scaling min
  | RESUM_RC_GUILLAUME => Alphas m cfg alphas_scaling alphas_scale
  | RESUM_RC_BALITSKY => .fin 0
  | RESUM_RC_FIXED => Alphas m cfg alphas_scaling r

/-- The end of `Kernel_lo` (lines 713-761), once `result`, `resum` and the single-log
factors are computed; `none` when the kernel calls `exit(1)`. -/
def combineLO (m : Libm F) (cfg : Config F) (alphas_scaling : F)
    (r X Y result alphas_scale resum singlelog_resum singlelog_resum_expansion : Dbl F) :
    Option (Dbl F) :=
  let NC : Dbl F := .fin cfg.NC
  let NF : Dbl F := .fin cfg.NF
  let pi : Dbl F := .fin m.M_PI
  let dlog : Dbl F :=
    if cfg.DOUBLELOG_LO_KERNEL == false || cfg.RESUM_DLOG == true
        || cfg.KINEMATICAL_CONSTRAINT == KC_BEUF_K_PLUS then .fin 0
    else .fin 1
  if result.isnan || result.isinf then some (.fin 0)
  else
    let lo_kernel := Alphas m cfg alphas_scaling alphas_scale * NC / (.fin 2 * pi * pi)
      * Dbl.SQR (r / (X * Y))
    let k1fin := lo_kernel * Alphas m cfg alphas_scaling alphas_scale * NC / (.fin 4 * pi)
      * (.fin 67 / .fin 9 - Dbl.SQR pi / .fin 3 - .fin 10 / .fin 9 * NF / NC
          - dlog * .fin 2 * .fin 2 * m.log (X / r) * .fin 2 * m.log (Y / r))
    if cfg.KINEMATICAL_CONSTRAINT == KC_BEUF_K_PLUS && cfg.NO_K2 == false then
      if cfg.RESUM_DLOG == true || cfg.RESUM_SINGLE_LOG == true then none
      else some (result + k1fin)
    else if cfg.RESUM_DLOG == false && cfg.RESUM_SINGLE_LOG == false then some result
    else if cfg.NO_K2 && (cfg.RESUM_DLOG || cfg.RESUM_SINGLE_LOG) then
      some (resum * singlelog_resum * result)
    else
      let subtract :=
        if cfg.RESUM_RC != RESUM_RC_BALITSKY then lo_kernel * singlelog_resum_expansion
        else result * singlelog_resum_expansion
      some (resum * singlelog_resum * result - subtract + k1fin)

/-- The body of `Kernel_lo` once the daughter distances `X` and `Y` are computed
(lines 550-761); `none` when the kernel calls `exit(1)`. -/
def Kernel_lo_XY (m : Libm F) (cfg : Config F) (alphas_scaling : F) (r X Y : Dbl F) :
    Option (Dbl F) :=
  let NC : Dbl F := .fin cfg.NC
  let pi : Dbl F := .fin m.M_PI
  let min := smallestDipole r X Y
  let eps : Dbl F := .fin (1 / 10 ^ 50)
  let ra := couplingLO m cfg alphas_scaling r X Y
  let alphas_scale := ra.2
  let result := if ra.1.isnan || ra.1.isinf then .fin 0 else ra.1
  let resummation_alphas := resummationAlphas m cfg alphas_scaling r min alphas_scale
  match resumFactor m cfg resummation_alphas r X Y with
  | none => some (.fin 0)
  | some resum =>
    -- resum single logs
    let minxy0 := Dbl.min X Y
    let minxy := if Dbl.lt (Dbl.abs minxy0) eps then eps else minxy0
    let alphabar := resummation_alphas * NC / pi
    let A1 : Dbl F := .fin 11 / .fin 12
    let singlelog_resum : Dbl F :=
      if cfg.RESUM_SINGLE_LOG then
        m.exp (-alphabar * A1 * Dbl.abs (m.log (.fin cfg.KSUB * Dbl.SQR (r / minxy))))
      else .fin 1
    let singlelog_resum_expansion : Dbl F :=
      if cfg.RESUM_SINGLE_LOG then
        -alphabar * A1 * Dbl.abs (.fin 2 * m.log (m.sqrt (.fin cfg.KSUB) * r / minxy))
      else .fin 0
    combineLO m cfg alphas_scaling r X Y result alphas_scale resum singlelog_resum
      singlelog_resum_expansion

/-- The function `BKSolver::Kernel_lo(r, z, theta)` (lines 541-776): `Y = z`,
`X = sqrt(r*r + z*z - 2*r*z*cos(theta))`. -/
def Kernel_lo (m : Libm F) (cfg : Config F) (alphas_scaling : F) (r z theta : Dbl F) :
    Option (Dbl F) :=
  let Y := z
  let X := m.sqrt (r * r + z * z - .fin 2 * r * z * m.cos theta)
  Kernel_lo_XY m cfg alphas_scaling r X Y

/-- An idealised libm over the field `F`, built from functions on finite values:
they are applied inside their domain, outside of it the IEEE special value is
returned (a negative base of `pow` gives NaN). -/
def Libm.ofField (pi : F) (sqrt cos log exp : F → F) (pow : F → F → F)
    (besselJ1 besselI1 : F → F) : Libm F where
  M_PI := pi
  sqrt := fun a =>
    match a with
    | .fin x => if x < 0 then .nan else .fin (sqrt x)
    | .pinf => .pinf
    | _ => .nan
  cos := fun a =>
    match a with
    | .fin x => .fin (cos x)
    | _ => .nan
  log := fun a =>
    match a with
    | .fin x => if x < 0 then .nan else if x = 0 then .ninf else .fin (log x)
    | .pinf => .pinf
    | _ => .nan
  exp := fun a =>
    match a with
    | .fin x => .fin (exp x)
    | .pinf => .pinf
    | .ninf => .fin 0
    | .nan => .nan
  pow := fun a b =>
    match a, b with
    | .fin x, .fin y =>
      if 0 < x then .fin (pow x y)
      else if x = 0 then (if 0 < y then .fin 0 else if y = 0 then .fin 1 else .pinf)
      else .nan
    | _, _ => .nan
  gsl_sf_bessel_J1 := fun a =>
    match a with
    | .fin x => .fin (besselJ1 x)
    | _ => .nan
  gsl_sf_bessel_I1_e := fun a =>
    match a with
    | .fin x => (0, .fin (besselI1 x))
    | _ => (1, .nan)

/-- A configuration over any field: fixed coupling `1/5`, `NC = 3`, `NF = 3`, no
resummation, no kinematical constraint, explicit Euler stepping with step size 1,
the NLO kernel and `DNDY` off. -/
def fixedConfig (F : Type) [LinearOrderedField F] : Config F :=
  { RC_LO := FIXED_LO, RC_NLO := FIXED_NLO, RESUM_RC := RESUM_RC_FIXED,
    KINEMATICAL_CONSTRAINT := KC_NONE, TARGET_KINEMATICAL_CONSTRAINT := false,
    RESUM_DLOG := false, RESUM_SINGLE_LOG := false,
    DOUBLELOG_LO_KERNEL := false, NO_K2 := true, EULER_METHOD := true,
    FORCE_POSITIVE_N := true, DNDY := false, INTMETHOD_NLO := .MULTIPLE,
    MCINTPOINTS := 1000, MCINTACCURACY := 1 / 5, DE_SOLVER_STEP := 1, FIXED_AS := 1 / 5,
    NC := 3, NF := 3, LAMBDAQCD := 241 / 1000, KSUB := 1, MINR := 1 / 1000000 }

/-- The configuration `fixedConfig` with the Balitsky LO prescription. -/
def balitskyConfig (F : Type) [LinearOrderedField F] : Config F :=
  { fixedConfig F with RC_LO := BALITSKY_LO }

/-- A running-coupling configuration: parent-dipole prescriptions throughout. -/
def runningConfig (F : Type) [LinearOrderedField F] : Config F :=
  { fixedConfig F with
    RC_LO := PARENT_LO, RC_NLO := PARENT_NLO, RESUM_RC := RESUM_RC_PARENT }

/-- A running-coupling configuration with the effective-scale LO prescription. -/
def guillaumeConfig (F : Type) [LinearOrderedField F] : Config F :=
  { runningConfig F with RC_LO := GUILLAUME_LO, RESUM_RC := RESUM_RC_GUILLAUME }

/-- The configuration `fixedConfig` with the K+ kinematical constraint and the NLO
kernel on. -/
def kplusConfig (F : Type) [LinearOrderedField F] : Config F :=
  { fixedConfig F with KINEMATICAL_CONSTRAINT := KC_BEUF_K_PLUS, NO_K2 := false }

/-- The configuration `fixedConfig` (NLO kernel off) with the K+ kinematical
constraint and single-log resummation. -/
def kplusSingleLogConfig (F : Type) [LinearOrderedField F] : Config F :=
  { fixedConfig F with KINEMATICAL_CONSTRAINT := KC_BEUF_K_PLUS, RESUM_SINGLE_LOG := true }

/-! ## The NLO kernels `BKSolver::Kernel_nlo` and `BKSolver::Kernel_nlo_fermion` -/

/-- The function `BKSolver::Kernel_nlo(r, X, Y, X2, Y2, z_m_z2)` (lines 1167-1185). -/
def Kernel_nlo (m : Libm F) (r X Y X2 Y2 z_m_z2 : Dbl F) : Dbl F :=
  let kernel0 := Dbl.fin (-2) / m.pow z_m_z2 (.fin 4)
  let kernel1 := kernel0 +
    ((Dbl.SQR (X * Y2) + Dbl.SQR (X2 * Y) - .fin 4 * Dbl.SQR (r * z_m_z2))
        / (m.pow z_m_z2 (.fin 4) * (Dbl.SQR (X * Y2) - Dbl.SQR (X2 * Y)))
      + m.pow r (.fin 4) / (Dbl.SQR (X * Y2) * (Dbl.SQR (X * Y2) - Dbl.SQR (X2 * Y)))
      + Dbl.SQR r / Dbl.SQR (X * Y2 * z_m_z2))
    * .fin 2 * m.log (X * Y2 / (X2 * Y))
  if kernel1.isnan || kernel1.isinf then .fin 0 else kernel1

/-- The function `BKSolver::Kernel_nlo_fermion(r, X, Y, X2, Y2, z_m_z2)` (lines
1187-1204). -/
def Kernel_nlo_fermion (m : Libm F) (cfg : Config F) (r X Y X2 Y2 z_m_z2 : Dbl F) :
    Dbl F :=
  let kernel0 := Dbl.fin 2 / m.pow z_m_z2 (.fin 4)
  let kernel1 := kernel0 -
    (Dbl.SQR (X * Y2) + Dbl.SQR (X2 * Y) - Dbl.SQR (r * z_m_z2))
        / (m.pow z_m_z2 (.fin 4) * (Dbl.SQR (X * Y2) - Dbl.SQR (X2 * Y)))
      * .fin 2 * m.log (X * Y2 / (X2 * Y))
  let kernel2 := kernel1 * (.fin cfg.NF / .fin cfg.NC)
  if kernel2.isinf || kernel2.isnan then .fin 0 else kernel2

/-! ## The NLO integrand `Inthelperf_nlo` -/

/-- The function `RapidityShift(r, X)` (lines 352-370). -/
def RapidityShift (m : Libm F) (r X : Dbl F) : Dbl F :=
  if Dbl.lt X (.fin (1 / 10 ^ 10)) then .fin 0
  else Dbl.max (.fin 0) (m.log (r * r / (X * X)))

/-- Modelled from the spec: the header of `BKSolver` is missing; the members the LO
integrand reads through `GetX0()`, `GetICX0_nlo_impfac()` and
`GetICTypicalPartonVirtualityQ0sqr()`. -/
structure SolverParams (F : Type) where
  X0 : F
  ICX0_nlo_impfac : F
  ICTypicalPartonVirtualityQ0sqr : F

/-- The amplitude evaluations the LO integrand calls, whose sources are missing:
`Interpolator::Evaluate`, `Dipole::InterpolateN(r, y)` and the
`DipoleAmplitude(r)` of the initial condition. -/
structure AmplitudeEval (F : Type) where
  Evaluate : Interpolator F → Dbl F → Dbl F
  InterpolateN : Dbl F → Dbl F → Dbl F
  DipoleAmplitude : Dbl F → Dbl F

/-- The first test of `Inthelperf_lo_theta` (line 392): a size below `MINR`. -/
def sizeCut (cfg : Config F) (Xsqr z r : Dbl F) : Bool :=
  Dbl.lt Xsqr (Dbl.SQR (.fin cfg.MINR)) || Dbl.lt z (.fin cfg.MINR)
    || Dbl.lt r (.fin cfg.MINR)

/-- The target kinematical constraint of `Inthelperf_lo_theta` (lines 404-410); `eps`
is the file-level constant `1e-30`. -/
def targetCut (m : Libm F) (cfg : Config F) (sp : SolverParams F)
    (X Y rapidity : Dbl F) : Bool :=
  if cfg.TARGET_KINEMATICAL_CONSTRAINT then
    let eps : Dbl F := .fin (1 / 10 ^ 30)
    let Delta := m.log (.fin 1 /
      (.fin sp.ICTypicalPartonVirtualityQ0sqr * Dbl.min (X * X) (Y * Y) + eps))
    Dbl.lt (.fin sp.ICX0_nlo_impfac) (.fin sp.X0 * m.exp (-(rapidity - Delta)))
  else false

/-- The branch `KC_BEUF_K_PLUS` of `Inthelperf_lo_theta` (lines 438-460); `none` when
`Kernel_lo` exits. -/
def loIntegrandKplus (m : Libm F) (cfg : Config F) (alphas_scaling : F)
    (sp : SolverParams F) (ev : AmplitudeEval F)
    (r z rapidity : Dbl F) (dipole_interp : Interpolator F) (theta X Y : Dbl F) :
    Option (Dbl F) :=
  let delta012 := Dbl.max (.fin 0) (m.log (Dbl.min (X * X) (Y * Y) / (r * r)))
  let shifted_rapidity0 := rapidity - delta012
  if Dbl.lt (.fin sp.ICX0_nlo_impfac) (.fin sp.X0 * m.exp (-shifted_rapidity0)) then
    some (.fin 0)
  else
    let shifted_rapidity :=
      if Dbl.lt shifted_rapidity0 (.fin 0) then .fin 0 else shifted_rapidity0
    let N_r := ev.Evaluate dipole_interp r
    let s02 := .fin 1 - ev.InterpolateN X shifted_rapidity
    let s12 := .fin 1 - ev.InterpolateN Y shifted_rapidity
    let s01 := .fin 1 - N_r
    match Kernel_lo m cfg alphas_scaling r z theta with
    | none => none
    | some k => some (k * (-s02 * s12 + s01))

/-- The branch `KC_EDMOND_K_MINUS` of `Inthelperf_lo_theta` (lines 461-518); `none`
when `Kernel_lo` exits or the result is NaN. -/
def loIntegrandKminus (m : Libm F) (cfg : Config F) (alphas_scaling : F)
    (ev : AmplitudeEval F)
    (r z rapidity : Dbl F) (dipole_interp : Interpolator F) (theta X Y : Dbl F) :
    Option (Dbl F) :=
  let eps : Dbl F := .fin (1 / 10 ^ 30)
  let xyzshift := Dbl.max (.fin 0) (m.log (r * r / Dbl.min (X * X + eps) (Y * Y + eps)))
  if Dbl.lt (rapidity - xyzshift) (.fin 0) then some (.fin 0)
  else
    let shifted_S_X0 :=
      if Dbl.lt (.fin 0) (rapidity - RapidityShift m r X) then
        .fin 1 - ev.InterpolateN X (rapidity - RapidityShift m r X)
      else .fin 1 - ev.DipoleAmplitude X
    let shifted_S_Y0 :=
      if Dbl.lt (.fin 0) (rapidity - RapidityShift m r Y) then
        .fin 1 - ev.InterpolateN Y (rapidity - RapidityShift m r Y)
      else .fin 1 - ev.DipoleAmplitude Y
    let S_r0 :=
      if Dbl.lt (.fin 0) rapidity then .fin 1 - ev.Evaluate dipole_interp r
      else .fin 1 - ev.DipoleAmplitude r
    let shifted_S_X := if Dbl.lt shifted_S_X0 (.fin 0) then .fin 0 else shifted_S_X0
    let shifted_S_Y := if Dbl.lt shifted_S_Y0 (.fin 0) then .fin 0 else shifted_S_Y0
    let S_r := if Dbl.lt S_r0 (.fin 0) then .fin 0 else S_r0
    match Kernel_lo m cfg alphas_scaling r z theta with
    | none => none
    | some k =>
      let res := -k * (shifted_S_X * shifted_S_Y - S_r)
      if res.isnan then none else some res

/-- The function `Inthelperf_lo_theta(theta, p)` (lines 381-528), `p` holding the
solver, `r`, `z`, the N-interpolator and the rapidity; `none` when the process
exits.  The last `else` of the source (an unknown constraint, `exit(1)`) has no
counterpart, the enumeration being closed. -/
def Inthelperf_lo_theta (m : Libm F) (cfg : Config F) (alphas_scaling : F)
    (sp : SolverParams F) (ev : AmplitudeEval F)
    (r z rapidity : Dbl F) (dipole_interp : Interpolator F) (theta : Dbl F) :
    Option (Dbl F) :=
  let Xsqr := r * r + z * z - .fin 2 * r * z * m.cos theta
  if sizeCut cfg Xsqr z r then some (.fin 0)
  else
    let X := m.sqrt Xsqr
    let Y := z
    if targetCut m cfg sp X Y rapidity then some (.fin 0)
    else if X.isnan || Y.isnan then none
    else
      match cfg.KINEMATICAL_CONSTRAINT with
      | KC_NONE =>
        let N_X := ev.Evaluate dipole_interp X
        let N_Y := ev.Evaluate dipole_interp Y
        let N_r := ev.Evaluate dipole_interp r
        match Kernel_lo m cfg alphas_scaling r z theta with
        | none => none
        | some k => some (k * (N_X + N_Y - N_r - N_X * N_Y))
      | KC_BEUF_K_PLUS =>
        if !cfg.EULER_METHOD then none
        else loIntegrandKplus m cfg alphas_scaling sp ev r z rapidity dipole_interp theta X Y
      | KC_EDMOND_K_MINUS =>
        if !cfg.EULER_METHOD then none
        else loIntegrandKminus m cfg alphas_scaling ev r z rapidity dipole_interp theta X Y

/-- The configuration `kplusConfig` with the adaptive stepper. -/
def kplusAdaptiveConfig (F : Type) [LinearOrderedField F] : Config F :=
  { kplusConfig F with EULER_METHOD := false }

/-! ## The single-log resummation factors of `Kernel_lo` -/

/-- The value `minxy` of `Kernel_lo` (lines 694-695): the smaller of `X` and `Y`,
replaced by the local `eps = 1e-50` when below it in absolute value. -/
def singlelogMinxy (X Y : Dbl F) : Dbl F :=
  let eps : Dbl F := .fin (1 / 10 ^ 50)
  let minxy0 := Dbl.min X Y
  if Dbl.lt (Dbl.abs minxy0) eps then eps else minxy0

/-- The factor `singlelog_resum` of `Kernel_lo` (lines 692, 697-703). -/
def singlelog_resum (m : Libm F) (cfg : Config F) (resummation_alphas r X Y : Dbl F) :
    Dbl F :=
  let minxy := singlelogMinxy X Y
  let alphabar := resummation_alphas * .fin cfg.NC / .fin m.M_PI
  let A1 : Dbl F := .fin 11 / .fin 12
  if cfg.RESUM_SINGLE_LOG then
    m.exp (-alphabar * A1 * Dbl.abs (m.log (.fin cfg.KSUB * Dbl.SQR (r / minxy))))
  else .fin 1

/-- The term `singlelog_resum_expansion` of `Kernel_lo` (lines 693, 697-709). -/
def singlelog_resum_expansion (m : Libm F) (cfg : Config F)
    (resummation_alphas r X Y : Dbl F) : Dbl F :=
  let minxy := singlelogMinxy X Y
  let alphabar := resummation_alphas * .fin cfg.NC / .fin m.M_PI
  let A1 : Dbl F := .fin 11 / .fin 12
  if cfg.RESUM_SINGLE_LOG then
    -alphabar * A1 * Dbl.abs (.fin 2 * m.log (m.sqrt (.fin cfg.KSUB) * r / minxy))
  else .fin 0
/-! ## The variable-flavour scheme of `Alphas`, in the words of the specification -/

/-- The active flavour count of the variable-flavour scheme: 3 below the first
heavy-quark threshold `1.3^2` of the scale, 4 below the second one `4.5^2`, else 5. -/
def flavourCount (scale : F) : F :=
  if scale < 13 / 10 * (13 / 10) then 3 else if scale < 9 / 2 * (9 / 2) then 4 else 5

/-- The preset value of Lambda for the active flavour count `nf`. -/
def presetLambda (nf : F) : F :=
  if nf = 5 then 904389 / 10000000 else if nf = 4 then 122944 / 1000000
  else 146159 / 1000000

/-- A running-coupling configuration in the variable-flavour scheme (`NF = 4`) with
two colours. -/
def flavourConfig (F : Type) [LinearOrderedField F] : Config F :=
  { runningConfig F with NF := 4, NC := 2 }

end Kernel

/-! ## The NLO derivative `BKSolver::RapidityDerivative_nlo` -/

section NloDerivative

open IntMethodNLO

/-- What a GSL Monte Carlo integration hands back: the new state of the integrator
(and of the random number generator), `result` and `abserr`. -/
structure MonteOut (F σ : Type) where
  st : σ
  result : Dbl F
  abserr : Dbl F

/-- The GSL integrators `RapidityDerivative_nlo` calls, as functions of the state
they own and of the number of calls; the integrand and the integration box, fixed by
`r` and the two interpolators, are part of them.  `qag` is the result the nested
quadrature `gsl_integration_qag` writes. -/
structure Integrators (F σ : Type) where
  qag : Dbl F
  gsl_monte_vegas_integrate : σ → Nat → MonteOut F σ
  gsl_monte_vegas_chisq : σ → Dbl F
  gsl_monte_miser_integrate : σ → Nat → MonteOut F σ

variable {F : Type} [LinearOrderedField F] {σ : Type}

/-- The convergence test of the VEGAS loop (line 876), on the pass `out`: true when
the pass is to be refined further. -/
def vegasUnconverged (gsl : Integrators F σ) (out : MonteOut F σ) : Bool :=
  Dbl.lt (.fin (3 / 10)) (Dbl.abs (out.abserr / out.result))
    || Dbl.lt (.fin (1 / 2)) (Dbl.abs (gsl.gsl_monte_vegas_chisq out.st - .fin 1))

/-- The `do ... while` loop of the VEGAS branch (lines 866-876), entered with `iters`
passes done; the last pass and the number of passes, `none` when the fuel of the
model runs out.  `maxiter_vegas` is 3. -/
def vegasLoop (gsl : Integrators F σ) (calls : Nat) :
    Nat → σ → Nat → Option (MonteOut F σ × Nat)
  | 0, _, _ => none
  | fuel + 1, s, iters =>
    let out := gsl.gsl_monte_vegas_integrate s calls
    let iters1 := iters + 1
    if vegasUnconverged gsl out && decide (iters1 < 3) then
      vegasLoop gsl calls fuel out.st iters1
    else some (out, iters1)

/-- The `do ... while` loop of the MISER branch (lines 895-910), entered with `iter`
rounds done; the value returned and the state of the integrator, `none` when the
fuel of the model runs out. -/
def miserLoop (cfg : Config F) (gsl : Integrators F σ) (calls : Nat) :
    Nat → σ → Nat → Option (Dbl F × σ)
  | 0, _, _ => none
  | fuel + 1, s, iter =>
    let iter1 := iter + 1
    if 2 ≤ iter1 then some (.fin 0, s)
    else
      let out := gsl.gsl_monte_miser_integrate s calls
      if Dbl.lt (.fin cfg.MCINTACCURACY) (Dbl.abs (out.abserr / out.result)) then
        miserLoop cfg gsl calls fuel out.st iter1
      else some (out.result, out.st)

/-- The function `BKSolver::RapidityDerivative_nlo` (lines 791-925): the value
returned and the state the integrators are left in, `none` when the fuel of the
model runs out.  An unknown method (`result` left uninitialised) has no counterpart,
the enumeration being closed. -/
def RapidityDerivative_nlo (cfg : Config F) (gsl : Integrators F σ) (fuel : Nat)
    (s0 : σ) : Option (Dbl F × σ) :=
  match cfg.INTMETHOD_NLO with
  | MULTIPLE => some (gsl.qag, s0)
  | VEGAS =>
    let calls := cfg.MCINTPOINTS
    let warmup := gsl.gsl_monte_vegas_integrate s0 (calls / 5)
    match vegasLoop gsl calls fuel warmup.st 0 with
    | none => none
    | some (out, iters) =>
      if 3 ≤ iters then some (.fin 0, out.st) else some (out.result, out.st)
  | MISER => miserLoop cfg gsl cfg.MCINTPOINTS fuel s0 0

end NloDerivative

/-! ## Concrete inputs -/

section Inputs

/-- The configuration `fixedConfig` over the rationals: explicit Euler stepping with
step size 1, the NLO kernel and `DNDY` off. -/
def eulerConfig : Config ℚ := fixedConfig ℚ

/-- The same configuration with the adaptive stepper. -/
def adaptiveConfig : Config ℚ := { eulerConfig with EULER_METHOD := false }

/-- The configuration `Solve` rejects: double-log resummation with the K+ constraint. -/
def clashConfig : Config ℚ :=
  { eulerConfig with RESUM_DLOG := true, KINEMATICAL_CONSTRAINT := KC_BEUF_K_PLUS }

/-- A grid with the single size `r = 1` and the initial condition `N = 0` at `y = 0`. -/
def unitGrid : Dipole ℚ :=
  { rvals := [1], yvals := [0], amplitude := [[.fin 0]], interp_yind := none }

/-- An ODE stepper that reaches `nexty` in one successful call; its state counts the
calls. -/
def oneShotApply (_sys : ℚ → List (Dbl ℚ) → Option (List (Dbl ℚ))) (st : Nat)
    (_y nexty h : ℚ) (ampvec : List (Dbl ℚ)) : Option (OdeOut ℚ Nat) :=
  some { status := 0, st := st + 1, y := nexty, h := h, ampvec := ampvec }

/-- An ODE stepper whose first call fails (status `-1`, nothing advanced) and whose
later calls reach `nexty`; its state counts the calls. -/
def flakyApply (_sys : ℚ → List (Dbl ℚ) → Option (List (Dbl ℚ))) (st : Nat)
    (y nexty h : ℚ) (ampvec : List (Dbl ℚ)) : Option (OdeOut ℚ Nat) :=
  if st = 0 then some { status := -1, st := st + 1, y := y, h := h, ampvec := ampvec }
  else some { status := 0, st := st + 1, y := nexty, h := h, ampvec := ampvec }

/-- A grid with the single size `r = 1` whose initial condition is NaN. -/
def nanGrid : Dipole ℚ :=
  { rvals := [1], yvals := [0], amplitude := [[.nan]], interp_yind := none }

/-- An amplitude evaluation that is exact at the grid points: the value stored for
`r` in the slice the interpolation is initialised at. -/
def lookupN (d : Dipole ℚ) (r : ℚ) : Dbl ℚ :=
  (d.amplitude.getD (d.interp_yind.getD 0) []).getD (d.rvals.indexOf r) .nan

/-- Collaborators with the exact amplitude lookup, vanishing derivatives and the
stepper `oneShotApply`. -/
def quietExtern : Extern ℚ Nat :=
  { N := lookupN, lo := fun _ _ _ => some (.fin 0),
    nlo := fun _ _ _ => some (.fin 0), apply := oneShotApply }

/-- The collaborators of `quietExtern` with the stepper `flakyApply`. -/
def flakyExtern : Extern ℚ Nat := { quietExtern with apply := flakyApply }

/-- The configuration `fixedConfig` with the NLO kernel on and the VEGAS method. -/
def vegasConfig : Config ℚ := { fixedConfig ℚ with NO_K2 := false, INTMETHOD_NLO := .VEGAS }

/-- The configuration `fixedConfig` with the NLO kernel on and the MISER method. -/
def miserConfig : Config ℚ := { fixedConfig ℚ with NO_K2 := false, INTMETHOD_NLO := .MISER }

/-- Integrators whose state counts the integrations done.  Every integration gives
the result 1; the error estimate is 1 in the first three VEGAS integrations (the
warm-up and two passes) and in the first MISER integration, and 0 afterwards.  The
`chi^2` of VEGAS is 1. -/
def lateIntegrators : Integrators ℚ Nat :=
  { qag := .fin 0,
    gsl_monte_vegas_integrate := fun s _ =>
      { st := s + 1, result := .fin 1, abserr := if s < 3 then .fin 1 else .fin 0 },
    gsl_monte_vegas_chisq := fun _ => .fin 1,
    gsl_monte_miser_integrate := fun s _ =>
      { st := s + 1, result := .fin 1, abserr := if s < 1 then .fin 1 else .fin 0 } }

end Inputs

end NloBK

/-! # Theorems -/

namespace NloBK

open KinematicalConstraint RunningCouplingLO RunningCouplingNLO ResumRC

/-! ## Arithmetic of doubles -/

namespace Dbl

section Tests

variable {F : Type}

@[simp] theorem isnan_fin (a : F) : isnan (fin a) = false := rfl

@[simp] theorem isinf_fin (a : F) : isinf (fin a) = false := rfl

@[simp] theorem isnan_nan : isnan (nan : Dbl F) = true := rfl

@[simp] theorem isinf_nan : isinf (nan : Dbl F) = false := rfl

end Tests

variable {F : Type} [LinearOrderedField F]

@[simp] theorem fin_add_fin (a b : F) : (fin a + fin b : Dbl F) = fin (a + b) := rfl

@[simp] theorem fin_mul_fin (a b : F) : (fin a * fin b : Dbl F) = fin (a * b) := rfl

@[simp] theorem neg_fin (a : F) : (-(fin a) : Dbl F) = fin (-a) := rfl

@[simp] theorem fin_sub_fin (a b : F) : (fin a - fin b : Dbl F) = fin (a - b) := by
  show add (fin a) (neg (fin b)) = fin (a - b)
  simp [add, neg, sub_eq_add_neg]

theorem fin_div_fin (a : F) {b : F} (hb : b ≠ 0) :
    (fin a / fin b : Dbl F) = fin (a / b) := by
  show div (fin a) (fin b) = fin (a / b)
  simp [div, hb]

@[simp] theorem lt_fin_fin (a b : F) : lt (fin a) (fin b) = decide (a < b) := rfl

@[simp] theorem ge_fin_fin (a b : F) : ge (fin a) (fin b) = decide (b ≤ a) := rfl

@[simp] theorem SQR_fin (a : F) : SQR (fin a) = fin (a * a) := rfl

@[simp] theorem nan_add (a : Dbl F) : (nan + a : Dbl F) = nan := by
  show add nan a = nan
  cases a <;> rfl

@[simp] theorem add_nan (a : Dbl F) : (a + nan : Dbl F) = nan := by
  show add a nan = nan
  cases a <;> rfl

/-- Multiplication of doubles is `mul`. -/
theorem mul_def (a b : Dbl F) : a * b = mul a b := rfl

/-- Addition of doubles is `add`. -/
theorem add_def (a b : Dbl F) : a + b = add a b := rfl

/-- Subtraction of doubles is the addition of the opposite. -/
theorem sub_def (a b : Dbl F) : a - b = add a (neg b) := rfl

/-- The opposite of a double is `neg`. -/
theorem neg_def (a : Dbl F) : -a = neg a := rfl

/-- The signed infinity of a positive number. -/
theorem signedInf_pos {a : F} (h : 0 < a) (alt : Dbl F) : signedInf a alt = pinf := by
  simp [signedInf, h]

/-- The signed infinity of a negative number. -/
theorem signedInf_neg {a : F} (h : a < 0) (alt : Dbl F) : signedInf a alt = ninf := by
  simp [signedInf, h, not_lt_of_gt h]

/-- The signed infinity of zero is the alternative. -/
theorem signedInf_zero (alt : Dbl F) : signedInf (0 : F) alt = alt := by
  simp [signedInf]

/-- A double is NaN, an infinity, or a finite number that is negative, zero or
positive. -/
theorem cases6 (a : Dbl F) :
    a = nan ∨ a = pinf ∨ a = ninf ∨ (∃ x, a = fin x ∧ x < 0) ∨ a = fin 0 ∨
      (∃ x, a = fin x ∧ 0 < x) := by
  rcases a with x | _ | _ | _
  · rcases lt_trichotomy x 0 with h | h | h
    · exact Or.inr (Or.inr (Or.inr (Or.inl ⟨x, rfl, h⟩)))
    · exact Or.inr (Or.inr (Or.inr (Or.inr (Or.inl (by rw [h])))))
    · exact Or.inr (Or.inr (Or.inr (Or.inr (Or.inr ⟨x, rfl, h⟩))))
  · exact Or.inr (Or.inl rfl)
  · exact Or.inr (Or.inr (Or.inl rfl))
  · exact Or.inl rfl

/-- Addition of doubles is commutative. -/
protected theorem add_comm (a b : Dbl F) : a + b = b + a := by
  cases a <;> cases b <;> simp [add_def, add, add_comm]

/-- Addition of doubles is associative (no rounding in the model). -/
protected theorem add_assoc (a b c : Dbl F) : a + b + c = a + (b + c) := by
  cases a <;> cases b <;> cases c <;> simp [add_def, add, add_assoc]

/-- Multiplication of doubles is commutative. -/
protected theorem mul_comm (a b : Dbl F) : a * b = b * a := by
  cases a <;> cases b <;> simp [mul_def, mul, mul_comm]

/-- Multiplication of doubles is associative (no rounding in the model). -/
protected theorem mul_assoc (a b c : Dbl F) : a * b * c = a * (b * c) := by
  rcases cases6 a with rfl | rfl | rfl | ⟨x, rfl, hx⟩ | rfl | ⟨x, rfl, hx⟩ <;>
  rcases cases6 b with rfl | rfl | rfl | ⟨y, rfl, hy⟩ | rfl | ⟨y, rfl, hy⟩ <;>
  rcases cases6 c with rfl | rfl | rfl | ⟨z, rfl, hz⟩ | rfl | ⟨z, rfl, hz⟩
  all_goals
    simp [mul_def, mul, signedInf_pos, signedInf_neg, signedInf_zero, mul_assoc, *,
      mul_pos, mul_pos_of_neg_of_neg, mul_neg_of_pos_of_neg, mul_neg_of_neg_of_pos]

/-- The product of two opposites. -/
theorem neg_mul_neg (a b : Dbl F) : -a * -b = a * b := by
  rcases cases6 a with rfl | rfl | rfl | ⟨x, rfl, hx⟩ | rfl | ⟨x, rfl, hx⟩ <;>
  rcases cases6 b with rfl | rfl | rfl | ⟨y, rfl, hy⟩ | rfl | ⟨y, rfl, hy⟩
  all_goals
    simp [mul_def, neg_def, neg, mul, signedInf_pos, signedInf_neg, signedInf_zero, *]

/-- The opposite of a difference. -/
theorem neg_sub (a b : Dbl F) : -(a - b) = b - a := by
  cases a <;> cases b <;> simp [sub_def, neg_def, add, neg]

/-- On finite values `std::min` is symmetric. -/
theorem min_fin_comm (x y : F) : Dbl.min (fin x) (fin y) = Dbl.min (fin y) (fin x) := by
  simp only [Dbl.min, lt_fin_fin]
  rcases lt_trichotomy x y with h | h | h
  · simp [h, not_lt_of_gt h]
  · simp [h]
  · simp [h, not_lt_of_gt h]

end Dbl

/-! ## Theorems on `Solve` -/

section SolveTheorems

variable {F : Type} [LinearOrderedField F]

/-- A loop over an index list whose body never exits yields one value per index. -/
theorem mapM_option_some {α β : Type} (f : α → Option β) (l : List α)
    (h : ∀ a, (f a).isSome = true) : ∃ bs, l.mapM' f = some bs ∧ bs.length = l.length := by
  induction l with
  | nil => exact ⟨[], rfl, rfl⟩
  | cons a l ih =>
    obtain ⟨bs, hbs, hl⟩ := ih
    obtain ⟨b, hb⟩ := Option.isSome_iff_exists.mp (h a)
    refine ⟨b :: bs, ?_, by simp [hl]⟩
    simp [List.mapM', hb, hbs]

/-- An entry of `dydt` is produced whenever the two evaluators return. -/
theorem evolveEntry_isSome (cfg : Config F)
    (lo : F → Interpolator F → F → Option (Dbl F))
    (nlo : F → Interpolator F → Interpolator F → Option (Dbl F))
    (hlo : ∀ r ip y, (lo r ip y).isSome = true)
    (hnlo : ∀ r ip is, (nlo r ip is).isSome = true)
    (d : Dipole F) (y : F) (amplitude : List (Dbl F))
    (rvals : List F) (nvals yvals_s : List (Dbl F)) (i : Nat) :
    (evolveEntry cfg lo nlo d y amplitude rvals nvals yvals_s i).isSome = true := by
  unfold evolveEntry
  simp only []
  split
  · rfl
  · obtain ⟨a, ha⟩ := Option.isSome_iff_exists.mp
      (hlo (d.RVal i) ⟨rvals, nvals, true, .fin 0, .fin 1⟩ y)
    rw [ha]
    simp only []
    cases hk : cfg.NO_K2
    · obtain ⟨b, hb⟩ := Option.isSome_iff_exists.mp
        (hnlo (d.RVal i) ⟨rvals, nvals, true, .fin 0, .fin 1⟩
          ⟨rvals, yvals_s, true, .fin 1, .fin 0⟩)
      simp only [Bool.not_false, if_true, hb]
      split <;> rfl
    · simp only [Bool.not_true, Bool.false_eq_true, if_false]
      split <;> rfl

/-- With `DNDY` off and evaluators that return, `Evolve` returns a vector. -/
theorem Evolve_isSome (cfg : Config F)
    (lo : F → Interpolator F → F → Option (Dbl F))
    (nlo : F → Interpolator F → Interpolator F → Option (Dbl F))
    (hD : cfg.DNDY = false)
    (hlo : ∀ r ip y, (lo r ip y).isSome = true)
    (hnlo : ∀ r ip is, (nlo r ip is).isSome = true)
    (d : Dipole F) (y : F) (amplitude : List (Dbl F)) :
    ∃ dydt, Evolve cfg lo nlo d y amplitude = some dydt := by
  unfold Evolve
  simp only []
  obtain ⟨bs, hbs, -⟩ := mapM_option_some
    (evolveEntry cfg lo nlo d y amplitude
      ((List.range d.RPoints).map fun i => d.RVal i)
      ((List.range d.RPoints).map fun i => nSample cfg (amplitude.getD i .nan))
      ((List.range d.RPoints).map fun i => sSample cfg (amplitude.getD i .nan)))
    (List.range d.RPoints)
    (fun i => evolveEntry_isSome cfg lo nlo hlo hnlo d y amplitude _ _ _ i)
  rw [hbs]
  exact ⟨bs, by simp [hD]⟩

/-- An explicit Euler increment returns, with `y` advanced by the step and the grid
and stepper untouched. -/
theorem solveIncrement_euler {σ : Type} (cfg : Config F) (ext : Extern F σ)
    (hE : cfg.EULER_METHOD = true) (hD : cfg.DNDY = false)
    (hlo : ∀ r ip y, (ext.lo r ip y).isSome = true)
    (hnlo : ∀ r ip is, (ext.nlo r ip is).isSome = true)
    (fuel : Nat) (s : SolveState F σ) :
    ∃ a, solveIncrement cfg ext fuel s
      = .returned { s with ampvec := a, y := s.y + cfg.DE_SOLVER_STEP } := by
  obtain ⟨dydt, hd⟩ := Evolve_isSome cfg ext.lo ext.nlo hD hlo hnlo s.dipole s.y s.ampvec
  unfold solveIncrement
  simp only [hE, Bool.not_true, Bool.false_eq_true, if_false, hd]
  exact ⟨_, rfl⟩

/-- Once the stepping loop returns, more fuel does not change its result. -/
theorem adaptiveLoop_mono {σ : Type} (cfg : Config F) (ext : Extern F σ) (nexty : F) :
    ∀ (K : Nat) (s t : SolveState F σ), adaptiveLoop cfg ext nexty K s = .returned t →
      ∀ fuel, K ≤ fuel → adaptiveLoop cfg ext nexty fuel s = .returned t := by
  intro K
  induction K with
  | zero =>
    intro s t h
    simp [adaptiveLoop] at h
  | succ K ih =>
    intro s t h fuel hf
    obtain ⟨f, rfl⟩ : ∃ f, fuel = f + 1 := ⟨fuel - 1, by omega⟩
    simp only [adaptiveLoop] at h ⊢
    split at h
    · rename_i hy
      rw [if_pos hy]
      cases hap : ext.apply (Evolve cfg ext.lo ext.nlo s.dipole) s.st s.y nexty s.h s.ampvec with
      | none => rw [hap] at h; simp at h
      | some o =>
        rw [hap] at h
        exact ih _ _ h f (by omega)
    · rename_i hy
      rw [if_neg hy]
      exact h

/-- The loop of `Solve` when every increment returns with `y` advanced by the step
and the grid untouched (`I` is an invariant of the states at the loop head, `K` the
fuel an increment needs).  The first `j` accumulated rapidities stay below `maxy`,
the next reaches it: the loop returns and has appended the rapidities
`s.y + h, ..., s.y + (j+1) h`. -/
theorem solveLoop_steps {σ : Type} (cfg : Config F) (ext : Extern F σ) (maxy : F)
    (K : Nat) (I : SolveState F σ → Prop)
    (hinc : ∀ (fuel : Nat) (s : SolveState F σ), K ≤ fuel → I s →
      ∃ t, solveIncrement cfg ext fuel s = .returned t ∧ t.dipole = s.dipole ∧
        t.y = s.y + cfg.DE_SOLVER_STEP ∧ I (recordSlice t)) :
    ∀ (j : Nat) (s : SolveState F σ) (fuel : Nat), j + 1 + K ≤ fuel → I s →
      (∀ i : Nat, 1 ≤ i → i ≤ j → s.y + (i : F) * cfg.DE_SOLVER_STEP < maxy) →
      maxy ≤ s.y + ((j : F) + 1) * cfg.DE_SOLVER_STEP →
      ∃ t, solveLoop cfg ext maxy fuel s = .returned t ∧
        t.dipole.yvals = s.dipole.yvals ++
          (List.range (j + 1)).map
            (fun (i : Nat) => s.y + ((i : F) + 1) * cfg.DE_SOLVER_STEP) ∧
        t.dipole.amplitude.length = s.dipole.amplitude.length + (j + 1) ∧
        t.dipole.rvals = s.dipole.rvals ∧
        t.y = s.y + ((j : F) + 1) * cfg.DE_SOLVER_STEP := by
  intro j
  induction j with
  | zero =>
    intro s fuel hf hI _ hmax
    obtain ⟨f, rfl⟩ : ∃ f, fuel = f + 1 := ⟨fuel - 1, by omega⟩
    obtain ⟨t, ht, hd, hy, -⟩ := hinc f s (by omega) hI
    have hnot : ¬ (recordSlice t).y < maxy := by
      have : (recordSlice t).y = s.y + cfg.DE_SOLVER_STEP := hy
      rw [this]
      simpa using hmax
    refine ⟨recordSlice t, ?_, ?_⟩
    · simp only [solveLoop, ht, hnot, if_false]
    · simp [recordSlice, Dipole.AddRapidity, Dipole.InitializeInterpolation, List.range_succ,
        hd, hy]
  | succ j ih =>
    intro s fuel hf hI hlt hmax
    obtain ⟨f, rfl⟩ : ∃ f, fuel = f + 1 := ⟨fuel - 1, by omega⟩
    obtain ⟨t1, ht1, hd1, hy1, hI1⟩ := hinc f s (by omega) hI
    have hry : (recordSlice t1).y = s.y + cfg.DE_SOLVER_STEP := hy1
    have h1 : (recordSlice t1).y < maxy := by
      rw [hry]
      simpa using hlt 1 le_rfl (by omega)
    obtain ⟨t, ht, hy, hamp, hr, hty⟩ := ih (recordSlice t1) f (by omega) hI1
      (by
        intro i hi hij
        have := hlt (i + 1) (by omega) (by omega)
        simp only [Nat.cast_add, Nat.cast_one] at this
        rw [hry]
        linarith)
      (by
        simp only [Nat.cast_add, Nat.cast_one] at hmax
        rw [hry]
        linarith)
    have hyv : (recordSlice t1).dipole.yvals = s.dipole.yvals ++ [s.y + cfg.DE_SOLVER_STEP] := by
      simp [recordSlice, Dipole.AddRapidity, Dipole.InitializeInterpolation, hd1, hy1]
    have hal : (recordSlice t1).dipole.amplitude.length = s.dipole.amplitude.length + 1 := by
      simp [recordSlice, Dipole.AddRapidity, Dipole.InitializeInterpolation, hd1]
    have hrv : (recordSlice t1).dipole.rvals = s.dipole.rvals := by
      simp [recordSlice, Dipole.AddRapidity, Dipole.InitializeInterpolation, hd1]
    refine ⟨t, ?_, ?_, ?_, ?_, ?_⟩
    · simp only [solveLoop, ht1]
      rw [if_pos h1]
      exact ht
    · rw [hy, hyv, hry, List.range_succ_eq_map (j + 1)]
      simp only [List.map_cons, List.map_map, List.append_assoc, List.singleton_append,
        Nat.cast_zero, zero_add, one_mul]
      congr 2
      apply List.map_congr_left
      intro i _
      simp only [Function.comp, Nat.cast_succ]
      ring
    · rw [hamp, hal]
      omega
    · rw [hr, hrv]
    · rw [hty, hry]
      simp only [Nat.cast_add, Nat.cast_one]
      ring

/-- The run of `Solve` when every increment returns with `y` advanced by the step
`h > 0` and the grid untouched: with fuel for `max 1 ⌈maxy/h⌉` increments `Solve`
returns and has appended that many slices, at the rapidities `h, 2h, ...`. -/
theorem Solve_steps [FloorRing F] {σ : Type} (cfg : Config F) (ext : Extern F σ)
    (d : Dipole F) (st0 : σ) (maxy : F) (K : Nat) (I : SolveState F σ → Prop)
    (hC : (cfg.RESUM_DLOG && cfg.KINEMATICAL_CONSTRAINT != KC_NONE) = false)
    (hinc : ∀ (fuel : Nat) (s : SolveState F σ), K ≤ fuel → I s →
      ∃ t, solveIncrement cfg ext fuel s = .returned t ∧ t.dipole = s.dipole ∧
        t.y = s.y + cfg.DE_SOLVER_STEP ∧ I (recordSlice t))
    (hI : I ⟨d.InitializeInterpolation 0, 0, cfg.DE_SOLVER_STEP,
      (List.range d.RPoints).map fun rind =>
        ext.N (d.InitializeInterpolation 0) ((d.InitializeInterpolation 0).RVal rind), st0⟩)
    (hh : 0 < cfg.DE_SOLVER_STEP)
    (fuel : Nat) (hf : max 1 ⌈maxy / cfg.DE_SOLVER_STEP⌉₊ + K ≤ fuel) :
    ∃ t, Solve cfg ext d st0 fuel maxy = .returned t ∧
      t.dipole.yvals = d.yvals ++
        (List.range (max 1 ⌈maxy / cfg.DE_SOLVER_STEP⌉₊)).map
          (fun (i : Nat) => ((i : F) + 1) * cfg.DE_SOLVER_STEP) ∧
      t.dipole.amplitude.length
        = d.amplitude.length + max 1 ⌈maxy / cfg.DE_SOLVER_STEP⌉₊ ∧
      t.dipole.rvals = d.rvals := by
  obtain ⟨j, hj⟩ : ∃ j, max 1 ⌈maxy / cfg.DE_SOLVER_STEP⌉₊ = j + 1 :=
    ⟨max 1 ⌈maxy / cfg.DE_SOLVER_STEP⌉₊ - 1, by
      have : 1 ≤ max 1 ⌈maxy / cfg.DE_SOLVER_STEP⌉₊ := le_max_left _ _
      omega⟩
  rw [hj] at hf ⊢
  have hceil : ⌈maxy / cfg.DE_SOLVER_STEP⌉₊ ≤ j + 1 := hj ▸ le_max_right _ _
  have hmax : maxy ≤ ((j : F) + 1) * cfg.DE_SOLVER_STEP := by
    have := Nat.ceil_le.mp hceil
    rw [div_le_iff₀ hh] at this
    simpa using this
  have hlt : ∀ i : Nat, 1 ≤ i → i ≤ j → (i : F) * cfg.DE_SOLVER_STEP < maxy := by
    intro i hi hij
    have h2 : i < ⌈maxy / cfg.DE_SOLVER_STEP⌉₊ := by
      rcases le_total 1 ⌈maxy / cfg.DE_SOLVER_STEP⌉₊ with h | h
      · rw [max_eq_right h] at hj; omega
      · rw [max_eq_left h] at hj; omega
    have := Nat.lt_ceil.mp h2
    rwa [lt_div_iff₀ hh] at this
  obtain ⟨t, ht, hy, hamp, hr, -⟩ := solveLoop_steps cfg ext maxy K I hinc j _ fuel hf hI
    (by intro i hi hij; simpa using hlt i hi hij)
    (by simpa using hmax)
  refine ⟨t, ?_, ?_, ?_, ?_⟩
  · simp only [Solve, hC, Bool.false_eq_true, if_false]
    exact ht
  · rw [hy]
    simp [Dipole.InitializeInterpolation]
  · rw [hamp]
    simp [Dipole.InitializeInterpolation]
  · rw [hr]
    simp [Dipole.InitializeInterpolation]

/-- The increment property for explicit Euler stepping. -/
theorem solveIncrement_euler_steps {σ : Type} (cfg : Config F) (ext : Extern F σ)
    (hE : cfg.EULER_METHOD = true) (hD : cfg.DNDY = false)
    (hlo : ∀ r ip y, (ext.lo r ip y).isSome = true)
    (hnlo : ∀ r ip is, (ext.nlo r ip is).isSome = true)
    (fuel : Nat) (s : SolveState F σ) (_hK : 0 ≤ fuel) (_hI : True) :
    ∃ t, solveIncrement cfg ext fuel s = .returned t ∧ t.dipole = s.dipole ∧
      t.y = s.y + cfg.DE_SOLVER_STEP ∧ True := by
  obtain ⟨a, ha⟩ := solveIncrement_euler cfg ext hE hD hlo hnlo fuel s
  exact ⟨_, ha, rfl, rfl, trivial⟩

/-- The increment property for the adaptive stepper, when the stepping loop started
on finite amplitudes returns within `K` iterations exactly at `nexty = y + h` with
finite amplitudes. -/
theorem solveIncrement_adaptive_steps {σ : Type} (cfg : Config F) (ext : Extern F σ)
    (hE : cfg.EULER_METHOD = false) (K : Nat)
    (hA : ∀ s : SolveState F σ, s.ampvec.any (fun a => a.isinf || a.isnan) = false →
      ∃ t, adaptiveLoop cfg ext (s.y + cfg.DE_SOLVER_STEP) K s = .returned t ∧
        t.dipole = s.dipole ∧ t.y = s.y + cfg.DE_SOLVER_STEP ∧
        t.ampvec.any (fun a => a.isinf || a.isnan) = false)
    (fuel : Nat) (s : SolveState F σ) (hK : K ≤ fuel)
    (hI : s.ampvec.any (fun a => a.isinf || a.isnan) = false) :
    ∃ t, solveIncrement cfg ext fuel s = .returned t ∧ t.dipole = s.dipole ∧
      t.y = s.y + cfg.DE_SOLVER_STEP ∧
      (recordSlice t).ampvec.any (fun a => a.isinf || a.isnan) = false := by
  obtain ⟨t, ht, hd, hy, hfin⟩ := hA s hI
  have ht2 := adaptiveLoop_mono cfg ext _ K s t ht fuel hK
  refine ⟨t, ?_, hd, hy, hfin⟩
  simp only [solveIncrement, hE, Bool.not_false, if_true, ht2, hfin, Bool.false_eq_true,
    if_false]

/-- C1: with double-log resummation on and a kinematical constraint other than
`KC_NONE`, `Solve` exits for every target rapidity and every fuel, on the grid it
was given: no slice is appended and the interpolation context is untouched. -/
theorem Solve_exits_on_dlog_with_constraint {σ : Type} (cfg : Config F)
    (ext : Extern F σ) (d : Dipole F) (st0 : σ) (fuel : Nat) (maxy : F)
    (hd : cfg.RESUM_DLOG = true) (hk : cfg.KINEMATICAL_CONSTRAINT ≠ KC_NONE) :
    ∃ s, Solve cfg ext d st0 fuel maxy = Run.exited s ∧ s.dipole = d ∧ s.st = st0 := by
  refine ⟨⟨d, 0, cfg.DE_SOLVER_STEP, [], st0⟩, ?_, rfl, rfl⟩
  simp [Solve, hd, hk]

/-- C1, at the K+ constraint with double-log resummation on the unit grid. -/
theorem Solve_exits_on_dlog_with_constraint_witness :
    ∃ s, Solve clashConfig quietExtern unitGrid 0 5 1 = Run.exited s ∧
      s.dipole = unitGrid ∧ s.st = 0 :=
  Solve_exits_on_dlog_with_constraint clashConfig quietExtern unitGrid 0 5 1 rfl
    (by decide)

/-- C2 (claim as stated fails): for the target rapidity `0` and step `1` the
`do ... while` body runs once and one slice, at rapidity `1`, is appended, while
`⌈0/1⌉ = 0`. -/
theorem Solve_zero_target_appends_one_slice :
    Solve eulerConfig quietExtern unitGrid 0 5 0
      = .returned ⟨⟨[1], [0, 1], [[.fin 0], [.fin 0]], some 1⟩, 1, 1, [.fin 0], 0⟩ ∧
    ⌈(0 : ℚ) / eulerConfig.DE_SOLVER_STEP⌉₊ = 0 := by
  constructor
  · norm_num [Solve, solveLoop, solveIncrement, recordSlice, eulerConfig, fixedConfig, quietExtern,
      unitGrid, lookupN, Evolve, evolveEntry, Dipole.RPoints, Dipole.RVal,
      Dipole.AddRapidity, Dipole.InitializeInterpolation, List.mapM', List.range_succ]
  · simp

/-- C2 (amended): with explicit Euler stepping, `DNDY` off, a configuration that
passes the check of `Solve` and derivative evaluators that return, for every step
`h > 0` and every target `maxy`, `Solve` returns (any fuel of at least
`max 1 ⌈maxy/h⌉` suffices) and has appended exactly `max 1 ⌈maxy/h⌉` slices, at the
rapidities `h, 2h, ...`, which are strictly increasing.  The count is `⌈maxy/h⌉`
when `maxy > 0` and `1` when `maxy = 0`. -/
theorem Solve_euler_slice_count [FloorRing F] {σ : Type} (cfg : Config F)
    (ext : Extern F σ) (d : Dipole F) (st0 : σ) (maxy : F)
    (hE : cfg.EULER_METHOD = true) (hD : cfg.DNDY = false)
    (hC : (cfg.RESUM_DLOG && cfg.KINEMATICAL_CONSTRAINT != KC_NONE) = false)
    (hlo : ∀ r ip y, (ext.lo r ip y).isSome = true)
    (hnlo : ∀ r ip is, (ext.nlo r ip is).isSome = true)
    (hh : 0 < cfg.DE_SOLVER_STEP)
    (fuel : Nat) (hf : max 1 ⌈maxy / cfg.DE_SOLVER_STEP⌉₊ ≤ fuel) :
    ∃ t, Solve cfg ext d st0 fuel maxy = .returned t ∧
      t.dipole.yvals = d.yvals ++
        (List.range (max 1 ⌈maxy / cfg.DE_SOLVER_STEP⌉₊)).map
          (fun (i : Nat) => ((i : F) + 1) * cfg.DE_SOLVER_STEP) ∧
      t.dipole.amplitude.length
        = d.amplitude.length + max 1 ⌈maxy / cfg.DE_SOLVER_STEP⌉₊ ∧
      ((List.range (max 1 ⌈maxy / cfg.DE_SOLVER_STEP⌉₊)).map
          (fun (i : Nat) => ((i : F) + 1) * cfg.DE_SOLVER_STEP)).Pairwise (· < ·) ∧
      (0 < maxy → max 1 ⌈maxy / cfg.DE_SOLVER_STEP⌉₊ = ⌈maxy / cfg.DE_SOLVER_STEP⌉₊) ∧
      (maxy = 0 → max 1 ⌈maxy / cfg.DE_SOLVER_STEP⌉₊ = 1) := by
  obtain ⟨t, ht, hy, hamp, -⟩ :=
    Solve_steps cfg ext d st0 maxy 0 (fun _ => True) hC
      (fun fuel s hK hI => solveIncrement_euler_steps cfg ext hE hD hlo hnlo fuel s hK hI)
      trivial hh fuel (by simpa using hf)
  refine ⟨t, ht, hy, hamp, ?_, ?_, ?_⟩
  · refine List.Pairwise.map _ ?_ (List.pairwise_lt_range _)
    intro a b hab
    have : (a : F) < b := by exact_mod_cast hab
    exact mul_lt_mul_of_pos_right (by linarith) hh
  · intro hpos
    apply max_eq_right
    exact Nat.one_le_iff_ne_zero.mpr (Nat.ceil_pos.mpr (div_pos hpos hh)).ne'
  · intro h0
    simp [h0]

/-- C2 (amended), at step `1` and target `5/2`: three slices. -/
theorem Solve_euler_slice_count_witness :
    ∃ t, Solve eulerConfig quietExtern unitGrid 0 5 (5 / 2) = .returned t ∧
      t.dipole.yvals = unitGrid.yvals ++
        (List.range (max 1 ⌈(5 / 2 : ℚ) / eulerConfig.DE_SOLVER_STEP⌉₊)).map
          (fun (i : Nat) => ((i : ℚ) + 1) * eulerConfig.DE_SOLVER_STEP) ∧
      t.dipole.amplitude.length
        = unitGrid.amplitude.length + max 1 ⌈(5 / 2 : ℚ) / eulerConfig.DE_SOLVER_STEP⌉₊ ∧
      ((List.range (max 1 ⌈(5 / 2 : ℚ) / eulerConfig.DE_SOLVER_STEP⌉₊)).map
          (fun (i : Nat) => ((i : ℚ) + 1) * eulerConfig.DE_SOLVER_STEP)).Pairwise (· < ·) ∧
      (0 < (5 / 2 : ℚ) → max 1 ⌈(5 / 2 : ℚ) / eulerConfig.DE_SOLVER_STEP⌉₊
        = ⌈(5 / 2 : ℚ) / eulerConfig.DE_SOLVER_STEP⌉₊) ∧
      ((5 / 2 : ℚ) = 0 → max 1 ⌈(5 / 2 : ℚ) / eulerConfig.DE_SOLVER_STEP⌉₊ = 1) :=
  Solve_euler_slice_count eulerConfig quietExtern unitGrid 0 (5 / 2) rfl rfl rfl
    (fun _ _ _ => rfl) (fun _ _ _ => rfl) (by norm_num [eulerConfig, fixedConfig]) 5
    (by
      have h : ⌈(5 / 2 : ℚ) / eulerConfig.DE_SOLVER_STEP⌉₊ = 3 := by
        rw [Nat.ceil_eq_iff (by norm_num)]
        norm_num [eulerConfig, fixedConfig]
      rw [h]
      decide)

/-- C3 (claim as stated fails): with step `1` and target `3/2` the slices appended
are at the rapidities `1` and `2`; the last one is not at the target `3/2`, the
second increment is a full step. -/
theorem Solve_last_slice_overshoots_target :
    Solve eulerConfig quietExtern unitGrid 0 5 (3 / 2)
      = .returned ⟨⟨[1], [0, 1, 2], [[.fin 0], [.fin 0], [.fin 0]], some 2⟩,
          2, 1, [.fin 0], 0⟩ ∧
    ([0, 1, 2] : List ℚ).getLast? ≠ some (3 / 2) := by
  constructor
  · norm_num [Solve, solveLoop, solveIncrement, recordSlice, eulerConfig, fixedConfig, quietExtern,
      unitGrid, lookupN, Evolve, evolveEntry, Dipole.RPoints, Dipole.RVal,
      Dipole.AddRapidity, Dipole.InitializeInterpolation, List.mapM', List.range_succ]
  · norm_num

/-- C3 (amended): for every step `h > 0` and every target `maxy > 0`, `Solve`
advances in full steps of `h` only.  With explicit Euler stepping (`DNDY` off,
evaluators that return), or with an adaptive stepper whose stepping loop, started on
finite amplitudes, returns within `K` calls exactly at `nexty = y + h` with finite
amplitudes (the initial amplitudes being finite), `Solve` returns and the last slice
it appended is at the rapidity `⌈maxy/h⌉ * h`: the first multiple of `h` that
reaches the target, so at least `maxy` and less than `maxy + h`, and equal to `maxy`
exactly when `maxy` is a multiple of `h`.  There is no partial final step. -/
theorem Solve_last_slice [FloorRing F] {σ : Type} (cfg : Config F)
    (ext : Extern F σ) (d : Dipole F) (st0 : σ) (maxy : F) (K : Nat)
    (hC : (cfg.RESUM_DLOG && cfg.KINEMATICAL_CONSTRAINT != KC_NONE) = false)
    (hmode :
      (cfg.EULER_METHOD = true ∧ cfg.DNDY = false ∧
        (∀ r ip y, (ext.lo r ip y).isSome = true) ∧
        (∀ r ip is, (ext.nlo r ip is).isSome = true)) ∨
      (cfg.EULER_METHOD = false ∧
        ((List.range d.RPoints).map fun rind =>
          ext.N (d.InitializeInterpolation 0)
            ((d.InitializeInterpolation 0).RVal rind)).any
          (fun a => a.isinf || a.isnan) = false ∧
        ∀ s : SolveState F σ, s.ampvec.any (fun a => a.isinf || a.isnan) = false →
          ∃ t, adaptiveLoop cfg ext (s.y + cfg.DE_SOLVER_STEP) K s = .returned t ∧
            t.dipole = s.dipole ∧ t.y = s.y + cfg.DE_SOLVER_STEP ∧
            t.ampvec.any (fun a => a.isinf || a.isnan) = false))
    (hh : 0 < cfg.DE_SOLVER_STEP) (hm : 0 < maxy)
    (fuel : Nat) (hf : ⌈maxy / cfg.DE_SOLVER_STEP⌉₊ + K ≤ fuel) :
    ∃ t, Solve cfg ext d st0 fuel maxy = .returned t ∧
      t.dipole.yvals.getLast?
        = some ((⌈maxy / cfg.DE_SOLVER_STEP⌉₊ : F) * cfg.DE_SOLVER_STEP) ∧
      maxy ≤ (⌈maxy / cfg.DE_SOLVER_STEP⌉₊ : F) * cfg.DE_SOLVER_STEP ∧
      (⌈maxy / cfg.DE_SOLVER_STEP⌉₊ : F) * cfg.DE_SOLVER_STEP
        < maxy + cfg.DE_SOLVER_STEP ∧
      ((⌈maxy / cfg.DE_SOLVER_STEP⌉₊ : F) * cfg.DE_SOLVER_STEP = maxy ↔
        ∃ k : Nat, maxy = (k : F) * cfg.DE_SOLVER_STEP) := by
  have hpos : 0 < ⌈maxy / cfg.DE_SOLVER_STEP⌉₊ := Nat.ceil_pos.mpr (div_pos hm hh)
  have hmaxeq : max 1 ⌈maxy / cfg.DE_SOLVER_STEP⌉₊ = ⌈maxy / cfg.DE_SOLVER_STEP⌉₊ :=
    max_eq_right hpos
  obtain ⟨t, ht, hy⟩ : ∃ t, Solve cfg ext d st0 fuel maxy = .returned t ∧
      t.dipole.yvals = d.yvals ++
        (List.range (max 1 ⌈maxy / cfg.DE_SOLVER_STEP⌉₊)).map
          (fun (i : Nat) => ((i : F) + 1) * cfg.DE_SOLVER_STEP) := by
    rcases hmode with ⟨hE, hD, hlo, hnlo⟩ | ⟨hE, hN, hA⟩
    · obtain ⟨t, ht, hy, -⟩ :=
        Solve_steps cfg ext d st0 maxy 0 (fun _ => True) hC
          (fun fuel s hK hI => solveIncrement_euler_steps cfg ext hE hD hlo hnlo fuel s hK hI)
          trivial hh fuel (by rw [hmaxeq]; omega)
      exact ⟨t, ht, hy⟩
    · obtain ⟨t, ht, hy, -⟩ :=
        Solve_steps cfg ext d st0 maxy K
          (fun s => s.ampvec.any (fun a => a.isinf || a.isnan) = false) hC
          (fun fuel s hK hI => solveIncrement_adaptive_steps cfg ext hE K hA fuel s hK hI)
          hN hh fuel (by rw [hmaxeq]; exact hf)
      exact ⟨t, ht, hy⟩
  rw [hmaxeq] at hy
  obtain ⟨j, hj⟩ : ∃ j, ⌈maxy / cfg.DE_SOLVER_STEP⌉₊ = j + 1 :=
    ⟨⌈maxy / cfg.DE_SOLVER_STEP⌉₊ - 1, by omega⟩
  have hle : maxy ≤ (⌈maxy / cfg.DE_SOLVER_STEP⌉₊ : F) * cfg.DE_SOLVER_STEP := by
    have := Nat.le_ceil (maxy / cfg.DE_SOLVER_STEP)
    rwa [div_le_iff₀ hh] at this
  have hlt : (⌈maxy / cfg.DE_SOLVER_STEP⌉₊ : F) * cfg.DE_SOLVER_STEP
      < maxy + cfg.DE_SOLVER_STEP := by
    have h1 := Nat.ceil_lt_add_one (div_pos hm hh).le
    have h2 := mul_lt_mul_of_pos_right h1 hh
    rw [add_mul, div_mul_cancel₀ _ hh.ne', one_mul] at h2
    exact h2
  refine ⟨t, ht, ?_, hle, hlt, ?_⟩
  · rw [hy, hj, List.range_succ, List.map_append, ← List.append_assoc]
    simp
  · constructor
    · intro h
      exact ⟨_, h.symm⟩
    · rintro ⟨k, hk⟩
      have : ⌈maxy / cfg.DE_SOLVER_STEP⌉₊ = k := by
        rw [hk, mul_div_assoc, div_self hh.ne', mul_one, Nat.ceil_natCast]
      rw [this, hk]

/-- C3 (amended), at step `1` and target `3/2`, with explicit Euler stepping and
with the adaptive stepper `oneShotApply`: the last slice is at `2`. -/
theorem Solve_last_slice_witness :
    (∃ t, Solve eulerConfig quietExtern unitGrid 0 5 (3 / 2) = .returned t ∧
      t.dipole.yvals.getLast?
        = some ((⌈(3 / 2 : ℚ) / eulerConfig.DE_SOLVER_STEP⌉₊ : ℚ)
            * eulerConfig.DE_SOLVER_STEP) ∧
      (3 / 2 : ℚ) ≤ (⌈(3 / 2 : ℚ) / eulerConfig.DE_SOLVER_STEP⌉₊ : ℚ)
        * eulerConfig.DE_SOLVER_STEP ∧
      (⌈(3 / 2 : ℚ) / eulerConfig.DE_SOLVER_STEP⌉₊ : ℚ) * eulerConfig.DE_SOLVER_STEP
        < 3 / 2 + eulerConfig.DE_SOLVER_STEP ∧
      ((⌈(3 / 2 : ℚ) / eulerConfig.DE_SOLVER_STEP⌉₊ : ℚ) * eulerConfig.DE_SOLVER_STEP
          = 3 / 2 ↔
        ∃ k : Nat, (3 / 2 : ℚ) = (k : ℚ) * eulerConfig.DE_SOLVER_STEP)) ∧
    (∃ t, Solve adaptiveConfig quietExtern unitGrid 0 5 (3 / 2) = .returned t ∧
      t.dipole.yvals.getLast?
        = some ((⌈(3 / 2 : ℚ) / adaptiveConfig.DE_SOLVER_STEP⌉₊ : ℚ)
            * adaptiveConfig.DE_SOLVER_STEP) ∧
      (3 / 2 : ℚ) ≤ (⌈(3 / 2 : ℚ) / adaptiveConfig.DE_SOLVER_STEP⌉₊ : ℚ)
        * adaptiveConfig.DE_SOLVER_STEP ∧
      (⌈(3 / 2 : ℚ) / adaptiveConfig.DE_SOLVER_STEP⌉₊ : ℚ) * adaptiveConfig.DE_SOLVER_STEP
        < 3 / 2 + adaptiveConfig.DE_SOLVER_STEP ∧
      ((⌈(3 / 2 : ℚ) / adaptiveConfig.DE_SOLVER_STEP⌉₊ : ℚ) * adaptiveConfig.DE_SOLVER_STEP
          = 3 / 2 ↔
        ∃ k : Nat, (3 / 2 : ℚ) = (k : ℚ) * adaptiveConfig.DE_SOLVER_STEP)) :=
  ⟨Solve_last_slice eulerConfig quietExtern unitGrid 0 (3 / 2) 0 rfl
      (Or.inl ⟨rfl, rfl, fun _ _ _ => rfl, fun _ _ _ => rfl⟩)
      (by norm_num [eulerConfig, fixedConfig]) (by norm_num) 5
      (by
        have h : ⌈(3 / 2 : ℚ) / eulerConfig.DE_SOLVER_STEP⌉₊ = 2 := by
          rw [Nat.ceil_eq_iff (by norm_num)]
          norm_num [eulerConfig, fixedConfig]
        rw [h]
        decide),
    Solve_last_slice adaptiveConfig quietExtern unitGrid 0 (3 / 2) 2 rfl
      (Or.inr ⟨rfl,
        by simp [quietExtern, lookupN, unitGrid, Dipole.RPoints, Dipole.RVal,
          Dipole.InitializeInterpolation],
        by
          intro s hs
          refine ⟨{ s with st := s.st + 1, y := s.y + 1 }, ?_, rfl, ?_, hs⟩
          · simp [adaptiveLoop, adaptiveConfig, eulerConfig, fixedConfig, quietExtern, oneShotApply]
          · simp [adaptiveConfig, eulerConfig, fixedConfig]⟩)
      (by norm_num [adaptiveConfig, eulerConfig, fixedConfig]) (by norm_num) 5
      (by
        have h : ⌈(3 / 2 : ℚ) / adaptiveConfig.DE_SOLVER_STEP⌉₊ = 2 := by
          rw [Nat.ceil_eq_iff (by norm_num)]
          norm_num [adaptiveConfig, eulerConfig, fixedConfig]
        rw [h]
        decide)⟩

/-- C4 (failing input): explicit Euler stepping on a grid whose initial condition
is NaN.  `Solve` returns, and the slice it appended at rapidity `1` holds the NaN:
the Euler branch has no check of `ampvec`. -/
theorem Solve_euler_appends_nan_slice :
    Solve eulerConfig quietExtern nanGrid 0 5 1
      = .returned ⟨⟨[1], [0, 1], [[.nan], [.nan]], some 1⟩, 1, 1, [.nan], 0⟩ := by
  norm_num [Solve, solveLoop, solveIncrement, recordSlice, eulerConfig, fixedConfig, quietExtern,
    nanGrid, lookupN, Evolve, evolveEntry, Dipole.RPoints, Dipole.RVal,
    Dipole.AddRapidity, Dipole.InitializeInterpolation, List.mapM', List.range_succ,
    Dbl.lt]

/-- The stepping loop does not touch the grid. -/
theorem adaptiveLoop_dipole {σ : Type} (cfg : Config F) (ext : Extern F σ) (nexty : F) :
    ∀ (fuel : Nat) (s : SolveState F σ),
      (adaptiveLoop cfg ext nexty fuel s).state.dipole = s.dipole := by
  intro fuel
  induction fuel with
  | zero => intro s; rfl
  | succ n ih =>
    intro s
    simp only [adaptiveLoop]
    split
    · cases ext.apply (Evolve cfg ext.lo ext.nlo s.dipole) s.st s.y nexty s.h s.ampvec with
      | none => rfl
      | some o => exact ih _
    · rfl

/-- With the adaptive stepper, whatever the stepper does and however the run ends
(return, `exit(1)` or a cut-off), every slice the loop of `Solve` has appended is
free of NaN and infinities. -/
theorem solveLoop_adaptive_finite {σ : Type} (cfg : Config F) (ext : Extern F σ)
    (hE : cfg.EULER_METHOD = false) (maxy : F) :
    ∀ (fuel : Nat) (s : SolveState F σ),
      ∃ new, (solveLoop cfg ext maxy fuel s).state.dipole.amplitude
          = s.dipole.amplitude ++ new ∧
        ∀ v ∈ new, v.any (fun a => a.isinf || a.isnan) = false := by
  intro fuel
  induction fuel with
  | zero => intro s; exact ⟨[], by simp [solveLoop, Run.state], by simp⟩
  | succ n ih =>
    intro s
    have hd := adaptiveLoop_dipole cfg ext (s.y + cfg.DE_SOLVER_STEP) n s
    simp only [solveLoop, solveIncrement, hE, Bool.not_false, if_true]
    cases hr : adaptiveLoop cfg ext (s.y + cfg.DE_SOLVER_STEP) n s with
    | timeout t =>
      rw [hr] at hd
      simp only [Run.state] at hd
      exact ⟨[], by simp [Run.state, hd], by simp⟩
    | exited t =>
      rw [hr] at hd
      simp only [Run.state] at hd
      exact ⟨[], by simp [Run.state, hd], by simp⟩
    | returned t =>
      rw [hr] at hd
      simp only [Run.state] at hd
      simp only []
      cases hfin : t.ampvec.any (fun a => a.isinf || a.isnan) with
      | true =>
        simp only [if_true]
        exact ⟨[], by simp [Run.state, hd], by simp⟩
      | false =>
        simp only [Bool.false_eq_true, if_false]
        have hrec : (recordSlice t).dipole.amplitude = s.dipole.amplitude ++ [t.ampvec] := by
          simp [recordSlice, Dipole.AddRapidity, Dipole.InitializeInterpolation, hd]
        split
        · obtain ⟨new, hnew, hall⟩ := ih (recordSlice t)
          refine ⟨t.ampvec :: new, ?_, ?_⟩
          · rw [hnew, hrec]
            simp
          · intro v hv
            rcases List.mem_cons.mp hv with rfl | hv
            · exact hfin
            · exact hall v hv
        · refine ⟨[t.ampvec], ?_, ?_⟩
          · simpa [Run.state] using hrec
          · intro v hv
            rw [List.mem_singleton.mp hv]
            exact hfin

/-- The adaptive part of C4: with the adaptive stepper, whatever the stepper does and
however the run ends, no slice containing a NaN or an infinity is appended to the
grid by `Solve`. -/
theorem Solve_adaptive_slices_finite {σ : Type} (cfg : Config F) (ext : Extern F σ)
    (hE : cfg.EULER_METHOD = false) (d : Dipole F) (st0 : σ) (fuel : Nat) (maxy : F) :
    ∃ new, (Solve cfg ext d st0 fuel maxy).state.dipole.amplitude = d.amplitude ++ new ∧
      ∀ v ∈ new, v.any (fun a => a.isinf || a.isnan) = false := by
  unfold Solve
  split
  · exact ⟨[], by simp [Run.state], by simp⟩
  · obtain ⟨new, hnew, hall⟩ := solveLoop_adaptive_finite cfg ext hE maxy fuel
      ⟨d.InitializeInterpolation 0, 0, cfg.DE_SOLVER_STEP,
        (List.range d.RPoints).map fun rind =>
          ext.N (d.InitializeInterpolation 0) ((d.InitializeInterpolation 0).RVal rind), st0⟩
    exact ⟨new, by simpa [Dipole.InitializeInterpolation] using hnew, hall⟩

/-- C5 (claim as stated fails): with the adaptive stepper `flakyApply`, the first
adaptive step returns the failure status `-1`; the run does not abort: a second
step is attempted (the stepper has been called twice when `Solve` returns) and the
slice at rapidity `1` is appended. -/
theorem Solve_continues_after_failed_step :
    (flakyExtern.apply
        (Evolve adaptiveConfig flakyExtern.lo flakyExtern.nlo
          (unitGrid.InitializeInterpolation 0)) 0 0 1 1 [.fin 0]).map (fun o => o.status)
      = some (-1) ∧
    Solve adaptiveConfig flakyExtern unitGrid 0 5 1
      = .returned ⟨⟨[1], [0, 1], [[.fin 0], [.fin 0]], some 1⟩, 1, 1, [.fin 0], 2⟩ := by
  constructor
  · rfl
  · norm_num [Solve, solveLoop, solveIncrement, adaptiveLoop, recordSlice, adaptiveConfig,
      eulerConfig, fixedConfig, flakyExtern, quietExtern, flakyApply, unitGrid, lookupN,
      Dipole.RPoints, Dipole.RVal, Dipole.AddRapidity, Dipole.InitializeInterpolation,
      List.range_succ]

/-- The status of an adaptive step has no effect on the stepping loop. -/
theorem adaptiveLoop_withSuccessStatus {σ : Type} (cfg : Config F) (ext : Extern F σ)
    (nexty : F) (fuel : Nat) (s : SolveState F σ) :
    adaptiveLoop cfg (withSuccessStatus ext) nexty fuel s
      = adaptiveLoop cfg ext nexty fuel s := by
  induction fuel generalizing s with
  | zero => rfl
  | succ n ih =>
    simp only [adaptiveLoop]
    split
    · show (match (ext.apply (Evolve cfg ext.lo ext.nlo s.dipole) s.st s.y nexty s.h
          s.ampvec).map (fun o => { o with status := 0 }) with
        | none => Run.exited s
        | some o => adaptiveLoop cfg (withSuccessStatus ext) nexty n
            { s with st := o.st, y := o.y, h := o.h, ampvec := o.ampvec }) = _
      cases ext.apply (Evolve cfg ext.lo ext.nlo s.dipole) s.st s.y nexty s.h s.ampvec with
      | none => rfl
      | some o => exact ih _
    · rfl

/-- The status of an adaptive step has no effect on a rapidity increment. -/
theorem solveIncrement_withSuccessStatus {σ : Type} (cfg : Config F) (ext : Extern F σ)
    (fuel : Nat) (s : SolveState F σ) :
    solveIncrement cfg (withSuccessStatus ext) fuel s = solveIncrement cfg ext fuel s := by
  unfold solveIncrement
  simp only [adaptiveLoop_withSuccessStatus]
  rfl

/-- The status of an adaptive step has no effect on the loop of `Solve`. -/
theorem solveLoop_withSuccessStatus {σ : Type} (cfg : Config F) (ext : Extern F σ)
    (maxy : F) (fuel : Nat) (s : SolveState F σ) :
    solveLoop cfg (withSuccessStatus ext) maxy fuel s = solveLoop cfg ext maxy fuel s := by
  induction fuel generalizing s with
  | zero => rfl
  | succ n ih =>
    simp only [solveLoop, solveIncrement_withSuccessStatus]
    cases solveIncrement cfg ext n s with
    | returned t =>
      simp only []
      split
      · exact ih _
      · rfl
    | exited t => rfl
    | timeout t => rfl

/-- C5 (amended): in `Solve` the status returned by an adaptive step is only
reported.  A failure status does not abort the run: the stepping loop goes on to
the next test of `y < nexty` with the values the step handed back, whatever the
status, and the whole run is the run in which every step reports success. -/
theorem Solve_ignores_step_status {σ : Type} (cfg : Config F) (ext : Extern F σ)
    (d : Dipole F) (st0 : σ) (fuel : Nat) (maxy : F) :
    Solve cfg ext d st0 fuel maxy = Solve cfg (withSuccessStatus ext) d st0 fuel maxy ∧
    ∀ (nexty : F) (s : SolveState F σ) (o : OdeOut F σ), s.y < nexty →
      ext.apply (Evolve cfg ext.lo ext.nlo s.dipole) s.st s.y nexty s.h s.ampvec = some o →
      adaptiveLoop cfg ext nexty (fuel + 1) s
        = adaptiveLoop cfg ext nexty fuel
            { s with st := o.st, y := o.y, h := o.h, ampvec := o.ampvec } := by
  constructor
  · unfold Solve
    split
    · rfl
    · simp only []
      rw [solveLoop_withSuccessStatus]
      rfl
  · intro nexty s o hy ho
    simp only [adaptiveLoop, hy, if_true, ho]

end SolveTheorems

end NloBK

/-! ## Theorems on `Kernel_lo` and `Alphas` -/

namespace NloBK

open KinematicalConstraint RunningCouplingLO RunningCouplingNLO ResumRC

section KernelTheorems

variable {F : Type} [LinearOrderedField F]

/-- With a fixed option among the prescriptions `Alphas` is the constant `FIXED_AS`. -/
theorem Alphas_of_fixed (m : Libm F) (cfg : Config F) (alphas_scaling : F)
    (h : cfg.RC_LO = FIXED_LO ∨ cfg.RESUM_RC = RESUM_RC_FIXED ∨ cfg.RC_NLO = FIXED_NLO)
    (size : Dbl F) : Alphas m cfg alphas_scaling size = .fin cfg.FIXED_AS := by
  unfold Alphas
  rw [if_pos h]

/-- The fixed-coupling kernel in terms of finite nonzero daughter distances. -/
theorem Kernel_lo_XY_fixed (m : Libm F) (cfg : Config F) (alphas_scaling : F)
    (r x y : F)
    (hRC : cfg.RC_LO = FIXED_LO) (hD : cfg.RESUM_DLOG = false)
    (hS : cfg.RESUM_SINGLE_LOG = false) (hK : cfg.KINEMATICAL_CONSTRAINT = KC_NONE)
    (hx : x ≠ 0) (hy : y ≠ 0) (hpi : m.M_PI ≠ 0) :
    Kernel_lo_XY m cfg alphas_scaling (.fin r) (.fin x) (.fin y)
      = some (.fin (cfg.NC / (2 * m.M_PI ^ 2) * cfg.FIXED_AS * r ^ 2 / (x ^ 2 * y ^ 2))) := by
  have hxy : x * y ≠ 0 := mul_ne_zero hx hy
  have hpi2 : 2 * (m.M_PI * m.M_PI) ≠ 0 := by positivity
  have hres : (couplingLO m cfg alphas_scaling (.fin r) (.fin x) (.fin y)).1
      = .fin (cfg.NC / (2 * m.M_PI ^ 2) * cfg.FIXED_AS * r ^ 2 / (x ^ 2 * y ^ 2)) := by
    simp only [couplingLO, hRC, Dbl.fin_mul_fin, Dbl.SQR_fin, Dbl.fin_div_fin _ hxy,
      Dbl.fin_div_fin _ hpi2]
    congr 1
    field_simp
    ring
  simp only [Kernel_lo_XY, resumFactor, combineLO, hres, hD, hS, hK, Dbl.isnan_fin,
    Dbl.isinf_fin]
  simp

/-- C6: with the fixed LO prescription, no resummation and no kinematical
constraint, for all finite `r`, `z`, `theta` whose daughter distance
`X = sqrt(r*r + z*z - 2*r*z*cos(theta))` is a finite nonzero `x` and with `Y = z`
nonzero, `Kernel_lo(r, z, theta)` returns `NC/(2 pi^2) * FIXED_AS * r^2/(X^2 Y^2)`
(`M_PI` is nonzero). -/
theorem Kernel_lo_fixed_coupling (m : Libm F) (cfg : Config F) (alphas_scaling : F)
    (r z theta x : F)
    (hRC : cfg.RC_LO = FIXED_LO) (hD : cfg.RESUM_DLOG = false)
    (hS : cfg.RESUM_SINGLE_LOG = false) (hK : cfg.KINEMATICAL_CONSTRAINT = KC_NONE)
    (hX : m.sqrt (.fin r * .fin r + .fin z * .fin z
      - .fin 2 * .fin r * .fin z * m.cos (.fin theta)) = .fin x)
    (hx : x ≠ 0) (hz : z ≠ 0) (hpi : m.M_PI ≠ 0) :
    Kernel_lo m cfg alphas_scaling (.fin r) (.fin z) (.fin theta)
      = some (.fin (cfg.NC / (2 * m.M_PI ^ 2) * cfg.FIXED_AS * r ^ 2 / (x ^ 2 * z ^ 2))) := by
  unfold Kernel_lo
  simp only [hX]
  exact Kernel_lo_XY_fixed m cfg alphas_scaling r x z hRC hD hS hK hx hz hpi

/-- With real `sqrt` and `cos`, the daughter distance at `r = z = 1`,
`theta = pi/2` is `sqrt 2`. -/
theorem realX_unit :
    (Libm.ofField Real.pi Real.sqrt Real.cos Real.log Real.exp (fun x y => x ^ y)
        (fun x => x / 2) (fun x => x / 2)).sqrt
      (.fin 1 * .fin 1 + .fin 1 * .fin 1
        - .fin 2 * .fin 1 * .fin 1
          * (Libm.ofField Real.pi Real.sqrt Real.cos Real.log Real.exp (fun x y => x ^ y)
              (fun x => x / 2) (fun x => x / 2)).cos (.fin (Real.pi / 2)))
      = .fin (Real.sqrt 2) := by
  simp only [Libm.ofField, Real.cos_pi_div_two, Dbl.fin_mul_fin, Dbl.fin_add_fin,
    Dbl.fin_sub_fin]
  norm_num

/-- C6, at `r = z = 1`, `theta = pi/2` over the reals, where `X = sqrt 2`. -/
theorem Kernel_lo_fixed_coupling_witness :
    Kernel_lo
        (Libm.ofField Real.pi Real.sqrt Real.cos Real.log Real.exp (fun x y => x ^ y)
          (fun x => x / 2) (fun x => x / 2))
        (fixedConfig ℝ) 1 (.fin 1) (.fin 1) (.fin (Real.pi / 2))
      = some (.fin ((fixedConfig ℝ).NC / (2 * Real.pi ^ 2) * (fixedConfig ℝ).FIXED_AS
          * 1 ^ 2 / (Real.sqrt 2 ^ 2 * 1 ^ 2))) :=
  Kernel_lo_fixed_coupling _ (fixedConfig ℝ) 1 1 1 (Real.pi / 2) (Real.sqrt 2) rfl rfl rfl rfl
    realX_unit (by positivity) one_ne_zero Real.pi_ne_zero

/-- C7 (claim as stated fails): in the fixed-coupling configuration with `NC = 3`
and `FIXED_AS = 1/5`, over the reals, `Kernel_lo(1, 1, pi/2)` is not
`NC * FIXED_AS / (8 pi^2)`; and `Y = z = 1` is not `sqrt 2`. -/
theorem Kernel_lo_unit_right_angle_not_eighth :
    Kernel_lo
        (Libm.ofField Real.pi Real.sqrt Real.cos Real.log Real.exp (fun x y => x ^ y)
          (fun x => x / 2) (fun x => x / 2))
        (fixedConfig ℝ) 1 (.fin 1) (.fin 1) (.fin (Real.pi / 2))
      ≠ some (.fin ((fixedConfig ℝ).NC * (fixedConfig ℝ).FIXED_AS / (8 * Real.pi ^ 2))) ∧
    (1 : ℝ) ≠ Real.sqrt 2 := by
  constructor
  · have hX : (Libm.ofField Real.pi Real.sqrt Real.cos Real.log Real.exp (fun x y => x ^ y)
        (fun x => x / 2) (fun x => x / 2)).sqrt
      (.fin 1 * .fin 1 + .fin 1 * .fin 1
        - .fin 2 * .fin 1 * .fin 1
          * (Libm.ofField Real.pi Real.sqrt Real.cos Real.log Real.exp (fun x y => x ^ y)
              (fun x => x / 2) (fun x => x / 2)).cos (.fin (Real.pi / 2)))
      = .fin (Real.sqrt 2) := by
      simp only [Libm.ofField, Real.cos_pi_div_two, Dbl.fin_mul_fin, Dbl.fin_add_fin,
        Dbl.fin_sub_fin]
      norm_num
    unfold Kernel_lo
    simp only [hX]
    rw [Kernel_lo_XY_fixed _ (fixedConfig ℝ) 1 1 (Real.sqrt 2) 1 rfl rfl rfl rfl (by positivity)
      one_ne_zero Real.pi_ne_zero]
    intro h
    have h' := Dbl.fin.inj (Option.some.inj h)
    have h2 : Real.sqrt 2 ^ 2 = 2 := Real.sq_sqrt (by norm_num)
    have hp : Real.pi ≠ 0 := Real.pi_ne_zero
    simp only [fixedConfig, Libm.ofField, h2] at h'
    field_simp at h'
    ring_nf at h'
    have : Real.pi ^ 2 ≠ 0 := pow_ne_zero 2 hp
    nlinarith [sq_pos_of_ne_zero hp] 
  · intro h
    have h2 : Real.sqrt 2 ^ 2 = 2 := Real.sq_sqrt (by norm_num)
    rw [← h] at h2
    norm_num at h2

/-- C7 (amended): with the fixed LO prescription, no resummation and no kinematical
constraint, at `r = 1`, `z = 1`, `theta = pi/2` (real `pi`, `cos(pi/2) = 0`, real
`sqrt 2`) the daughter distances are `X = sqrt 2` and `Y = z = 1`, and
`Kernel_lo(1, 1, pi/2) = NC * FIXED_AS / (4 pi^2)`. -/
theorem Kernel_lo_unit_right_angle (m : Libm ℝ) (cfg : Config ℝ) (alphas_scaling : ℝ)
    (hRC : cfg.RC_LO = FIXED_LO) (hD : cfg.RESUM_DLOG = false)
    (hS : cfg.RESUM_SINGLE_LOG = false) (hK : cfg.KINEMATICAL_CONSTRAINT = KC_NONE)
    (hpi : m.M_PI = Real.pi) (hcos : m.cos (.fin (Real.pi / 2)) = .fin 0)
    (hsqrt : m.sqrt (.fin 2) = .fin (Real.sqrt 2)) :
    m.sqrt (.fin 1 * .fin 1 + .fin 1 * .fin 1
        - .fin 2 * .fin 1 * .fin 1 * m.cos (.fin (Real.pi / 2))) = .fin (Real.sqrt 2) ∧
    Kernel_lo m cfg alphas_scaling (.fin 1) (.fin 1) (.fin (Real.pi / 2))
      = some (.fin (cfg.NC * cfg.FIXED_AS / (4 * Real.pi ^ 2))) := by
  have hX : m.sqrt (.fin 1 * .fin 1 + .fin 1 * .fin 1
        - .fin 2 * .fin 1 * .fin 1 * m.cos (.fin (Real.pi / 2))) = .fin (Real.sqrt 2) := by
    rw [hcos]
    simp only [Dbl.fin_mul_fin, Dbl.fin_add_fin, Dbl.fin_sub_fin]
    norm_num
    exact hsqrt
  refine ⟨hX, ?_⟩
  unfold Kernel_lo
  simp only [hX]
  rw [Kernel_lo_XY_fixed m cfg alphas_scaling 1 (Real.sqrt 2) 1 hRC hD hS hK (by positivity)
    one_ne_zero (by rw [hpi]; exact Real.pi_ne_zero)]
  congr 2
  rw [hpi]
  have h2 : Real.sqrt 2 ^ 2 = 2 := Real.sq_sqrt (by norm_num)
  rw [h2]
  ring

/-- C7 (amended), with the real libm in the configuration `fixedConfig`. -/
theorem Kernel_lo_unit_right_angle_witness :
    (Libm.ofField Real.pi Real.sqrt Real.cos Real.log Real.exp (fun x y => x ^ y)
        (fun x => x / 2) (fun x => x / 2)).sqrt
      (.fin 1 * .fin 1 + .fin 1 * .fin 1
        - .fin 2 * .fin 1 * .fin 1
          * (Libm.ofField Real.pi Real.sqrt Real.cos Real.log Real.exp (fun x y => x ^ y)
              (fun x => x / 2) (fun x => x / 2)).cos (.fin (Real.pi / 2)))
      = .fin (Real.sqrt 2) ∧
    Kernel_lo
        (Libm.ofField Real.pi Real.sqrt Real.cos Real.log Real.exp (fun x y => x ^ y)
          (fun x => x / 2) (fun x => x / 2))
        (fixedConfig ℝ) 1 (.fin 1) (.fin 1) (.fin (Real.pi / 2))
      = some (.fin ((fixedConfig ℝ).NC * (fixedConfig ℝ).FIXED_AS / (4 * Real.pi ^ 2))) :=
  Kernel_lo_unit_right_angle _ (fixedConfig ℝ) 1 rfl rfl rfl rfl rfl
    (by simp [Libm.ofField]) (by simp [Libm.ofField])

/-- On finite daughter distances the smallest dipole is symmetric in `X`, `Y`. -/
theorem smallestDipole_symm (r : Dbl F) (x y : F) :
    smallestDipole r (.fin x) (.fin y) = smallestDipole r (.fin y) (.fin x) := by
  simp only [smallestDipole, Dbl.min_fin_comm x y]

/-- The coupling stage of `Kernel_lo` is symmetric in the daughter distances. -/
theorem couplingLO_symm (m : Libm F) (cfg : Config F) (alphas_scaling : F) (r x y : F)
    (hr : 0 < r) (hx : 0 < x) (hy : 0 < y)
    (hpow : cfg.RC_LO = GUILLAUME_LO →
      ∀ b e : F, 0 < b → m.pow (.fin b⁻¹) (.fin (-e)) = m.pow (.fin b) (.fin e)) :
    couplingLO m cfg alphas_scaling (.fin r) (.fin x) (.fin y)
      = couplingLO m cfg alphas_scaling (.fin r) (.fin y) (.fin x) := by
  have hxx : x * x ≠ 0 := (mul_pos hx hx).ne'
  have hyy : y * y ≠ 0 := (mul_pos hy hy).ne'
  have hrr : r * r ≠ 0 := (mul_pos hr hr).ne'
  unfold couplingLO
  cases hRC : cfg.RC_LO with
  | FIXED_LO => simp only [Dbl.mul_comm (.fin y) (.fin x)]
  | BALITSKY_LO =>
    simp only [Dbl.mul_comm (Dbl.SQR (.fin y)) (Dbl.SQR (.fin x))]
    congr 2
    rw [Dbl.add_assoc, Dbl.add_assoc]
    congr 1
    exact Dbl.add_comm _ _
  | SMALLEST_LO =>
    simp only [Dbl.mul_comm (.fin y) (.fin x), smallestDipole_symm (.fin r) y x]
  | PARENT_LO => simp only [Dbl.mul_comm (.fin y) (.fin x)]
  | FRAC_LO =>
    simp only [Dbl.mul_comm (.fin y) (.fin x)]
    congr 5
    generalize Alphas m cfg alphas_scaling (.fin x) * .fin cfg.NC / .fin m.M_PI = u
    generalize Alphas m cfg alphas_scaling (.fin y) * .fin cfg.NC / .fin m.M_PI = v
    simp only [Dbl.SQR_fin, Dbl.fin_sub_fin, Dbl.fin_div_fin _ hrr]
    have e : (y * y - x * x) / (r * r) = -((x * x - y * y) / (r * r)) := by ring
    rw [e, ← Dbl.neg_fin, ← Dbl.neg_sub u v, Dbl.neg_mul_neg, Dbl.mul_comm v u]
  | GUILLAUME_LO =>
    have e : m.pow (.fin x * .fin x / (.fin y * .fin y))
        ((.fin y * .fin y - .fin x * .fin x) / (.fin r * .fin r))
        = m.pow (.fin y * .fin y / (.fin x * .fin x))
          ((.fin x * .fin x - .fin y * .fin y) / (.fin r * .fin r)) := by
      simp only [Dbl.fin_mul_fin, Dbl.fin_sub_fin, Dbl.fin_div_fin _ hxx,
        Dbl.fin_div_fin _ hyy, Dbl.fin_div_fin _ hrr]
      have h := hpow hRC (y * y / (x * x)) ((x * x - y * y) / (r * r)) (by positivity)
      rw [← h]
      congr 2
      · rw [inv_div]
      · rw [← neg_div, neg_sub]
    simp only [e, Dbl.mul_comm (.fin y) (.fin x)]

/-- The double-log factor of `Kernel_lo` is symmetric in the daughter distances. -/
theorem resumFactor_symm (m : Libm F) (cfg : Config F) (ra r X Y : Dbl F) :
    resumFactor m cfg ra r X Y = resumFactor m cfg ra r Y X := by
  have e : Dbl.fin 4 * m.log (Y / r) * m.log (X / r)
      = Dbl.fin 4 * m.log (X / r) * m.log (Y / r) := by
    rw [Dbl.mul_assoc, Dbl.mul_comm (m.log (Y / r)), ← Dbl.mul_assoc]
  simp only [resumFactor, e]

/-- The last stage of `Kernel_lo` is symmetric in the daughter distances. -/
theorem combineLO_symm (m : Libm F) (cfg : Config F) (alphas_scaling : F)
    (r X Y result alphas_scale resum sl sle : Dbl F) :
    combineLO m cfg alphas_scaling r X Y result alphas_scale resum sl sle
      = combineLO m cfg alphas_scaling r Y X result alphas_scale resum sl sle := by
  have e : ∀ d : Dbl F, d * .fin 2 * .fin 2 * m.log (Y / r) * .fin 2 * m.log (X / r)
      = d * .fin 2 * .fin 2 * m.log (X / r) * .fin 2 * m.log (Y / r) := by
    intro d
    generalize d * .fin 2 * .fin 2 = c
    generalize m.log (Y / r) = b
    generalize m.log (X / r) = a
    rw [Dbl.mul_assoc (c * b), Dbl.mul_assoc c b, Dbl.mul_assoc (c * a), Dbl.mul_assoc c a]
    congr 1
    rw [← Dbl.mul_assoc b, Dbl.mul_comm (b * Dbl.fin 2) a, Dbl.mul_comm b (Dbl.fin 2)]
  simp only [combineLO, e, Dbl.mul_comm Y X]

/-- The body of `Kernel_lo` is symmetric in positive finite daughter distances. -/
theorem Kernel_lo_XY_symm (m : Libm F) (cfg : Config F) (alphas_scaling : F) (r x y : F)
    (hr : 0 < r) (hx : 0 < x) (hy : 0 < y)
    (hpow : cfg.RC_LO = GUILLAUME_LO →
      ∀ b e : F, 0 < b → m.pow (.fin b⁻¹) (.fin (-e)) = m.pow (.fin b) (.fin e)) :
    Kernel_lo_XY m cfg alphas_scaling (.fin r) (.fin x) (.fin y)
      = Kernel_lo_XY m cfg alphas_scaling (.fin r) (.fin y) (.fin x) := by
  simp only [Kernel_lo_XY, smallestDipole_symm (.fin r) y x,
    couplingLO_symm m cfg alphas_scaling r y x hr hy hx hpow,
    resumFactor_symm m cfg _ (.fin r) (.fin y) (.fin x),
    combineLO_symm m cfg alphas_scaling (.fin r) (.fin y) (.fin x),
    Dbl.min_fin_comm y x]

/-- C8: `Kernel_lo` is symmetric under the exchange of the daughter distances, in
every configuration: for `r > 0` and two points `(z, theta)`, `(z2, theta2)` with
`X(r, z, theta) = z2 = Y(z2)` and `X(r, z2, theta2) = z = Y(z)`, all positive,
`Kernel_lo(r, z, theta) = Kernel_lo(r, z2, theta2)`.  Arithmetic is exact; for the
effective-scale prescription `GUILLAUME_LO`, `pow` obeys `pow(1/b, -e) = pow(b, e)`
for `b > 0`. -/
theorem Kernel_lo_symmetric (m : Libm F) (cfg : Config F) (alphas_scaling : F)
    (r z theta z2 theta2 : F)
    (hpow : cfg.RC_LO = GUILLAUME_LO →
      ∀ b e : F, 0 < b → m.pow (.fin b⁻¹) (.fin (-e)) = m.pow (.fin b) (.fin e))
    (hr : 0 < r) (hz : 0 < z) (hz2 : 0 < z2)
    (hX : m.sqrt (.fin r * .fin r + .fin z * .fin z
      - .fin 2 * .fin r * .fin z * m.cos (.fin theta)) = .fin z2)
    (hX2 : m.sqrt (.fin r * .fin r + .fin z2 * .fin z2
      - .fin 2 * .fin r * .fin z2 * m.cos (.fin theta2)) = .fin z) :
    Kernel_lo m cfg alphas_scaling (.fin r) (.fin z) (.fin theta)
      = Kernel_lo m cfg alphas_scaling (.fin r) (.fin z2) (.fin theta2) := by
  unfold Kernel_lo
  simp only [hX, hX2]
  exact Kernel_lo_XY_symm m cfg alphas_scaling r z2 z hr hz2 hz hpow

/-- C8, over the reals with the effective-scale prescription at `r = 1`: the points
`(z, theta) = (1, pi/2)` and `(sqrt 2, pi/4)` exchange `X` and `Y`. -/
theorem Kernel_lo_symmetric_witness :
    Kernel_lo
        (Libm.ofField Real.pi Real.sqrt Real.cos Real.log Real.exp (fun x y => x ^ y)
          (fun x => x / 2) (fun x => x / 2))
        (guillaumeConfig ℝ) 1 (.fin 1) (.fin 1) (.fin (Real.pi / 2))
      = Kernel_lo
        (Libm.ofField Real.pi Real.sqrt Real.cos Real.log Real.exp (fun x y => x ^ y)
          (fun x => x / 2) (fun x => x / 2))
        (guillaumeConfig ℝ) 1 (.fin 1) (.fin (Real.sqrt 2)) (.fin (Real.pi / 4)) :=
  Kernel_lo_symmetric _ (guillaumeConfig ℝ) 1 1 1 (Real.pi / 2) (Real.sqrt 2) (Real.pi / 4)
    (by
      intro _ b e hb
      simp only [Libm.ofField, inv_pos.mpr hb, hb, if_true]
      rw [Real.inv_rpow hb.le, Real.rpow_neg hb.le, inv_inv])
    one_pos one_pos (by positivity) realX_unit
    (by
      simp only [Libm.ofField, Real.cos_pi_div_four, Dbl.fin_mul_fin, Dbl.fin_add_fin,
        Dbl.fin_sub_fin]
      have h2 : Real.sqrt 2 * Real.sqrt 2 = 2 := Real.mul_self_sqrt (by norm_num)
      have e : (1 : ℝ) * 1 + Real.sqrt 2 * Real.sqrt 2 - 2 * 1 * Real.sqrt 2 * (Real.sqrt 2 / 2)
          = 1 := by
        rw [h2]
        have : 2 * 1 * Real.sqrt 2 * (Real.sqrt 2 / 2) = Real.sqrt 2 * Real.sqrt 2 := by ring
        rw [this, h2]
        norm_num
      rw [e]
      norm_num)

/-- The Balitsky kernel at a coupling that takes the same nonzero value at `r`, `X`
and `Y`. -/
theorem Kernel_lo_XY_balitsky (m : Libm F) (cfg : Config F) (alphas_scaling : F)
    (r x y a : F)
    (hRC : cfg.RC_LO = BALITSKY_LO) (hD : cfg.RESUM_DLOG = false)
    (hS : cfg.RESUM_SINGLE_LOG = false)
    (hK : (cfg.KINEMATICAL_CONSTRAINT == KC_BEUF_K_PLUS && cfg.NO_K2 == false) = false)
    (hx : x ≠ 0) (hy : y ≠ 0) (hpi : m.M_PI ≠ 0)
    (har : Alphas m cfg alphas_scaling (.fin r) = .fin a)
    (hax : Alphas m cfg alphas_scaling (.fin x) = .fin a)
    (hay : Alphas m cfg alphas_scaling (.fin y) = .fin a) (ha : a ≠ 0) :
    Kernel_lo_XY m cfg alphas_scaling (.fin r) (.fin x) (.fin y)
      = some (.fin (cfg.NC / (2 * m.M_PI ^ 2) * a * r ^ 2 / (x ^ 2 * y ^ 2))) := by
  have hxx : x * x ≠ 0 := mul_ne_zero hx hx
  have hyy : y * y ≠ 0 := mul_ne_zero hy hy
  have hxy : x * x * (y * y) ≠ 0 := mul_ne_zero hxx hyy
  have hpi2 : 2 * (m.M_PI * m.M_PI) ≠ 0 := by positivity
  have hres : (couplingLO m cfg alphas_scaling (.fin r) (.fin x) (.fin y)).1
      = .fin (cfg.NC / (2 * m.M_PI ^ 2) * a * r ^ 2 / (x ^ 2 * y ^ 2)) := by
    simp only [couplingLO, hRC, har, hax, hay, Dbl.fin_mul_fin, Dbl.SQR_fin,
      Dbl.fin_div_fin _ hxy, Dbl.fin_div_fin _ hxx, Dbl.fin_div_fin _ hyy,
      Dbl.fin_div_fin _ hpi2, Dbl.fin_div_fin _ ha, Dbl.fin_sub_fin, Dbl.fin_add_fin]
    congr 1
    field_simp
    ring
  simp only [Kernel_lo_XY, resumFactor, combineLO, hres, hD, hS, hK, Dbl.isnan_fin,
    Dbl.isinf_fin]
  simp

/-- C9: with `RC_LO = BALITSKY_LO`, no resummation and no K+ finite correction, for
finite `r`, `z`, `theta` with finite nonzero `X = x` and `Y = z`: whenever `Alphas`
returns the same nonzero value `a` at `r`, `X` and `Y`, `Kernel_lo(r, z, theta)` is
`NC/(2 pi^2) * a * r^2/(X^2 Y^2)`; in particular so with `a = FIXED_AS` (nonzero) when
`RESUM_RC` or `RC_NLO` is the fixed option. -/
theorem Kernel_lo_balitsky_constant_coupling (m : Libm F) (cfg : Config F)
    (alphas_scaling : F) (r z theta x : F)
    (hRC : cfg.RC_LO = BALITSKY_LO) (hD : cfg.RESUM_DLOG = false)
    (hS : cfg.RESUM_SINGLE_LOG = false)
    (hK : (cfg.KINEMATICAL_CONSTRAINT == KC_BEUF_K_PLUS && cfg.NO_K2 == false) = false)
    (hX : m.sqrt (.fin r * .fin r + .fin z * .fin z
      - .fin 2 * .fin r * .fin z * m.cos (.fin theta)) = .fin x)
    (hx : x ≠ 0) (hz : z ≠ 0) (hpi : m.M_PI ≠ 0) :
    (∀ a : F, a ≠ 0 →
      Alphas m cfg alphas_scaling (.fin r) = .fin a →
      Alphas m cfg alphas_scaling (.fin x) = .fin a →
      Alphas m cfg alphas_scaling (.fin z) = .fin a →
      Kernel_lo m cfg alphas_scaling (.fin r) (.fin z) (.fin theta)
        = some (.fin (cfg.NC / (2 * m.M_PI ^ 2) * a * r ^ 2 / (x ^ 2 * z ^ 2)))) ∧
    ((cfg.RESUM_RC = RESUM_RC_FIXED ∨ cfg.RC_NLO = FIXED_NLO) → cfg.FIXED_AS ≠ 0 →
      Kernel_lo m cfg alphas_scaling (.fin r) (.fin z) (.fin theta)
        = some (.fin (cfg.NC / (2 * m.M_PI ^ 2) * cfg.FIXED_AS * r ^ 2 / (x ^ 2 * z ^ 2)))) := by
  have key : ∀ a : F, a ≠ 0 →
      Alphas m cfg alphas_scaling (.fin r) = .fin a →
      Alphas m cfg alphas_scaling (.fin x) = .fin a →
      Alphas m cfg alphas_scaling (.fin z) = .fin a →
      Kernel_lo m cfg alphas_scaling (.fin r) (.fin z) (.fin theta)
        = some (.fin (cfg.NC / (2 * m.M_PI ^ 2) * a * r ^ 2 / (x ^ 2 * z ^ 2))) := by
    intro a ha har hax hay
    unfold Kernel_lo
    simp only [hX]
    exact Kernel_lo_XY_balitsky m cfg alphas_scaling r x z a hRC hD hS hK hx hz hpi har hax
      hay ha
  refine ⟨key, ?_⟩
  intro hfix ha
  have hf : cfg.RC_LO = FIXED_LO ∨ cfg.RESUM_RC = RESUM_RC_FIXED ∨ cfg.RC_NLO = FIXED_NLO :=
    Or.inr hfix
  exact key cfg.FIXED_AS ha (Alphas_of_fixed m cfg alphas_scaling hf _)
    (Alphas_of_fixed m cfg alphas_scaling hf _) (Alphas_of_fixed m cfg alphas_scaling hf _)

/-- C9, over the reals at `r = z = 1`, `theta = pi/2` with `RC_NLO` and `RESUM_RC`
fixed, where `Alphas` is the constant `1/5`. -/
theorem Kernel_lo_balitsky_constant_coupling_witness :
    Kernel_lo
        (Libm.ofField Real.pi Real.sqrt Real.cos Real.log Real.exp (fun x y => x ^ y)
          (fun x => x / 2) (fun x => x / 2))
        (balitskyConfig ℝ) 1 (.fin 1) (.fin 1) (.fin (Real.pi / 2))
      = some (.fin ((balitskyConfig ℝ).NC / (2 * Real.pi ^ 2) * (1 / 5) * 1 ^ 2
          / (Real.sqrt 2 ^ 2 * 1 ^ 2))) ∧
    Kernel_lo
        (Libm.ofField Real.pi Real.sqrt Real.cos Real.log Real.exp (fun x y => x ^ y)
          (fun x => x / 2) (fun x => x / 2))
        (balitskyConfig ℝ) 1 (.fin 1) (.fin 1) (.fin (Real.pi / 2))
      = some (.fin ((balitskyConfig ℝ).NC / (2 * Real.pi ^ 2) * (balitskyConfig ℝ).FIXED_AS
          * 1 ^ 2 / (Real.sqrt 2 ^ 2 * 1 ^ 2))) :=
  ⟨(Kernel_lo_balitsky_constant_coupling _ (balitskyConfig ℝ) 1 1 1 (Real.pi / 2)
      (Real.sqrt 2) rfl rfl rfl rfl realX_unit (by positivity) one_ne_zero
      Real.pi_ne_zero).1 (1 / 5) (by norm_num)
      (by simp [Alphas, balitskyConfig, fixedConfig])
      (by simp [Alphas, balitskyConfig, fixedConfig])
      (by simp [Alphas, balitskyConfig, fixedConfig]),
   (Kernel_lo_balitsky_constant_coupling _ (balitskyConfig ℝ) 1 1 1 (Real.pi / 2)
      (Real.sqrt 2) rfl rfl rfl rfl realX_unit (by positivity) one_ne_zero
      Real.pi_ne_zero).2 (Or.inl rfl) (by norm_num [balitskyConfig, fixedConfig])⟩

/-- C10: (1) when one of `RC_LO`, `RESUM_RC`, `RC_NLO` is the fixed option,
`Alphas(size) = FIXED_AS` for every size; (2) in a running-coupling configuration
with `NF <= 3`, for every `size > 0`, `Alphas(size)` is
`4 pi / (b0 * ln[(2.5^(2/0.2) + (4*alphas_scaling/(size^2 * LAMBDAQCD^2))^(1/0.2))^0.2])`
with `b0 = (11*NC - 2*NF)/3`: as an identity of doubles for all parameters, and as
a real number when the formula is defined (`alphas_scaling > 0`, `LAMBDAQCD` and
`b0` nonzero).  `pow` and `log` are the real functions on positive arguments. -/
theorem Alphas_formula (m : Libm ℝ) (alphas_scaling : ℝ)
    (hpi : m.M_PI = Real.pi)
    (hpow : ∀ x y : ℝ, 0 < x → m.pow (.fin x) (.fin y) = .fin (x ^ y))
    (hlog : ∀ x : ℝ, 0 < x → m.log (.fin x) = .fin (Real.log x)) :
    (∀ cfg : Config ℝ,
      (cfg.RC_LO = FIXED_LO ∨ cfg.RESUM_RC = RESUM_RC_FIXED ∨ cfg.RC_NLO = FIXED_NLO) →
      ∀ size : Dbl ℝ, Alphas m cfg alphas_scaling size = .fin cfg.FIXED_AS) ∧
    (∀ cfg : Config ℝ,
      cfg.RC_LO ≠ FIXED_LO → cfg.RESUM_RC ≠ RESUM_RC_FIXED → cfg.RC_NLO ≠ FIXED_NLO →
      cfg.NF ≤ 3 → ∀ size : ℝ, 0 < size →
      Alphas m cfg alphas_scaling (.fin size)
        = .fin 4 * .fin Real.pi /
            (.fin ((11 * cfg.NC - 2 * cfg.NF) / 3) *
              m.log (m.pow
                (m.pow (.fin (5 / 2)) (.fin (2 / (1 / 5)))
                  + m.pow (.fin 4 * .fin alphas_scaling / .fin (size ^ 2 * cfg.LAMBDAQCD ^ 2))
                      (.fin (1 / (1 / 5))))
                (.fin (1 / 5)))) ∧
      (0 < alphas_scaling → cfg.LAMBDAQCD ≠ 0 → 11 * cfg.NC - 2 * cfg.NF ≠ 0 →
        Alphas m cfg alphas_scaling (.fin size)
          = .fin (4 * Real.pi /
              ((11 * cfg.NC - 2 * cfg.NF) / 3 *
                Real.log (((5 / 2 : ℝ) ^ ((2 : ℝ) / (1 / 5))
                  + (4 * alphas_scaling / (size ^ 2 * cfg.LAMBDAQCD ^ 2)) ^ ((1 : ℝ) / (1 / 5)))
                  ^ (1 / 5 : ℝ)))))) := by
  refine ⟨fun cfg h size => Alphas_of_fixed m cfg alphas_scaling h size, ?_⟩
  intro cfg h1 h2 h3 hNF size hsize
  have hrun : ¬ (cfg.RC_LO = FIXED_LO ∨ cfg.RESUM_RC = RESUM_RC_FIXED ∨ cfg.RC_NLO = FIXED_NLO) := by
    rintro (h | h | h)
    · exact h1 h
    · exact h2 h
    · exact h3 h
  have hgen : Alphas m cfg alphas_scaling (.fin size)
        = .fin 4 * .fin Real.pi /
            (.fin ((11 * cfg.NC - 2 * cfg.NF) / 3) *
              m.log (m.pow
                (m.pow (.fin (5 / 2)) (.fin (2 / (1 / 5)))
                  + m.pow (.fin 4 * .fin alphas_scaling / .fin (size ^ 2 * cfg.LAMBDAQCD ^ 2))
                      (.fin (1 / (1 / 5))))
                (.fin (1 / 5)))) := by
    unfold Alphas
    rw [if_neg hrun, if_neg (not_lt.mpr hNF)]
    have h5 : (1 / 5 : ℝ) ≠ 0 := by norm_num
    have h3' : (3 : ℝ) ≠ 0 := by norm_num
    simp only [Dbl.fin_mul_fin, Dbl.fin_sub_fin, Dbl.fin_div_fin _ h5, Dbl.fin_div_fin _ h3',
      hpi]
    have e : size * size * cfg.LAMBDAQCD * cfg.LAMBDAQCD = size ^ 2 * cfg.LAMBDAQCD ^ 2 := by
      ring
    rw [e]
  refine ⟨hgen, ?_⟩
  intro has hL hb
  rw [hgen]
  have hden : size ^ 2 * cfg.LAMBDAQCD ^ 2 ≠ 0 := by positivity
  have harg : 0 < 4 * alphas_scaling / (size ^ 2 * cfg.LAMBDAQCD ^ 2) := by positivity
  have hsum : 0 < (5 / 2 : ℝ) ^ ((2 : ℝ) / (1 / 5))
      + (4 * alphas_scaling / (size ^ 2 * cfg.LAMBDAQCD ^ 2)) ^ ((1 : ℝ) / (1 / 5)) := by
    positivity
  have hone : 1 < (5 / 2 : ℝ) ^ ((2 : ℝ) / (1 / 5))
      + (4 * alphas_scaling / (size ^ 2 * cfg.LAMBDAQCD ^ 2)) ^ ((1 : ℝ) / (1 / 5)) := by
    have h1 : (1 : ℝ) < (5 / 2 : ℝ) ^ ((2 : ℝ) / (1 / 5)) :=
      Real.one_lt_rpow (by norm_num) (by norm_num)
    have h2 : 0 < (4 * alphas_scaling / (size ^ 2 * cfg.LAMBDAQCD ^ 2)) ^ ((1 : ℝ) / (1 / 5)) :=
      Real.rpow_pos_of_pos harg _
    linarith
  have hpowpos : 0 < ((5 / 2 : ℝ) ^ ((2 : ℝ) / (1 / 5))
      + (4 * alphas_scaling / (size ^ 2 * cfg.LAMBDAQCD ^ 2)) ^ ((1 : ℝ) / (1 / 5)))
      ^ (1 / 5 : ℝ) := Real.rpow_pos_of_pos hsum _
  have hlogpos : 0 < Real.log (((5 / 2 : ℝ) ^ ((2 : ℝ) / (1 / 5))
      + (4 * alphas_scaling / (size ^ 2 * cfg.LAMBDAQCD ^ 2)) ^ ((1 : ℝ) / (1 / 5)))
      ^ (1 / 5 : ℝ)) :=
    Real.log_pos (Real.one_lt_rpow hone (by norm_num))
  have hb3 : (11 * cfg.NC - 2 * cfg.NF) / 3 ≠ 0 := div_ne_zero hb (by norm_num)
  simp only [Dbl.fin_mul_fin, Dbl.fin_div_fin _ hden]
  rw [hpow _ _ (by norm_num), hpow _ _ harg, Dbl.fin_add_fin, hpow _ _ hsum,
    hlog _ hpowpos, Dbl.fin_mul_fin, Dbl.fin_div_fin _ (mul_ne_zero hb3 hlogpos.ne')]

/-- C10, with the real libm at `size = 1`, `alphas_scaling = 1`: the fixed and the
parent-dipole configuration. -/
theorem Alphas_formula_witness :
    Alphas
        (Libm.ofField Real.pi Real.sqrt Real.cos Real.log Real.exp (fun x y => x ^ y)
          (fun x => x / 2) (fun x => x / 2))
        (fixedConfig ℝ) 1 (.fin 1) = .fin (fixedConfig ℝ).FIXED_AS ∧
    Alphas
        (Libm.ofField Real.pi Real.sqrt Real.cos Real.log Real.exp (fun x y => x ^ y)
          (fun x => x / 2) (fun x => x / 2))
        (runningConfig ℝ) 1 (.fin 1)
      = .fin (4 * Real.pi /
          ((11 * (runningConfig ℝ).NC - 2 * (runningConfig ℝ).NF) / 3 *
            Real.log (((5 / 2 : ℝ) ^ ((2 : ℝ) / (1 / 5))
              + (4 * 1 / (1 ^ 2 * (runningConfig ℝ).LAMBDAQCD ^ 2)) ^ ((1 : ℝ) / (1 / 5)))
              ^ (1 / 5 : ℝ)))) :=
  ⟨(Alphas_formula
      (Libm.ofField Real.pi Real.sqrt Real.cos Real.log Real.exp (fun x y => x ^ y)
        (fun x => x / 2) (fun x => x / 2)) 1 rfl
      (by intro x y hx; simp [Libm.ofField, hx])
      (by intro x hx; simp [Libm.ofField, hx.le, hx.ne', not_lt.mpr hx.le])).1
      (fixedConfig ℝ) (Or.inl rfl) (.fin 1),
   ((Alphas_formula
      (Libm.ofField Real.pi Real.sqrt Real.cos Real.log Real.exp (fun x y => x ^ y)
        (fun x => x / 2) (fun x => x / 2)) 1 rfl
      (by intro x y hx; simp [Libm.ofField, hx])
      (by intro x hx; simp [Libm.ofField, hx.le, hx.ne', not_lt.mpr hx.le])).2
      (runningConfig ℝ) (by decide) (by decide) (by decide)
      (by norm_num [runningConfig, fixedConfig]) 1 one_pos).2 one_pos
      (by norm_num [runningConfig, fixedConfig])
      (by norm_num [runningConfig, fixedConfig])⟩

end KernelTheorems

end NloBK

/-! ## Theorems on the variable-flavour scheme of `Alphas` -/

namespace NloBK

open KinematicalConstraint RunningCouplingLO RunningCouplingNLO ResumRC

section FlavourTheorems

/-- The flavour count is 3, 4 or 5. -/
theorem flavourCount_cases {F : Type} [LinearOrderedField F] (s : F) :
    flavourCount s = 3 ∨ flavourCount s = 4 ∨ flavourCount s = 5 := by
  unfold flavourCount
  split_ifs <;> simp

/-- Every preset Lambda is positive. -/
theorem presetLambda_pos {F : Type} [LinearOrderedField F] (nf : F) :
    0 < presetLambda nf := by
  unfold presetLambda
  split_ifs <;> norm_num

/-- The value of `Alphas` in the variable-flavour branch at a finite size `> 0`:
the maximum `1` when the argument of the logarithm is at most `1` (at `1` the
quotient is `4 pi / 0 = +inf`), else `min 1 (4 pi / (b0 * ln argument))` with
`b0 = 11 - 2/3 * nf`. -/
theorem Alphas_flavour_aux (m : Libm ℝ) (cfg : Config ℝ) (as size : ℝ)
    (hpi : m.M_PI = Real.pi)
    (hlog : ∀ x : ℝ, 0 < x → m.log (.fin x) = .fin (Real.log x))
    (h1 : cfg.RC_LO ≠ FIXED_LO) (h2 : cfg.RESUM_RC ≠ RESUM_RC_FIXED)
    (h3 : cfg.RC_NLO ≠ FIXED_NLO) (hNF : 3 < cfg.NF) (hsize : 0 < size) :
    Alphas m cfg as (.fin size) =
      if 4 * as / (size * size * presetLambda (flavourCount (4 * as / (size * size)))
            * presetLambda (flavourCount (4 * as / (size * size)))) ≤ 1 then .fin 1
      else .fin (min 1 (4 * Real.pi /
        ((11 - 2 / 3 * flavourCount (4 * as / (size * size))) *
          Real.log (4 * as / (size * size * presetLambda (flavourCount (4 * as / (size * size)))
            * presetLambda (flavourCount (4 * as / (size * size)))))))) := by
  have hss : size * size ≠ 0 := by positivity
  unfold Alphas
  rw [if_neg (by simp [h1, h2, h3]), if_pos hNF]
  simp only [Dbl.fin_mul_fin, Dbl.fin_div_fin _ hss, Dbl.SQR_fin, Dbl.lt_fin_fin]
  have hnf : ∀ s : ℝ, (if decide (s < 13 / 10 * (13 / 10)) = true then (3 : ℝ)
      else if decide (s < 9 / 2 * (9 / 2)) = true then 4 else 5) = flavourCount s := by
    intro s; simp [flavourCount]
  simp only [hnf]
  generalize hn : flavourCount (4 * as / (size * size)) = nf
  have hc : nf = 3 ∨ nf = 4 ∨ nf = 5 := hn ▸ flavourCount_cases _
  have hL : (if nf = 5 then Dbl.fin (904389 / 10000000 : ℝ) else if nf = 4 then
      Dbl.fin (122944 / 1000000) else if nf = 3 then Dbl.fin (146159 / 1000000)
      else Dbl.nan) = Dbl.fin (presetLambda nf) := by
    rcases hc with rfl | rfl | rfl <;> norm_num [presetLambda]
  rw [hL]
  have hΛ := presetLambda_pos nf
  generalize presetLambda nf = L at hΛ ⊢
  have hden : size * size * L * L ≠ 0 := by positivity
  have hb0 : 0 < 11 - 2 / 3 * nf := by rcases hc with rfl | rfl | rfl <;> norm_num
  simp only [Dbl.fin_mul_fin, Dbl.fin_div_fin _ hden, Dbl.lt_fin_fin, hpi,
    Dbl.fin_div_fin (2 : ℝ) (by norm_num : (3 : ℝ) ≠ 0), Dbl.fin_sub_fin]
  generalize 4 * as / (size * size * L * L) = a
  rcases lt_trichotomy a 1 with ha | rfl | ha
  · rw [if_pos (by simpa using ha), if_pos ha.le]
  · rw [if_neg (by simp), if_pos le_rfl, hlog 1 one_pos]
    have hpos : (0 : ℝ) < 4 * Real.pi := by positivity
    have hinf : Dbl.fin (4 * Real.pi) / (Dbl.fin (11 - 2 / 3 * nf) * Dbl.fin (Real.log 1))
        = Dbl.pinf := by
      rw [Dbl.fin_mul_fin, Real.log_one, mul_zero]
      show Dbl.div _ _ = _
      simp [Dbl.div, Dbl.signedInf, hpos]
    rw [hinf]
    simp [Dbl.lt]
  · have hlpos : 0 < Real.log a := Real.log_pos ha
    have hne : (11 - 2 / 3 * nf) * Real.log a ≠ 0 := (mul_pos hb0 hlpos).ne'
    rw [if_neg (by simpa using ha.le), if_neg (not_le.mpr ha), hlog a (by linarith)]
    simp only [Dbl.fin_mul_fin, Dbl.fin_div_fin _ hne, Dbl.lt_fin_fin]
    by_cases h : 1 < 4 * Real.pi / ((11 - 2 / 3 * nf) * Real.log a)
    · rw [if_pos (by simpa using h), min_eq_left h.le]
    · rw [if_neg (by simpa using h), min_eq_right (not_lt.mp h)]

/-- C11 (amended): in a running-coupling configuration with `NF > 3`, for every size
`> 0`, with `nf = flavourCount (4 * alphas_scaling / size^2)` (3, 4 or 5 by the
thresholds `1.3^2` and `4.5^2`), `Lambda = presetLambda nf` and
`b0 = 11 - 2/3 * nf`, which is `(11 * NC - 2 * nf) / 3` when `NC = 3` (the code
does not read `NC` here): `Alphas` returns `1` when the argument
`4 * alphas_scaling / (size^2 * Lambda^2)` is at most `1`, and
`min 1 (4 pi / (b0 * ln argument))` when it is above `1`. -/
theorem Alphas_variable_flavour (m : Libm ℝ) (cfg : Config ℝ) (alphas_scaling size : ℝ)
    (hpi : m.M_PI = Real.pi)
    (hlog : ∀ x : ℝ, 0 < x → m.log (.fin x) = .fin (Real.log x))
    (h1 : cfg.RC_LO ≠ FIXED_LO) (h2 : cfg.RESUM_RC ≠ RESUM_RC_FIXED)
    (h3 : cfg.RC_NLO ≠ FIXED_NLO) (hNF : 3 < cfg.NF) (hsize : 0 < size) :
    (cfg.NC = 3 →
      11 - 2 / 3 * flavourCount (4 * alphas_scaling / size ^ 2)
        = (11 * cfg.NC - 2 * flavourCount (4 * alphas_scaling / size ^ 2)) / 3) ∧
    (4 * alphas_scaling /
        (size ^ 2 * presetLambda (flavourCount (4 * alphas_scaling / size ^ 2)) ^ 2) ≤ 1 →
      Alphas m cfg alphas_scaling (.fin size) = .fin 1) ∧
    (1 < 4 * alphas_scaling /
        (size ^ 2 * presetLambda (flavourCount (4 * alphas_scaling / size ^ 2)) ^ 2) →
      Alphas m cfg alphas_scaling (.fin size)
        = .fin (min 1 (4 * Real.pi /
            ((11 - 2 / 3 * flavourCount (4 * alphas_scaling / size ^ 2)) *
              Real.log (4 * alphas_scaling /
                (size ^ 2 * presetLambda (flavourCount (4 * alphas_scaling / size ^ 2)) ^ 2)))))) := by
  have hs : size ^ 2 = size * size := sq size
  have hd : ∀ L : ℝ, size * size * L ^ 2 = size * size * L * L := fun L => by ring
  refine ⟨fun hNC => by rw [hNC]; ring, fun h => ?_, fun h => ?_⟩
  · rw [hs, hd] at h
    rw [Alphas_flavour_aux m cfg alphas_scaling size hpi hlog h1 h2 h3 hNF hsize, if_pos h]
  · rw [hs, hd] at h ⊢
    rw [Alphas_flavour_aux m cfg alphas_scaling size hpi hlog h1 h2 h3 hNF hsize,
      if_neg (not_le.mpr h)]

/-- The coupling of `flavourConfig` at size `1` with the real libm: four active
flavours, `b0 = 25/3`, and a value below the maximum. -/
theorem flavourConfig_Alphas_one :
    Alphas
        (Libm.ofField Real.pi Real.sqrt Real.cos Real.log Real.exp (fun x y => x ^ y)
          (fun x => x / 2) (fun x => x / 2))
        (flavourConfig ℝ) 1 (.fin 1)
      = .fin (4 * Real.pi / (25 / 3 * Real.log (4 / (122944 / 1000000) ^ 2))) ∧
    4 * Real.pi / (25 / 3 * Real.log (4 / (122944 / 1000000 : ℝ) ^ 2)) < 1 := by
  have hlog8 : (2 : ℝ) < Real.log (4 / (122944 / 1000000) ^ 2) := by
    have h8 : Real.log 8 ≤ Real.log (4 / (122944 / 1000000 : ℝ) ^ 2) :=
      Real.log_le_log (by norm_num) (by norm_num)
    have h2 : Real.log 8 = 3 * Real.log 2 := by
      rw [show (8 : ℝ) = 2 ^ 3 by norm_num, Real.log_pow]; norm_num
    have := Real.log_two_gt_d9
    linarith
  have hval : 4 * Real.pi / (25 / 3 * Real.log (4 / (122944 / 1000000 : ℝ) ^ 2)) < 1 := by
    rw [div_lt_one (by positivity)]
    have := Real.pi_lt_d2
    linarith
  refine ⟨?_, hval⟩
  rw [Alphas_flavour_aux _ (flavourConfig ℝ) 1 1 rfl
    (by intro x hx; simp [Libm.ofField, hx.le, hx.ne', not_lt.mpr hx.le])
    (by decide) (by decide) (by decide)
    (by norm_num [flavourConfig, runningConfig, fixedConfig]) one_pos]
  have hf : flavourCount (4 * 1 / (1 * 1) : ℝ) = 4 := by norm_num [flavourCount]
  have hp : presetLambda (4 : ℝ) = 122944 / 1000000 := by norm_num [presetLambda]
  rw [hf, hp]
  have harg : (4 * 1 / (1 * 1 * (122944 / 1000000) * (122944 / 1000000)) : ℝ)
      = 4 / (122944 / 1000000) ^ 2 := by norm_num
  have hb : (11 - 2 / 3 * 4 : ℝ) = 25 / 3 := by norm_num
  rw [harg, hb, if_neg (by norm_num), min_eq_right hval.le]

/-- C11 (claim as stated fails): with `NC = 2` and `NF = 4` the coupling at size `1`
(`alphas_scaling = 1`, real libm) is not `min 1 (4 pi / (b0 * ln argument))` for
`b0 = (11 * NC - 2 * nf) / 3 = 14/3`: the code uses `b0 = 11 - 2/3 * nf = 25/3`. -/
theorem Alphas_variable_flavour_ignores_NC :
    Alphas
        (Libm.ofField Real.pi Real.sqrt Real.cos Real.log Real.exp (fun x y => x ^ y)
          (fun x => x / 2) (fun x => x / 2))
        (flavourConfig ℝ) 1 (.fin 1)
      ≠ .fin (min 1 (4 * Real.pi /
          ((11 * (flavourConfig ℝ).NC - 2 * flavourCount (4 * 1 / 1 ^ 2 : ℝ)) / 3 *
            Real.log (4 * 1 /
              (1 ^ 2 * presetLambda (flavourCount (4 * 1 / 1 ^ 2 : ℝ)) ^ 2))))) := by
  rw [flavourConfig_Alphas_one.1]
  have hval := flavourConfig_Alphas_one.2
  have hf : flavourCount (4 * 1 / 1 ^ 2 : ℝ) = 4 := by norm_num [flavourCount]
  have hp : presetLambda (4 : ℝ) = 122944 / 1000000 := by norm_num [presetLambda]
  have hNC : (flavourConfig ℝ).NC = 2 := rfl
  rw [hf, hp, hNC]
  have harg : (4 * 1 / (1 ^ 2 * (122944 / 1000000) ^ 2) : ℝ)
      = 4 / (122944 / 1000000) ^ 2 := by norm_num
  rw [harg]
  have hlogpos : (0 : ℝ) < Real.log (4 / (122944 / 1000000) ^ 2) :=
    Real.log_pos (by norm_num)
  intro h
  have h' := Dbl.fin.inj h
  have hlt : 4 * Real.pi / (25 / 3 * Real.log (4 / (122944 / 1000000 : ℝ) ^ 2))
      < 4 * Real.pi / ((11 * 2 - 2 * 4) / 3 * Real.log (4 / (122944 / 1000000 : ℝ) ^ 2)) := by
    apply div_lt_div_of_pos_left (by positivity) (by positivity)
    nlinarith
  have := lt_min hval hlt
  linarith

/-- C11 (amended), in `flavourConfig` at size `1` with the real libm: four active
flavours and the value `min 1 (4 pi / (b0 * ln argument))` with `b0 = 11 - 2/3 * 4`. -/
theorem Alphas_variable_flavour_witness :
    Alphas
        (Libm.ofField Real.pi Real.sqrt Real.cos Real.log Real.exp (fun x y => x ^ y)
          (fun x => x / 2) (fun x => x / 2))
        (flavourConfig ℝ) 1 (.fin 1)
      = .fin (min 1 (4 * Real.pi /
          ((11 - 2 / 3 * flavourCount (4 * 1 / 1 ^ 2 : ℝ)) *
            Real.log (4 * 1 /
              (1 ^ 2 * presetLambda (flavourCount (4 * 1 / 1 ^ 2 : ℝ)) ^ 2))))) :=
  (Alphas_variable_flavour
    (Libm.ofField Real.pi Real.sqrt Real.cos Real.log Real.exp (fun x y => x ^ y)
      (fun x => x / 2) (fun x => x / 2)) (flavourConfig ℝ) 1 1 rfl
    (by intro x hx; simp [Libm.ofField, hx.le, hx.ne', not_lt.mpr hx.le])
    (by decide) (by decide) (by decide)
    (by norm_num [flavourConfig, runningConfig, fixedConfig]) one_pos).2.2
    (by norm_num [flavourCount, presetLambda])

/-- Across the first threshold the two logarithms, weighted by their `b0`, are in
the wrong order: `25/3 * ln A < 9 * ln B` for the arguments at the sizes
`1575/1024 = 1.5380859375` (four flavours) and `197/128 = 1.5390625` (three
flavours). -/
theorem log_threshold_gap :
    25 / 3 * Real.log
        (4 * 1 / (1575 / 1024 * (1575 / 1024) * (122944 / 1000000) * (122944 / 1000000)) : ℝ)
      < 9 * Real.log
        (4 * 1 / (197 / 128 * (197 / 128) * (146159 / 1000000) * (146159 / 1000000)) : ℝ) := by
  have h : Real.log
        ((4 * 1 / (1575 / 1024 * (1575 / 1024) * (122944 / 1000000) * (122944 / 1000000)) : ℝ) ^ 25)
      < Real.log
        ((4 * 1 / (197 / 128 * (197 / 128) * (146159 / 1000000) * (146159 / 1000000)) : ℝ) ^ 27) :=
    Real.log_lt_log (by norm_num) (by norm_num)
  rw [Real.log_pow, Real.log_pow] at h
  push_cast at h
  linarith

/-- C12 (failing input): in every running-coupling configuration with `NF > 3`, with
`alphas_scaling = 1`, the coupling is not monotone across the first flavour
threshold: the sizes `1575/1024 < 197/128` (`1.5380859375` and `1.5390625`, both
binary fractions) have `Alphas (197/128) < Alphas (1575/1024)`.  At `1575/1024` the
scale `4/r^2 = 1.6908...` is strictly above `1.3^2 = 1.69` (four flavours), at
`197/128` the scale `1.6887...` is strictly below it (three flavours), and the
preset Lambdas do not make the two branches meet. -/
theorem Alphas_variable_flavour_not_monotone (m : Libm ℝ) (cfg : Config ℝ)
    (hpi : m.M_PI = Real.pi)
    (hlog : ∀ x : ℝ, 0 < x → m.log (.fin x) = .fin (Real.log x))
    (h1 : cfg.RC_LO ≠ FIXED_LO) (h2 : cfg.RESUM_RC ≠ RESUM_RC_FIXED)
    (h3 : cfg.RC_NLO ≠ FIXED_NLO) (hNF : 3 < cfg.NF) :
    (1575 / 1024 : ℝ) < 197 / 128 ∧
    (13 / 10 * (13 / 10) : ℝ) < 4 * 1 / (1575 / 1024 * (1575 / 1024)) ∧
    (4 * 1 / (197 / 128 * (197 / 128)) : ℝ) < 13 / 10 * (13 / 10) ∧
    Dbl.lt (Alphas m cfg 1 (.fin (197 / 128))) (Alphas m cfg 1 (.fin (1575 / 1024))) = true := by
  refine ⟨by norm_num, by norm_num, by norm_num, ?_⟩
  rw [Alphas_flavour_aux m cfg 1 (197 / 128) hpi hlog h1 h2 h3 hNF (by norm_num),
    Alphas_flavour_aux m cfg 1 (1575 / 1024) hpi hlog h1 h2 h3 hNF (by norm_num)]
  have hf3 : flavourCount (4 * 1 / (197 / 128 * (197 / 128)) : ℝ) = 3 := by
    norm_num [flavourCount]
  have hf4 : flavourCount (4 * 1 / (1575 / 1024 * (1575 / 1024)) : ℝ) = 4 := by
    norm_num [flavourCount]
  have hp3 : presetLambda (3 : ℝ) = 146159 / 1000000 := by norm_num [presetLambda]
  have hp4 : presetLambda (4 : ℝ) = 122944 / 1000000 := by norm_num [presetLambda]
  rw [hf3, hf4, hp3, hp4, if_neg (by norm_num), if_neg (by norm_num)]
  have hb3 : (11 - 2 / 3 * 3 : ℝ) = 9 := by norm_num
  have hb4 : (11 - 2 / 3 * 4 : ℝ) = 25 / 3 := by norm_num
  rw [hb3, hb4]
  have hgap := log_threshold_gap
  have hA : (0 : ℝ) < Real.log
      (4 * 1 / (1575 / 1024 * (1575 / 1024) * (122944 / 1000000) * (122944 / 1000000))) :=
    Real.log_pos (by norm_num)
  have hB : (2 : ℝ) < Real.log
      (4 * 1 / (197 / 128 * (197 / 128) * (146159 / 1000000) * (146159 / 1000000))) := by
    have h8 : Real.log 8 ≤ Real.log
        (4 * 1 / (197 / 128 * (197 / 128) * (146159 / 1000000) * (146159 / 1000000)) : ℝ) :=
      Real.log_le_log (by norm_num) (by norm_num)
    have h2 : Real.log 8 = 3 * Real.log 2 := by
      rw [show (8 : ℝ) = 2 ^ 3 by norm_num, Real.log_pow]; norm_num
    have := Real.log_two_gt_d9
    linarith
  generalize Real.log
    (4 * 1 / (1575 / 1024 * (1575 / 1024) * (122944 / 1000000) * (122944 / 1000000)) : ℝ) = a
    at hgap hA ⊢
  generalize Real.log
    (4 * 1 / (197 / 128 * (197 / 128) * (146159 / 1000000) * (146159 / 1000000)) : ℝ) = b
    at hgap hB ⊢
  have hpi0 := Real.pi_pos
  have hpi4 := Real.pi_lt_d2
  have hlt : 4 * Real.pi / (9 * b) < 4 * Real.pi / (25 / 3 * a) :=
    div_lt_div_of_pos_left (by positivity) (by positivity) hgap
  have hone : 4 * Real.pi / (9 * b) < 1 := by
    rw [div_lt_one (by positivity)]
    linarith
  simp only [Dbl.lt_fin_fin, decide_eq_true_eq]
  exact lt_min (lt_of_le_of_lt (min_le_right _ _) hone)
    (lt_of_le_of_lt (min_le_right _ _) hlt)

/-- C12 (failing input), in `flavourConfig` with the real libm. -/
theorem Alphas_variable_flavour_not_monotone_witness :
    (1575 / 1024 : ℝ) < 197 / 128 ∧
    (13 / 10 * (13 / 10) : ℝ) < 4 * 1 / (1575 / 1024 * (1575 / 1024)) ∧
    (4 * 1 / (197 / 128 * (197 / 128)) : ℝ) < 13 / 10 * (13 / 10) ∧
    Dbl.lt
      (Alphas
        (Libm.ofField Real.pi Real.sqrt Real.cos Real.log Real.exp (fun x y => x ^ y)
          (fun x => x / 2) (fun x => x / 2))
        (flavourConfig ℝ) 1 (.fin (197 / 128)))
      (Alphas
        (Libm.ofField Real.pi Real.sqrt Real.cos Real.log Real.exp (fun x y => x ^ y)
          (fun x => x / 2) (fun x => x / 2))
        (flavourConfig ℝ) 1 (.fin (1575 / 1024))) = true :=
  Alphas_variable_flavour_not_monotone
    (Libm.ofField Real.pi Real.sqrt Real.cos Real.log Real.exp (fun x y => x ^ y)
      (fun x => x / 2) (fun x => x / 2)) (flavourConfig ℝ) rfl
    (by intro x hx; simp [Libm.ofField, hx.le, hx.ne', not_lt.mpr hx.le])
    (by decide) (by decide) (by decide)
    (by norm_num [flavourConfig, runningConfig, fixedConfig])

end FlavourTheorems

end NloBK

/-! ## Theorems on the NLO kernels -/

namespace NloBK

open KinematicalConstraint RunningCouplingLO RunningCouplingNLO ResumRC

namespace Dbl
variable {F : Type} [LinearOrderedField F]

/-- An infinity or NaN is not finite. -/
theorem nonfinite_signedInf (x : F) :
    (isnan (signedInf x (nan : Dbl F)) || isinf (signedInf x (nan : Dbl F))) = true := by
  unfold signedInf
  split_ifs <;> rfl

/-- A sum with a non-finite left term is non-finite. -/
theorem nonfinite_add_left (a b : Dbl F) (h : (a.isnan || a.isinf) = true) :
    ((a + b).isnan || (a + b).isinf) = true := by
  show ((add a b).isnan || (add a b).isinf) = true
  cases a <;> cases b <;> first | rfl | (simp [isnan, isinf] at h)

/-- A sum with a non-finite right term is non-finite. -/
theorem nonfinite_add_right (a b : Dbl F) (h : (b.isnan || b.isinf) = true) :
    ((a + b).isnan || (a + b).isinf) = true := by
  show ((add a b).isnan || (add a b).isinf) = true
  cases a <;> cases b <;> first | rfl | (simp [isnan, isinf] at h)

/-- The negation of a non-finite value is non-finite. -/
theorem nonfinite_neg (a : Dbl F) (h : (a.isnan || a.isinf) = true) :
    ((-a).isnan || (-a).isinf) = true := by
  show ((neg a).isnan || (neg a).isinf) = true
  cases a <;> first | rfl | (simp [isnan, isinf] at h)

/-- A difference with a non-finite left term is non-finite. -/
theorem nonfinite_sub_left (a b : Dbl F) (h : (a.isnan || a.isinf) = true) :
    ((a - b).isnan || (a - b).isinf) = true :=
  nonfinite_add_left a (neg b) h

/-- A difference with a non-finite right term is non-finite. -/
theorem nonfinite_sub_right (a b : Dbl F) (h : (b.isnan || b.isinf) = true) :
    ((a - b).isnan || (a - b).isinf) = true :=
  nonfinite_add_right a (neg b) (nonfinite_neg b h)

/-- A product with a non-finite left factor is non-finite. -/
theorem nonfinite_mul_left (a b : Dbl F) (h : (a.isnan || a.isinf) = true) :
    ((a * b).isnan || (a * b).isinf) = true := by
  show ((mul a b).isnan || (mul a b).isinf) = true
  cases a <;> cases b <;>
    first | exact nonfinite_signedInf _ | rfl | (simp [isnan, isinf] at h)

/-- A product with a non-finite right factor is non-finite. -/
theorem nonfinite_mul_right (a b : Dbl F) (h : (b.isnan || b.isinf) = true) :
    ((a * b).isnan || (a * b).isinf) = true := by
  show ((mul a b).isnan || (mul a b).isinf) = true
  cases a <;> cases b <;>
    first | exact nonfinite_signedInf _ | rfl | (simp [isnan, isinf] at h)

/-- A quotient by zero is non-finite. -/
theorem nonfinite_div_zero (a : Dbl F) :
    ((a / fin 0).isnan || (a / fin 0).isinf) = true := by
  show ((div a (fin 0)).isnan || (div a (fin 0)).isinf) = true
  cases a
  · simp only [div, if_true]; exact nonfinite_signedInf _
  · simp [div, isinf]
  · simp [div, isinf]
  · rfl

/-- A quotient with a non-finite numerator is non-finite. -/
theorem nonfinite_div_left (a b : Dbl F) (h : (a.isnan || a.isinf) = true) :
    ((a / b).isnan || (a / b).isinf) = true := by
  show ((div a b).isnan || (div a b).isinf) = true
  cases a <;> cases b <;>
    first | rfl | (simp only [div]; split_ifs <;> rfl) | (simp [isnan, isinf] at h)

end Dbl

section NloKernelTheorems
variable {F : Type} [LinearOrderedField F]

/-- The clamp `isnan or isinf -> 0` yields a finite value. -/
theorem clamp_fin (a : Dbl F) :
    ∃ k, (if (a.isnan || a.isinf) = true then Dbl.fin 0 else a) = .fin k := by
  cases a
  · exact ⟨_, rfl⟩
  all_goals exact ⟨0, rfl⟩

/-- The clamp `isinf or isnan -> 0` yields a finite value. -/
theorem clamp_fin_swap (a : Dbl F) :
    ∃ k, (if (a.isinf || a.isnan) = true then Dbl.fin 0 else a) = .fin k := by
  cases a
  · exact ⟨_, rfl⟩
  all_goals exact ⟨0, rfl⟩

/-- The value of `Kernel_nlo` is finite, whatever the arguments. -/
theorem Kernel_nlo_finite (m : Libm F) (r X Y X2 Y2 z_m_z2 : Dbl F) :
    ∃ k, Kernel_nlo m r X Y X2 Y2 z_m_z2 = .fin k := by
  exact clamp_fin _

/-- The value of `Kernel_nlo_fermion` is finite, whatever the arguments. -/
theorem Kernel_nlo_fermion_finite (m : Libm F) (cfg : Config F) (r X Y X2 Y2 z_m_z2 : Dbl F) :
    ∃ k, Kernel_nlo_fermion m cfg r X Y X2 Y2 z_m_z2 = .fin k := by
  exact clamp_fin_swap _

/-- When the second term of the bracket is not finite, `Kernel_nlo` returns 0. -/
theorem Kernel_nlo_of_nonfinite_bracket (m : Libm F) (r X Y X2 Y2 z_m_z2 : Dbl F)
    (h : ((m.pow r (.fin 4) / (Dbl.SQR (X * Y2) * (Dbl.SQR (X * Y2) - Dbl.SQR (X2 * Y)))).isnan ||
      (m.pow r (.fin 4) / (Dbl.SQR (X * Y2) * (Dbl.SQR (X * Y2) - Dbl.SQR (X2 * Y)))).isinf) = true) :
    Kernel_nlo m r X Y X2 Y2 z_m_z2 = .fin 0 := by
  unfold Kernel_nlo
  dsimp only
  rw [if_pos]
  apply Dbl.nonfinite_add_right
  apply Dbl.nonfinite_mul_left
  apply Dbl.nonfinite_mul_left
  apply Dbl.nonfinite_add_left
  apply Dbl.nonfinite_add_right
  exact h


/-- C13: with `pow` and `log` of libm exact on positive arguments (and
`pow(0, 4) = 0`), for positive finite arguments with `X * Y2 ≠ X2 * Y` the value of
`Kernel_nlo` is `-2/Z^4 + [ (X^2 Y2^2 + X2^2 Y^2 - 4 r^2 Z^2) / (Z^4 (X^2 Y2^2 -
X2^2 Y^2)) + r^4 / (X^2 Y2^2 (X^2 Y2^2 - X2^2 Y^2)) + r^2 / (X^2 Y2^2 Z^2) ] *
2 ln(X Y2 / (X2 Y))`; it is `0` when `Z = 0` and when `X * Y2 = X2 * Y`, whatever
the other arguments; and for all arguments, special values included, neither
`Kernel_nlo` nor `Kernel_nlo_fermion` returns a NaN or an infinity. -/
theorem Kernel_nlo_formula (m : Libm ℝ)
    (hpow : ∀ x : ℝ, 0 < x → m.pow (.fin x) (.fin 4) = .fin (x ^ 4))
    (hpow0 : m.pow (.fin 0) (.fin 4) = .fin 0)
    (hlog : ∀ x : ℝ, 0 < x → m.log (.fin x) = .fin (Real.log x)) :
    (∀ r X Y X2 Y2 Z : ℝ, 0 < r → 0 < X → 0 < Y → 0 < X2 → 0 < Y2 → 0 < Z →
      X * Y2 ≠ X2 * Y →
      Kernel_nlo m (.fin r) (.fin X) (.fin Y) (.fin X2) (.fin Y2) (.fin Z)
        = .fin (-2 / Z ^ 4
            + ((X ^ 2 * Y2 ^ 2 + X2 ^ 2 * Y ^ 2 - 4 * r ^ 2 * Z ^ 2)
                  / (Z ^ 4 * (X ^ 2 * Y2 ^ 2 - X2 ^ 2 * Y ^ 2))
                + r ^ 4 / (X ^ 2 * Y2 ^ 2 * (X ^ 2 * Y2 ^ 2 - X2 ^ 2 * Y ^ 2))
                + r ^ 2 / (X ^ 2 * Y2 ^ 2 * Z ^ 2))
              * (2 * Real.log (X * Y2 / (X2 * Y))))) ∧
    (∀ r X Y X2 Y2 : Dbl ℝ, Kernel_nlo m r X Y X2 Y2 (.fin 0) = .fin 0) ∧
    (∀ (r Z : Dbl ℝ) (X Y X2 Y2 : ℝ), X * Y2 = X2 * Y →
      Kernel_nlo m r (.fin X) (.fin Y) (.fin X2) (.fin Y2) Z = .fin 0) ∧
    (∀ r X Y X2 Y2 Z : Dbl ℝ,
      (Kernel_nlo m r X Y X2 Y2 Z).isnan = false ∧
      (Kernel_nlo m r X Y X2 Y2 Z).isinf = false) ∧
    (∀ (cfg : Config ℝ) (r X Y X2 Y2 Z : Dbl ℝ),
      (Kernel_nlo_fermion m cfg r X Y X2 Y2 Z).isnan = false ∧
      (Kernel_nlo_fermion m cfg r X Y X2 Y2 Z).isinf = false) := by
  refine ⟨?_, ?_, ?_, ?_, ?_⟩
  · intro r X Y X2 Y2 Z hr hX hY hX2 hY2 hZ hne
    have hd : X ^ 2 * Y2 ^ 2 - X2 ^ 2 * Y ^ 2 ≠ 0 := by
      intro h
      have h1 : (X * Y2) ^ 2 = (X2 * Y) ^ 2 := by nlinarith
      have h2 : 0 < X * Y2 := mul_pos hX hY2
      have h3 : 0 < X2 * Y := mul_pos hX2 hY
      exact hne (by nlinarith [sq_nonneg (X * Y2 - X2 * Y), sq_nonneg (X * Y2 + X2 * Y)])
    have hZ4 : Z ^ 4 ≠ 0 := by positivity
    have hXY2 : X * Y2 * (X * Y2) ≠ 0 := by positivity
    have hX2Y : X2 * Y ≠ 0 := by positivity
    have hd' : X * Y2 * (X * Y2) - X2 * Y * (X2 * Y) ≠ 0 := by
      intro h; apply hd; linear_combination h
    have hd1 : Z ^ 4 * (X * Y2 * (X * Y2) - X2 * Y * (X2 * Y)) ≠ 0 := mul_ne_zero hZ4 hd'
    have hd2 : X * Y2 * (X * Y2) * (X * Y2 * (X * Y2) - X2 * Y * (X2 * Y)) ≠ 0 :=
      mul_ne_zero hXY2 hd'
    have hd3 : X * Y2 * Z * (X * Y2 * Z) ≠ 0 := by positivity
    have hratio : 0 < X * Y2 / (X2 * Y) := by positivity
    unfold Kernel_nlo
    simp only [hpow Z hZ, hpow r hr, Dbl.SQR_fin, Dbl.fin_mul_fin, Dbl.fin_add_fin,
      Dbl.fin_sub_fin, Dbl.fin_div_fin _ hZ4, Dbl.fin_div_fin _ hd1, Dbl.fin_div_fin _ hd2,
      Dbl.fin_div_fin _ hd3, Dbl.fin_div_fin _ hX2Y, hlog _ hratio, Dbl.isnan_fin,
      Dbl.isinf_fin, Bool.or_self, Bool.false_eq_true, if_false]
    congr 1
    have e1 : X * Y2 * (X * Y2) = X ^ 2 * Y2 ^ 2 := by ring
    have e2 : X2 * Y * (X2 * Y) = X2 ^ 2 * Y ^ 2 := by ring
    have e3 : r * Z * (r * Z) = r ^ 2 * Z ^ 2 := by ring
    have e4 : X * Y2 * Z * (X * Y2 * Z) = X ^ 2 * Y2 ^ 2 * Z ^ 2 := by ring
    have e5 : r * r = r ^ 2 := by ring
    rw [e1, e2, e3, e4, e5]
    ring
  · intro r X Y X2 Y2
    unfold Kernel_nlo
    dsimp only
    rw [if_pos]
    apply Dbl.nonfinite_add_left
    rw [hpow0]
    exact Dbl.nonfinite_div_zero _
  · intro r Z X Y X2 Y2 h
    apply Kernel_nlo_of_nonfinite_bracket
    have h0 : Dbl.SQR (Dbl.fin X * Dbl.fin Y2) * (Dbl.SQR (Dbl.fin X * Dbl.fin Y2)
        - Dbl.SQR (Dbl.fin X2 * Dbl.fin Y)) = Dbl.fin 0 := by
      simp only [Dbl.SQR_fin, Dbl.fin_mul_fin, Dbl.fin_sub_fin, h, sub_self, mul_zero]
    rw [h0]
    exact Dbl.nonfinite_div_zero _
  · intro r X Y X2 Y2 Z
    obtain ⟨k, hk⟩ := Kernel_nlo_finite m r X Y X2 Y2 Z
    rw [hk]; exact ⟨rfl, rfl⟩
  · intro cfg r X Y X2 Y2 Z
    obtain ⟨k, hk⟩ := Kernel_nlo_fermion_finite m cfg r X Y X2 Y2 Z
    rw [hk]; exact ⟨rfl, rfl⟩

/-- C13, with the real libm at `r = 1`, `X = 2`, `Y = X2 = Y2 = Z = 1`. -/
theorem Kernel_nlo_formula_witness :
    Kernel_nlo
        (Libm.ofField Real.pi Real.sqrt Real.cos Real.log Real.exp (fun x y => x ^ y)
          (fun x => x / 2) (fun x => x / 2))
        (.fin 1) (.fin 2) (.fin 1) (.fin 1) (.fin 1) (.fin 1)
      = .fin (-2 / 1 ^ 4
          + ((2 ^ 2 * 1 ^ 2 + 1 ^ 2 * 1 ^ 2 - 4 * 1 ^ 2 * 1 ^ 2)
                / (1 ^ 4 * (2 ^ 2 * 1 ^ 2 - 1 ^ 2 * 1 ^ 2))
              + 1 ^ 4 / (2 ^ 2 * 1 ^ 2 * (2 ^ 2 * 1 ^ 2 - 1 ^ 2 * 1 ^ 2))
              + 1 ^ 2 / (2 ^ 2 * 1 ^ 2 * 1 ^ 2))
            * (2 * Real.log (2 * 1 / (1 * 1)))) :=
  (Kernel_nlo_formula
    (Libm.ofField Real.pi Real.sqrt Real.cos Real.log Real.exp (fun x y => x ^ y)
      (fun x => x / 2) (fun x => x / 2))
    (by
      intro x hx
      simp only [Libm.ofField, hx, if_true]
      exact congrArg Dbl.fin (by exact_mod_cast Real.rpow_natCast x 4))
    (by simp [Libm.ofField])
    (by intro x hx; simp [Libm.ofField, hx.le, hx.ne', not_lt.mpr hx.le])).1
    1 2 1 1 1 1 one_pos two_pos one_pos one_pos one_pos one_pos (by norm_num)

end NloKernelTheorems

end NloBK

/-! ## Theorems on the NLO integrand -/

namespace NloBK

open KinematicalConstraint RunningCouplingLO RunningCouplingNLO ResumRC

section NloIntegrandTheorems

end NloIntegrandTheorems

end NloBK

/-! ## Theorems on `Kernel_lo` with the K+ constraint -/

namespace NloBK

open KinematicalConstraint RunningCouplingLO RunningCouplingNLO ResumRC

section KplusGeneral

variable {F : Type} [LinearOrderedField F]

/-- A clamped value is neither NaN nor infinite. -/
theorem clamp_not_nonfinite (a : Dbl F) :
    ((if (a.isnan || a.isinf) = true then Dbl.fin 0 else a).isnan ||
      (if (a.isnan || a.isinf) = true then Dbl.fin 0 else a).isinf) = false := by
  cases a <;> rfl

end KplusGeneral

/-- A product with NaN is NaN. -/
theorem Dbl.mul_nan {F : Type} [LinearOrderedField F] (a : Dbl F) : a * Dbl.nan = Dbl.nan := by
  show Dbl.mul a Dbl.nan = Dbl.nan
  cases a <;> rfl

/-- A difference with NaN is NaN. -/
theorem Dbl.sub_nan {F : Type} [LinearOrderedField F] (a : Dbl F) : a - Dbl.nan = Dbl.nan := by
  show Dbl.add a (Dbl.neg Dbl.nan) = Dbl.nan
  cases a <;> rfl

/-- The product `0 * -inf` is NaN. -/
theorem Dbl.zero_mul_ninf {F : Type} [LinearOrderedField F] :
    Dbl.fin (0 : F) * Dbl.ninf = Dbl.nan := by
  show Dbl.mul (Dbl.fin 0) Dbl.ninf = Dbl.nan
  simp [Dbl.mul, Dbl.signedInf]

/-- With K+, the NLO kernel on and no resummation, `Kernel_lo_XY` returns
`result + k1fin` unclamped; it is NaN as soon as `log(X/r)` is finite and `log(Y/r)`
is `-inf`, the product `dlog * ... * log(Y/r)` being `0 * -inf`. -/
theorem Kernel_lo_XY_kplus_nan {F : Type} [LinearOrderedField F] (m : Libm F)
    (cfg : Config F) (alphas_scaling : F) (r X Y : Dbl F) (l : F)
    (hK : cfg.KINEMATICAL_CONSTRAINT = KC_BEUF_K_PLUS) (hN : cfg.NO_K2 = false)
    (hD : cfg.RESUM_DLOG = false) (hS : cfg.RESUM_SINGLE_LOG = false)
    (hlX : m.log (X / r) = .fin l) (hlY : m.log (Y / r) = .ninf) :
    Kernel_lo_XY m cfg alphas_scaling r X Y = some .nan := by
  unfold Kernel_lo_XY
  dsimp only
  have hrf : ∀ ra, resumFactor m cfg ra r X Y = some (.fin 1) := by
    intro ra; simp [resumFactor, hD]
  rw [hrf]
  dsimp only
  unfold combineLO
  simp only [clamp_not_nonfinite, hK, hN, hD, hS, hlX, hlY]
  simp [Dbl.fin_mul_fin, Dbl.zero_mul_ninf, Dbl.sub_nan, Dbl.mul_nan, Dbl.add_nan]

/-- C16 (failing input): with the K+ constraint, the NLO kernel on and no
resummation (`kplusConfig`, real libm), at `r = 1`, `z = 0`, `theta = 0` (so `X = 1`,
`Y = 0`) `Kernel_lo` returns NaN: `result` is clamped to 0, but `k1fin` holds
`0 * log(0) = NaN` and `return result + k1fin` is not clamped. -/
theorem Kernel_lo_kplus_returns_nan :
    Kernel_lo
        (Libm.ofField Real.pi Real.sqrt Real.cos Real.log Real.exp (fun x y => x ^ y)
          (fun x => x / 2) (fun x => x / 2))
        (kplusConfig ℝ) 1 (.fin 1) (.fin 0) (.fin 0) = some .nan := by
  have hX : (Libm.ofField Real.pi Real.sqrt Real.cos Real.log Real.exp (fun x y => x ^ y)
          (fun x => x / 2) (fun x => x / 2)).sqrt
        (Dbl.fin 1 * Dbl.fin 1 + Dbl.fin 0 * Dbl.fin 0 - Dbl.fin 2 * Dbl.fin 1 * Dbl.fin 0
          * (Libm.ofField Real.pi Real.sqrt Real.cos Real.log Real.exp (fun x y => x ^ y)
              (fun x => x / 2) (fun x => x / 2)).cos (Dbl.fin 0)) = Dbl.fin 1 := by
    simp [Libm.ofField, Dbl.fin_mul_fin, Dbl.fin_add_fin, Dbl.fin_sub_fin]
  unfold Kernel_lo
  dsimp only
  rw [hX]
  refine Kernel_lo_XY_kplus_nan _ _ _ _ _ _ 0 rfl rfl rfl rfl ?_ ?_
  · rw [Dbl.fin_div_fin _ one_ne_zero]
    simp [Libm.ofField]
  · rw [Dbl.fin_div_fin _ one_ne_zero]
    simp [Libm.ofField]

end NloBK

/-! ## Theorems on the LO integrand -/

namespace NloBK

open KinematicalConstraint RunningCouplingLO RunningCouplingNLO ResumRC

section LoIntegrandGeneral

variable {F : Type} [LinearOrderedField F]

/-- With a kinematical constraint and the adaptive stepper, `Inthelperf_lo_theta`
returns 0 when one of the two cuts placed before the check holds, and exits
otherwise. -/
theorem Inthelperf_lo_theta_adaptive_aux (m : Libm F) (cfg : Config F) (alphas_scaling : F)
    (sp : SolverParams F) (ev : AmplitudeEval F)
    (hK : cfg.KINEMATICAL_CONSTRAINT ≠ KC_NONE) (hE : cfg.EULER_METHOD = false)
    (r z rapidity : Dbl F) (dipole_interp : Interpolator F) (theta : Dbl F) :
    Inthelperf_lo_theta m cfg alphas_scaling sp ev r z rapidity dipole_interp theta =
      if sizeCut cfg (r * r + z * z - .fin 2 * r * z * m.cos theta) z r = true ∨
          targetCut m cfg sp (m.sqrt (r * r + z * z - .fin 2 * r * z * m.cos theta)) z
            rapidity = true
      then some (.fin 0) else none := by
  unfold Inthelperf_lo_theta
  dsimp only
  by_cases h1 : sizeCut cfg (r * r + z * z - .fin 2 * r * z * m.cos theta) z r = true
  · rw [if_pos h1, if_pos (Or.inl h1)]
  · rw [if_neg h1]
    by_cases h2 : targetCut m cfg sp (m.sqrt (r * r + z * z - .fin 2 * r * z * m.cos theta)) z
        rapidity = true
    · rw [if_pos h2, if_pos (Or.inr h2)]
    · rw [if_neg h2]
      conv_rhs => rw [if_neg (fun h => h.elim h1 h2)]
      by_cases hn : ((m.sqrt (r * r + z * z - .fin 2 * r * z * m.cos theta)).isnan
          || z.isnan) = true
      · rw [if_pos hn]
      · rw [if_neg hn]
        cases hk : cfg.KINEMATICAL_CONSTRAINT
        · exact absurd hk hK
        · simp [hE]
        · simp [hE]

/-- C17 (amended): with `KINEMATICAL_CONSTRAINT != KC_NONE` and `EULER_METHOD` off,
an evaluation of `Inthelperf_lo_theta` returns 0 when `X^2 < MINR^2`, `z < MINR` or
`r < MINR` (`sizeCut`), or when the target kinematical constraint is on and cuts the
point (`targetCut`); every other evaluation exits.  In particular, with the target
constraint off, every evaluation at finite `r >= MINR`, `z >= MINR` with
`X^2 >= MINR^2` exits. -/
theorem Inthelperf_lo_theta_adaptive (m : Libm F) (cfg : Config F) (alphas_scaling : F)
    (sp : SolverParams F) (ev : AmplitudeEval F)
    (hK : cfg.KINEMATICAL_CONSTRAINT ≠ KC_NONE) (hE : cfg.EULER_METHOD = false) :
    (∀ (r z rapidity : Dbl F) (dipole_interp : Interpolator F) (theta : Dbl F),
      Inthelperf_lo_theta m cfg alphas_scaling sp ev r z rapidity dipole_interp theta =
        if sizeCut cfg (r * r + z * z - .fin 2 * r * z * m.cos theta) z r = true ∨
            targetCut m cfg sp (m.sqrt (r * r + z * z - .fin 2 * r * z * m.cos theta)) z
              rapidity = true
        then some (.fin 0) else none) ∧
    (∀ (r z xsqr : F) (rapidity : Dbl F) (dipole_interp : Interpolator F) (theta : Dbl F),
      cfg.TARGET_KINEMATICAL_CONSTRAINT = false →
      .fin r * .fin r + .fin z * .fin z - .fin 2 * .fin r * .fin z * m.cos theta = .fin xsqr →
      cfg.MINR * cfg.MINR ≤ xsqr → cfg.MINR ≤ z → cfg.MINR ≤ r →
      Inthelperf_lo_theta m cfg alphas_scaling sp ev (.fin r) (.fin z) rapidity
        dipole_interp theta = none) := by
  refine ⟨Inthelperf_lo_theta_adaptive_aux m cfg alphas_scaling sp ev hK hE, ?_⟩
  intro r z xsqr rapidity dipole_interp theta hT hX h1 h2 h3
  rw [Inthelperf_lo_theta_adaptive_aux m cfg alphas_scaling sp ev hK hE, hX, if_neg]
  simp [sizeCut, targetCut, hT, Dbl.lt, Dbl.SQR_fin, not_lt.mpr h1, not_lt.mpr h2,
    not_lt.mpr h3]
end LoIntegrandGeneral

/-- C17 (amended), with the real libm, K+ and the adaptive stepper, at `r = z = 1`,
`theta = pi/2` (so `X^2 = 2`): the evaluation exits. -/
theorem Inthelperf_lo_theta_adaptive_witness :
    Inthelperf_lo_theta
        (Libm.ofField Real.pi Real.sqrt Real.cos Real.log Real.exp (fun x y => x ^ y)
          (fun x => x / 2) (fun x => x / 2))
        (kplusAdaptiveConfig ℝ) 1 ⟨1, 1, 1⟩
        ⟨fun _ _ => .fin 0, fun _ _ => .fin 0, fun _ => .fin 0⟩
        (.fin 1) (.fin 1) (.fin 0) ⟨[], [], true, .fin 0, .fin 1⟩ (.fin (Real.pi / 2))
      = none :=
  (Inthelperf_lo_theta_adaptive _ (kplusAdaptiveConfig ℝ) 1 _ _ (by decide) rfl).2
    1 1 2 _ _ _ rfl
    (by simp [Libm.ofField, Dbl.fin_mul_fin, Dbl.fin_add_fin, Dbl.fin_sub_fin]; norm_num)
    (by norm_num [kplusAdaptiveConfig, kplusConfig, fixedConfig])
    (by norm_num [kplusAdaptiveConfig, kplusConfig, fixedConfig])
    (by norm_num [kplusAdaptiveConfig, kplusConfig, fixedConfig])

/-- C17 (claim as stated fails): with K+ and the adaptive stepper (real libm), at
`r = z = 1`, `theta = 0` the daughter distance is `X = 0`, below `MINR`, and
`Inthelperf_lo_theta` returns 0: the size test comes before the check of the
stepper. -/
theorem Inthelperf_lo_theta_adaptive_returns_zero :
    Inthelperf_lo_theta
        (Libm.ofField Real.pi Real.sqrt Real.cos Real.log Real.exp (fun x y => x ^ y)
          (fun x => x / 2) (fun x => x / 2))
        (kplusAdaptiveConfig ℝ) 1 ⟨1, 1, 1⟩
        ⟨fun _ _ => .fin 0, fun _ _ => .fin 0, fun _ => .fin 0⟩
        (.fin 1) (.fin 1) (.fin 0) ⟨[], [], true, .fin 0, .fin 1⟩ (.fin 0)
      = some (.fin 0) := by
  rw [Inthelperf_lo_theta_adaptive_aux _ (kplusAdaptiveConfig ℝ) 1 _ _ (by decide) rfl, if_pos]
  left
  simp [sizeCut, Libm.ofField, Dbl.fin_mul_fin, Dbl.fin_add_fin, Dbl.fin_sub_fin, Dbl.lt,
    Dbl.SQR_fin, kplusAdaptiveConfig, kplusConfig, fixedConfig]
  norm_num

end NloBK

/-! ## Theorems on `RapidityShift` -/

namespace NloBK

open KinematicalConstraint RunningCouplingLO RunningCouplingNLO ResumRC

section RapidityShiftGeneral

variable {F : Type} [LinearOrderedField F]

/-- The value `std::max(0.0, v)` is neither negative nor NaN, whatever `v`. -/
theorem Dbl.max_zero_nonneg (v : Dbl F) :
    Dbl.lt (Dbl.max (.fin 0) v) (.fin 0) = false ∧ (Dbl.max (.fin 0) v).isnan = false := by
  unfold Dbl.max
  cases v with
  | fin x =>
    by_cases h : (0 : F) < x
    · simp [Dbl.lt, h, Dbl.isnan, not_lt.mpr h.le]
    · simp [Dbl.lt, h, Dbl.isnan]
  | pinf => simp [Dbl.lt, Dbl.isnan]
  | ninf => simp [Dbl.lt, Dbl.isnan]
  | nan => simp [Dbl.lt, Dbl.isnan]

/-- On finite values `std::max` is the maximum. -/
theorem Dbl.max_fin_fin (a b : F) : Dbl.max (.fin a) (.fin b) = .fin (Max.max a b) := by
  unfold Dbl.max
  by_cases h : a < b
  · simp [Dbl.lt, h, max_eq_right h.le]
  · simp [Dbl.lt, h, max_eq_left (not_lt.mp h)]

/-- The shift is neither negative nor NaN, whatever the arguments and the libm. -/
theorem RapidityShift_nonneg (m : Libm F) (r X : Dbl F) :
    Dbl.lt (RapidityShift m r X) (.fin 0) = false ∧ (RapidityShift m r X).isnan = false := by
  unfold RapidityShift
  split_ifs
  · simp [Dbl.lt, Dbl.isnan]
  · exact Dbl.max_zero_nonneg _

end RapidityShiftGeneral

/-- The shift at finite `r ≠ 0` and `X` at or above the floor `1e-10`. -/
theorem RapidityShift_pos (m : Libm ℝ)
    (hlog : ∀ x : ℝ, 0 < x → m.log (.fin x) = .fin (Real.log x))
    (r x : ℝ) (hr : r ≠ 0) (hx : 1 / 10 ^ 10 ≤ x) :
    RapidityShift m (.fin r) (.fin x) = .fin (max 0 (Real.log (r ^ 2 / x ^ 2))) := by
  have hx0 : 0 < x := lt_of_lt_of_le (by norm_num) hx
  have hxx : x * x ≠ 0 := by positivity
  have hpos : 0 < r * r / (x * x) := div_pos (mul_self_pos.mpr hr) (mul_pos hx0 hx0)
  unfold RapidityShift
  rw [if_neg (by simp only [Dbl.lt_fin_fin, decide_eq_true_eq]; exact not_lt.mpr hx), Dbl.fin_mul_fin, Dbl.fin_mul_fin,
    Dbl.fin_div_fin _ hxx, hlog _ hpos, Dbl.max_fin_fin, sq, sq]

/-- C19: with a libm whose `log` is exact on positive arguments and `-inf` at 0,
`RapidityShift(r, X)` is 0 when `X < 1e-10` and `std::max(0, log(r*r/(X*X)))`
otherwise, which for finite `r ≠ 0` and `X >= 1e-10` is `max 0 (ln (r^2/X^2))` and
for `r = 0` is 0; for all arguments, special values included, the shift is neither
negative nor NaN; and it is 0 whenever `X >= r > 0`. -/
theorem RapidityShift_spec (m : Libm ℝ)
    (hlog : ∀ x : ℝ, 0 < x → m.log (.fin x) = .fin (Real.log x))
    (hlog0 : m.log (.fin 0) = .ninf) :
    (∀ r X : Dbl ℝ, Dbl.lt X (.fin (1 / 10 ^ 10)) = true → RapidityShift m r X = .fin 0) ∧
    (∀ r X : Dbl ℝ, Dbl.lt X (.fin (1 / 10 ^ 10)) = false →
      RapidityShift m r X = Dbl.max (.fin 0) (m.log (r * r / (X * X)))) ∧
    (∀ r x : ℝ, r ≠ 0 → 1 / 10 ^ 10 ≤ x →
      RapidityShift m (.fin r) (.fin x) = .fin (max 0 (Real.log (r ^ 2 / x ^ 2)))) ∧
    (∀ x : ℝ, 1 / 10 ^ 10 ≤ x → RapidityShift m (.fin 0) (.fin x) = .fin 0) ∧
    (∀ r X : Dbl ℝ,
      Dbl.lt (RapidityShift m r X) (.fin 0) = false ∧ (RapidityShift m r X).isnan = false) ∧
    (∀ r x : ℝ, 0 < r → r ≤ x → RapidityShift m (.fin r) (.fin x) = .fin 0) := by
  refine ⟨?_, ?_, RapidityShift_pos m hlog, ?_, RapidityShift_nonneg m, ?_⟩
  · intro r X h
    unfold RapidityShift
    rw [if_pos h]
  · intro r X h
    unfold RapidityShift
    rw [if_neg (by rw [h]; exact Bool.false_ne_true)]
  · intro x hx
    have hx0 : 0 < x := lt_of_lt_of_le (by norm_num) hx
    have hxx : x * x ≠ 0 := by positivity
    unfold RapidityShift
    rw [if_neg (by simp only [Dbl.lt_fin_fin, decide_eq_true_eq]; exact not_lt.mpr hx), Dbl.fin_mul_fin, Dbl.fin_mul_fin,
      Dbl.fin_div_fin _ hxx, mul_zero, zero_div, hlog0]
    simp [Dbl.max, Dbl.lt]
  · intro r x hr hrx
    by_cases hx : x < 1 / 10 ^ 10
    · unfold RapidityShift
      rw [if_pos (by simp only [Dbl.lt_fin_fin, decide_eq_true_eq]; exact hx)]
    · have hx0 : 0 < x := lt_of_lt_of_le hr hrx
      rw [RapidityShift_pos m hlog r x hr.ne' (not_lt.mp hx)]
      congr 1
      apply max_eq_left
      apply Real.log_nonpos (by positivity)
      rw [div_le_one (by positivity)]
      exact pow_le_pow_left₀ hr.le hrx 2

/-- C19, with the real libm: the shift at `r = 2`, `X = 1` is `max 0 (ln 4)`, and at
`r = 1`, `X = 2` it is 0. -/
theorem RapidityShift_spec_witness :
    RapidityShift
        (Libm.ofField Real.pi Real.sqrt Real.cos Real.log Real.exp (fun x y => x ^ y)
          (fun x => x / 2) (fun x => x / 2))
        (.fin 2) (.fin 1) = .fin (max 0 (Real.log (2 ^ 2 / 1 ^ 2))) ∧
    RapidityShift
        (Libm.ofField Real.pi Real.sqrt Real.cos Real.log Real.exp (fun x y => x ^ y)
          (fun x => x / 2) (fun x => x / 2))
        (.fin 1) (.fin 2) = .fin 0 :=
  ⟨(RapidityShift_spec
      (Libm.ofField Real.pi Real.sqrt Real.cos Real.log Real.exp (fun x y => x ^ y)
        (fun x => x / 2) (fun x => x / 2))
      (by intro x hx; simp [Libm.ofField, hx.le, hx.ne', not_lt.mpr hx.le])
      (by simp [Libm.ofField])).2.2.1 2 1 two_ne_zero (by norm_num),
   (RapidityShift_spec
      (Libm.ofField Real.pi Real.sqrt Real.cos Real.log Real.exp (fun x y => x ^ y)
        (fun x => x / 2) (fun x => x / 2))
      (by intro x hx; simp [Libm.ofField, hx.le, hx.ne', not_lt.mpr hx.le])
      (by simp [Libm.ofField])).2.2.2.2.2 1 2 one_pos (by norm_num)⟩

end NloBK

/-! ## Theorems on `Evolve` -/

namespace NloBK

open KinematicalConstraint RunningCouplingLO RunningCouplingNLO ResumRC

section EvolveGeneral

variable {F : Type} [LinearOrderedField F]

/-- The interpolators of `Evolve` are built from the vectors `Evolve_rvals`,
`Evolve_nvals` and `Evolve_yvals_s`. -/
theorem Evolve_eq_samples (cfg : Config F)
    (lo : F → Interpolator F → F → Option (Dbl F))
    (nlo : F → Interpolator F → Interpolator F → Option (Dbl F))
    (d : Dipole F) (y : F) (amplitude : List (Dbl F)) :
    Evolve cfg lo nlo d y amplitude =
      match (List.range d.RPoints).mapM'
        (evolveEntry cfg lo nlo d y amplitude (Evolve_rvals d)
          (Evolve_nvals cfg d amplitude) (Evolve_yvals_s cfg d amplitude)) with
      | none => none
      | some dydt => if cfg.DNDY then none else some dydt := rfl

/-- A loop over a list that returned has produced, at every index, the value of the
body at that index. -/
theorem mapM_option_get {α β : Type} (f : α → Option β) :
    ∀ (l : List α) (bs : List β), l.mapM' f = some bs →
      ∀ (i : Nat) (a : α), l[i]? = some a → ∃ b, bs[i]? = some b ∧ f a = some b := by
  intro l
  induction l with
  | nil => intro bs _ i a ha; simp at ha
  | cons x l ih =>
    intro bs h i a ha
    cases hx : f x with
    | none => simp [List.mapM', hx] at h
    | some b0 =>
      cases hl : l.mapM' f with
      | none => simp [List.mapM', hx, hl] at h
      | some bs0 =>
        have hbs : bs = b0 :: bs0 := by
          simp [List.mapM', hx, hl] at h
          exact h.symm
        subst hbs
        cases i with
        | zero =>
          simp at ha
          subst ha
          exact ⟨b0, by simp, hx⟩
        | succ j =>
          simp at ha
          obtain ⟨b, hb, hf⟩ := ih bs0 hl j a ha
          exact ⟨b, by simpa using hb, hf⟩

/-- The entry `dydt[i]` written by the loop body of `Evolve`, when it returns. -/
theorem evolveEntry_value (cfg : Config F)
    (lo : F → Interpolator F → F → Option (Dbl F))
    (nlo : F → Interpolator F → Interpolator F → Option (Dbl F))
    (d : Dipole F) (y : F) (amplitude : List (Dbl F))
    (rvals : List F) (nvals yvals_s : List (Dbl F)) (i : Nat) (b : Dbl F)
    (h : evolveEntry cfg lo nlo d y amplitude rvals nvals yvals_s i = some b) :
    (b.isnan = false ∧ b.isinf = false) ∧
    (Dbl.lt (.fin (99999 / 100000)) (amplitude.getD i .nan) = true → b = .fin 0) ∧
    (Dbl.lt (.fin (99999 / 100000)) (amplitude.getD i .nan) = false →
      ∃ l n, lo (d.RVal i) ⟨rvals, nvals, true, .fin 0, .fin 1⟩ y = some l ∧
        (if cfg.NO_K2 = true then some (.fin 0)
          else nlo (d.RVal i) ⟨rvals, nvals, true, .fin 0, .fin 1⟩
            ⟨rvals, yvals_s, true, .fin 1, .fin 0⟩) = some n ∧
        b = if ((l + n).isnan || (l + n).isinf) = true then .fin 0 else l + n) := by
  unfold evolveEntry at h
  dsimp only at h
  by_cases hf : Dbl.lt (.fin (99999 / 100000)) (amplitude.getD i .nan) = true
  · rw [if_pos hf] at h
    have hb : b = .fin 0 := (Option.some.inj h).symm
    subst hb
    exact ⟨⟨rfl, rfl⟩, fun _ => rfl, fun h' => by rw [hf] at h'; cases h'⟩
  · rw [if_neg hf] at h
    cases hl : lo (d.RVal i) ⟨rvals, nvals, true, .fin 0, .fin 1⟩ y with
    | none => rw [hl] at h; cases h
    | some l =>
      rw [hl] at h
      dsimp only at h
      have hsel : (if (!cfg.NO_K2) = true then
            nlo (d.RVal i) ⟨rvals, nvals, true, .fin 0, .fin 1⟩
              ⟨rvals, yvals_s, true, .fin 1, .fin 0⟩
          else some (.fin 0))
          = (if cfg.NO_K2 = true then some (.fin 0)
            else nlo (d.RVal i) ⟨rvals, nvals, true, .fin 0, .fin 1⟩
              ⟨rvals, yvals_s, true, .fin 1, .fin 0⟩) := by
        cases cfg.NO_K2 <;> simp
      rw [hsel] at h
      cases hn : (if cfg.NO_K2 = true then some (.fin 0)
            else nlo (d.RVal i) ⟨rvals, nvals, true, .fin 0, .fin 1⟩
              ⟨rvals, yvals_s, true, .fin 1, .fin 0⟩) with
      | none => rw [hn] at h; cases h
      | some n =>
        rw [hn] at h
        dsimp only at h
        have hb : b = if ((l + n).isnan || (l + n).isinf) = true then .fin 0 else l + n := by
          split_ifs at h ⊢ <;> exact (Option.some.inj h).symm
        refine ⟨?_, fun h' => absurd h' hf, fun _ => ⟨l, n, rfl, rfl, hb⟩⟩
        have hc := clamp_not_nonfinite (l + n)
        rw [← hb] at hc
        cases b <;> simp_all [Dbl.isnan, Dbl.isinf]

/-- C18: with `DNDY` off and derivative evaluators that return, for every input
amplitude vector `Evolve` returns a vector with one entry per grid point, every
entry of which is neither NaN nor infinite: entry `i` is 0 when
`amplitude[i] > 0.99999`, and otherwise it is `lo + nlo` (`nlo = 0` when the NLO
kernel is disabled by `NO_K2`) when that sum is finite and 0 when it is NaN or
infinite. -/
theorem Evolve_entries_finite (cfg : Config F)
    (lo : F → Interpolator F → F → Option (Dbl F))
    (nlo : F → Interpolator F → Interpolator F → Option (Dbl F))
    (hD : cfg.DNDY = false)
    (hlo : ∀ r ip y, (lo r ip y).isSome = true)
    (hnlo : ∀ r ip is, (nlo r ip is).isSome = true)
    (d : Dipole F) (y : F) (amplitude : List (Dbl F)) :
    ∃ dydt, Evolve cfg lo nlo d y amplitude = some dydt ∧ dydt.length = d.RPoints ∧
      ∀ i, i < d.RPoints → ∃ b, dydt[i]? = some b ∧
        (b.isnan = false ∧ b.isinf = false) ∧
        (Dbl.lt (.fin (99999 / 100000)) (amplitude.getD i .nan) = true → b = .fin 0) ∧
        (Dbl.lt (.fin (99999 / 100000)) (amplitude.getD i .nan) = false →
          ∃ l n,
            lo (d.RVal i)
              ⟨Evolve_rvals d, Evolve_nvals cfg d amplitude, true, .fin 0, .fin 1⟩ y = some l ∧
            (if cfg.NO_K2 = true then some (.fin 0)
              else nlo (d.RVal i)
                ⟨Evolve_rvals d, Evolve_nvals cfg d amplitude, true, .fin 0, .fin 1⟩
                ⟨Evolve_rvals d, Evolve_yvals_s cfg d amplitude, true, .fin 1, .fin 0⟩)
              = some n ∧
            b = if ((l + n).isnan || (l + n).isinf) = true then .fin 0 else l + n) := by
  obtain ⟨bs, hbs, hlen⟩ := mapM_option_some
    (evolveEntry cfg lo nlo d y amplitude (Evolve_rvals d) (Evolve_nvals cfg d amplitude)
      (Evolve_yvals_s cfg d amplitude))
    (List.range d.RPoints)
    (fun i => evolveEntry_isSome cfg lo nlo hlo hnlo d y amplitude _ _ _ i)
  refine ⟨bs, ?_, by simpa using hlen, ?_⟩
  · rw [Evolve_eq_samples, hbs]
    simp [hD]
  · intro i hi
    obtain ⟨b, hb, hf⟩ := mapM_option_get _ _ _ hbs i i (by simp [hi])
    exact ⟨b, hb, evolveEntry_value cfg lo nlo d y amplitude _ _ _ i b hf⟩

/-- Under the force-positive policy the N sample of a non-NaN entry is the entry
clamped to `[0, 1]`. -/
theorem nSample_clamped (cfg : Config F) (hF : cfg.FORCE_POSITIVE_N = true) (a : Dbl F)
    (ha : a.isnan = false) :
    ∃ n : F, nSample cfg a = .fin n ∧ 0 ≤ n ∧ n ≤ 1 ∧
      (∀ x, a = .fin x → n = max 0 (min 1 x)) := by
  unfold nSample
  cases a with
  | nan => simp [Dbl.isnan] at ha
  | pinf => exact ⟨1, by simp [Dbl.lt, hF], zero_le_one, le_rfl, fun x h => by cases h⟩
  | ninf => exact ⟨0, by simp [Dbl.lt, hF], le_rfl, zero_le_one, fun x h => by cases h⟩
  | fin x =>
    by_cases h1 : 1 < x
    · refine ⟨1, by simp [Dbl.lt, hF, h1], zero_le_one, le_rfl, fun x' h => ?_⟩
      cases h
      rw [min_eq_left h1.le, max_eq_right zero_le_one]
    · by_cases h0 : x < 0
      · refine ⟨0, by simp [Dbl.lt, hF, h1, h0], le_rfl, zero_le_one, fun x' h => ?_⟩
        cases h
        rw [min_eq_right (not_lt.mp h1), max_eq_left h0.le]
      · refine ⟨x, by simp [Dbl.lt, hF, h1, h0], not_lt.mp h0, not_lt.mp h1, fun x' h => ?_⟩
        cases h
        rw [min_eq_right (not_lt.mp h1), max_eq_right (not_lt.mp h0)]

/-- Under the force-positive policy the S sample of a non-NaN entry is `1 - entry`
clamped to `[0, 1]`. -/
theorem sSample_clamped (cfg : Config F) (hF : cfg.FORCE_POSITIVE_N = true) (a : Dbl F)
    (ha : a.isnan = false) :
    ∃ s : F, sSample cfg a = .fin s ∧ 0 ≤ s ∧ s ≤ 1 ∧
      (∀ x, a = .fin x → s = max 0 (min 1 (1 - x))) := by
  unfold sSample
  cases a with
  | nan => simp [Dbl.isnan] at ha
  | pinf =>
    have hs : (Dbl.fin 1 - Dbl.pinf : Dbl F) = Dbl.ninf := rfl
    exact ⟨0, by simp [hs, Dbl.lt], le_rfl, zero_le_one, fun x h => by cases h⟩
  | ninf =>
    have hs : (Dbl.fin 1 - Dbl.ninf : Dbl F) = Dbl.pinf := rfl
    exact ⟨1, by simp [hs, Dbl.lt, hF], zero_le_one, le_rfl, fun x h => by cases h⟩
  | fin x =>
    simp only [Dbl.fin_sub_fin]
    by_cases h0 : 1 - x < 0
    · refine ⟨0, by simp [Dbl.lt, hF, h0], le_rfl, zero_le_one, fun x' h => ?_⟩
      cases h
      rw [min_eq_right (by linarith), max_eq_left h0.le]
    · by_cases h1 : 1 < 1 - x
      · refine ⟨1, by simp [Dbl.lt, hF, h1, h0], zero_le_one, le_rfl, fun x' h => ?_⟩
        cases h
        rw [min_eq_left h1.le, max_eq_right zero_le_one]
      · refine ⟨1 - x, by simp [Dbl.lt, hF, h1, h0], not_lt.mp h0, not_lt.mp h1,
          fun x' h => ?_⟩
        cases h
        rw [min_eq_right (not_lt.mp h1), max_eq_right (not_lt.mp h0)]

/-- C20 (amended): for every input amplitude vector the N-sample and S-sample
sequences built by `Evolve` have exactly one value per grid point, the samples of
`amplitude[i]`; under the force-positive policy the samples of every entry that is
not NaN (infinities included) are finite and lie in `[0, 1]`, being the entry and
one minus the entry clamped to the nearest bound; the samples of a NaN entry are
NaN. -/
theorem Evolve_samples (cfg : Config F) (d : Dipole F) (amplitude : List (Dbl F)) :
    (Evolve_nvals cfg d amplitude).length = d.RPoints ∧
    (Evolve_yvals_s cfg d amplitude).length = d.RPoints ∧
    (∀ i, i < d.RPoints →
      (Evolve_nvals cfg d amplitude)[i]? = some (nSample cfg (amplitude.getD i .nan)) ∧
      (Evolve_yvals_s cfg d amplitude)[i]? = some (sSample cfg (amplitude.getD i .nan))) ∧
    (cfg.FORCE_POSITIVE_N = true → ∀ a : Dbl F, a.isnan = false →
      ∃ n s : F, nSample cfg a = .fin n ∧ sSample cfg a = .fin s ∧
        0 ≤ n ∧ n ≤ 1 ∧ 0 ≤ s ∧ s ≤ 1 ∧
        (∀ x, a = .fin x → n = max 0 (min 1 x) ∧ s = max 0 (min 1 (1 - x)))) ∧
    (nSample cfg .nan = .nan ∧ sSample cfg .nan = .nan) := by
  refine ⟨by simp [Evolve_nvals], by simp [Evolve_yvals_s], ?_, ?_, ?_⟩
  · intro i hi
    simp [Evolve_nvals, Evolve_yvals_s, hi]
  · intro hF a ha
    obtain ⟨n, hn, hn0, hn1, hnx⟩ := nSample_clamped cfg hF a ha
    obtain ⟨s, hs, hs0, hs1, hsx⟩ := sSample_clamped cfg hF a ha
    exact ⟨n, s, hn, hs, hn0, hn1, hs0, hs1, fun x hx => ⟨hnx x hx, hsx x hx⟩⟩
  · constructor
    · simp [nSample, Dbl.lt]
    · simp [sSample, Dbl.sub_nan, Dbl.lt]

/-- C18, on the one-point grid with vanishing derivatives. -/
theorem Evolve_entries_finite_witness :
    ∃ dydt, Evolve eulerConfig quietExtern.lo quietExtern.nlo unitGrid 0 [.fin 0] = some dydt ∧
      dydt.length = unitGrid.RPoints ∧
      ∀ i, i < unitGrid.RPoints →
        ∃ b, dydt[i]? = some b ∧ b.isnan = false ∧ b.isinf = false := by
  obtain ⟨dydt, h1, h2, h3⟩ := Evolve_entries_finite eulerConfig quietExtern.lo
    quietExtern.nlo rfl (fun _ _ _ => rfl) (fun _ _ _ => rfl) unitGrid 0 [.fin 0]
  refine ⟨dydt, h1, h2, fun i hi => ?_⟩
  obtain ⟨b, hb, hfin, -⟩ := h3 i hi
  exact ⟨b, hb, hfin⟩

end EvolveGeneral

/-- C20 (amended), for the entry `3/2` under `eulerConfig` (force-positive on): the
samples are in `[0, 1]`. -/
theorem Evolve_samples_witness :
    ∃ n s : ℚ, nSample eulerConfig (.fin (3 / 2)) = .fin n ∧
      sSample eulerConfig (.fin (3 / 2)) = .fin s ∧
      0 ≤ n ∧ n ≤ 1 ∧ 0 ≤ s ∧ s ≤ 1 ∧
      (∀ x, Dbl.fin (3 / 2 : ℚ) = .fin x → n = max 0 (min 1 x) ∧ s = max 0 (min 1 (1 - x))) :=
  (Evolve_samples eulerConfig unitGrid [.fin (3 / 2)]).2.2.2.1 rfl (.fin (3 / 2)) rfl

/-- C20 (claim as stated fails): under the force-positive policy, on a one-point
grid, the amplitude vector `[NaN]` gives the N samples `[NaN]` and the S samples
`[NaN]`: the comparisons `n > 1.0`, `n < 0`, `s < 0`, `s > 1` are all false on NaN. -/
theorem Evolve_nan_sample :
    eulerConfig.FORCE_POSITIVE_N = true ∧
    Evolve_nvals eulerConfig nanGrid [.nan] = [.nan] ∧
    Evolve_yvals_s eulerConfig nanGrid [.nan] = [.nan] := by
  refine ⟨rfl, ?_, ?_⟩
  · simp [Evolve_nvals, nanGrid, Dipole.RPoints, nSample, Dbl.lt, List.range_succ]
  · simp only [Evolve_yvals_s, nanGrid, Dipole.RPoints, List.length_singleton, List.range_succ,
      List.range_zero, List.nil_append, List.map_cons, List.map_nil, List.getD_cons_zero]
    show [sSample eulerConfig Dbl.nan] = _
    have : sSample eulerConfig (Dbl.nan : Dbl ℚ) = Dbl.nan := by
      simp [sSample, Dbl.sub_nan, Dbl.lt]
    rw [this]

end NloBK

/-! ## Theorems on `RapidityDerivative_nlo` -/

namespace NloBK

open KinematicalConstraint RunningCouplingLO RunningCouplingNLO ResumRC

section NloDerivativeGeneral

open IntMethodNLO

variable {F : Type} [LinearOrderedField F] {σ : Type}

/-- The VEGAS branch with fuel for three passes: the result of the first pass when it
meets the two criteria, else the result of the second pass when that one does, else
0, whatever the third pass gave. -/
theorem RapidityDerivative_nlo_vegas (cfg : Config F) (gsl : Integrators F σ)
    (hV : cfg.INTMETHOD_NLO = VEGAS) (fuel : Nat) (hfuel : 3 ≤ fuel) (s0 : σ) :
    RapidityDerivative_nlo cfg gsl fuel s0 =
      if vegasUnconverged gsl
          (gsl.gsl_monte_vegas_integrate
            (gsl.gsl_monte_vegas_integrate s0 (cfg.MCINTPOINTS / 5)).st cfg.MCINTPOINTS)
          = false then
        some ((gsl.gsl_monte_vegas_integrate
            (gsl.gsl_monte_vegas_integrate s0 (cfg.MCINTPOINTS / 5)).st
              cfg.MCINTPOINTS).result,
          (gsl.gsl_monte_vegas_integrate
            (gsl.gsl_monte_vegas_integrate s0 (cfg.MCINTPOINTS / 5)).st cfg.MCINTPOINTS).st)
      else if vegasUnconverged gsl
          (gsl.gsl_monte_vegas_integrate
            (gsl.gsl_monte_vegas_integrate
              (gsl.gsl_monte_vegas_integrate s0 (cfg.MCINTPOINTS / 5)).st
                cfg.MCINTPOINTS).st cfg.MCINTPOINTS) = false then
        some ((gsl.gsl_monte_vegas_integrate
            (gsl.gsl_monte_vegas_integrate
              (gsl.gsl_monte_vegas_integrate s0 (cfg.MCINTPOINTS / 5)).st
                cfg.MCINTPOINTS).st cfg.MCINTPOINTS).result,
          (gsl.gsl_monte_vegas_integrate
            (gsl.gsl_monte_vegas_integrate
              (gsl.gsl_monte_vegas_integrate s0 (cfg.MCINTPOINTS / 5)).st
                cfg.MCINTPOINTS).st cfg.MCINTPOINTS).st)
      else
        some (.fin 0,
          (gsl.gsl_monte_vegas_integrate
            (gsl.gsl_monte_vegas_integrate
              (gsl.gsl_monte_vegas_integrate
                (gsl.gsl_monte_vegas_integrate s0 (cfg.MCINTPOINTS / 5)).st
                  cfg.MCINTPOINTS).st cfg.MCINTPOINTS).st cfg.MCINTPOINTS).st) := by
  obtain ⟨n, rfl⟩ : ∃ n, fuel = n + 3 := ⟨fuel - 3, by omega⟩
  unfold RapidityDerivative_nlo
  rw [hV]
  dsimp only
  generalize (gsl.gsl_monte_vegas_integrate s0 (cfg.MCINTPOINTS / 5)).st = s1
  generalize cfg.MCINTPOINTS = calls
  cases h1 : vegasUnconverged gsl (gsl.gsl_monte_vegas_integrate s1 calls)
  · simp [vegasLoop, h1]
  · cases h2 : vegasUnconverged gsl
        (gsl.gsl_monte_vegas_integrate (gsl.gsl_monte_vegas_integrate s1 calls).st calls)
    · simp [vegasLoop, h1, h2]
    · simp [vegasLoop, h1, h2]

/-- The MISER branch with fuel for two rounds: one integration is performed; its
result is returned when it meets the criterion, and 0 is returned otherwise, the
state being the one after that single integration. -/
theorem RapidityDerivative_nlo_miser (cfg : Config F) (gsl : Integrators F σ)
    (hM : cfg.INTMETHOD_NLO = MISER) (fuel : Nat) (hfuel : 2 ≤ fuel) (s0 : σ) :
    RapidityDerivative_nlo cfg gsl fuel s0 =
      if Dbl.lt (.fin cfg.MCINTACCURACY)
          (Dbl.abs ((gsl.gsl_monte_miser_integrate s0 cfg.MCINTPOINTS).abserr
            / (gsl.gsl_monte_miser_integrate s0 cfg.MCINTPOINTS).result)) = true then
        some (.fin 0, (gsl.gsl_monte_miser_integrate s0 cfg.MCINTPOINTS).st)
      else
        some ((gsl.gsl_monte_miser_integrate s0 cfg.MCINTPOINTS).result,
          (gsl.gsl_monte_miser_integrate s0 cfg.MCINTPOINTS).st) := by
  obtain ⟨n, rfl⟩ : ∃ n, fuel = n + 2 := ⟨fuel - 2, by omega⟩
  unfold RapidityDerivative_nlo
  rw [hM]
  dsimp only
  split_ifs with h <;> simp [miserLoop, h]

end NloDerivativeGeneral

/-- C21 (failing input): VEGAS integrators whose first two passes fail the criteria
and whose third pass meets both (result 1, error estimate 0, `chi^2 = 1`).
`RapidityDerivative_nlo` returns 0 after the four integrations: `iters >= 3` holds
after the third pass whether or not it converged. -/
theorem RapidityDerivative_nlo_vegas_discards_third_pass :
    RapidityDerivative_nlo vegasConfig lateIntegrators 3 0 = some (.fin 0, 4) ∧
    lateIntegrators.gsl_monte_vegas_integrate 3 vegasConfig.MCINTPOINTS
      = { st := 4, result := .fin 1, abserr := .fin 0 } ∧
    vegasUnconverged lateIntegrators
      (lateIntegrators.gsl_monte_vegas_integrate 3 vegasConfig.MCINTPOINTS) = false := by
  refine ⟨?_, rfl, ?_⟩
  · rw [RapidityDerivative_nlo_vegas vegasConfig lateIntegrators rfl 3 le_rfl 0]
    norm_num [vegasUnconverged, lateIntegrators, Dbl.lt, Dbl.abs, Dbl.fin_div_fin,
      Dbl.fin_sub_fin]
  · norm_num [vegasUnconverged, lateIntegrators, Dbl.lt, Dbl.abs, Dbl.fin_div_fin,
      Dbl.fin_sub_fin]

/-- C22 (failing input): a MISER integrator whose first integration fails the
criterion (relative error 1 against `MCINTACCURACY = 1/5`) and whose second one
would meet it (result 1, error estimate 0).  `RapidityDerivative_nlo` returns 0 with
one integration done: the second round returns before integrating. -/
theorem RapidityDerivative_nlo_miser_never_retries :
    RapidityDerivative_nlo miserConfig lateIntegrators 2 0 = some (.fin 0, 1) ∧
    lateIntegrators.gsl_monte_miser_integrate 1 miserConfig.MCINTPOINTS
      = { st := 2, result := .fin 1, abserr := .fin 0 } ∧
    Dbl.lt (.fin miserConfig.MCINTACCURACY) (Dbl.abs (Dbl.fin (0 : ℚ) / Dbl.fin 1)) = false := by
  refine ⟨?_, rfl, ?_⟩
  · rw [RapidityDerivative_nlo_miser miserConfig lateIntegrators rfl 2 le_rfl 0]
    norm_num [lateIntegrators, miserConfig, fixedConfig, Dbl.lt, Dbl.abs, Dbl.fin_div_fin]
  · norm_num [miserConfig, fixedConfig, Dbl.lt, Dbl.abs, Dbl.fin_div_fin]

end NloBK

/-! ## Theorems on the symmetry of `Kernel_nlo_fermion` -/

namespace NloBK

open KinematicalConstraint RunningCouplingLO RunningCouplingNLO ResumRC

section FermionSymmetryTheorems

/-- The value of `Kernel_nlo` at positive finite arguments with `X * Y2 ≠ X2 * Y`. -/
theorem Kernel_nlo_value (m : Libm ℝ)
    (hpow : ∀ x : ℝ, 0 < x → m.pow (.fin x) (.fin 4) = .fin (x ^ 4))
    (hlog : ∀ x : ℝ, 0 < x → m.log (.fin x) = .fin (Real.log x))
    (r X Y X2 Y2 Z : ℝ) (hr : 0 < r) (hX : 0 < X) (hY : 0 < Y) (hX2 : 0 < X2)
    (hY2 : 0 < Y2) (hZ : 0 < Z) (hne : X * Y2 ≠ X2 * Y) :
    Kernel_nlo m (.fin r) (.fin X) (.fin Y) (.fin X2) (.fin Y2) (.fin Z)
      = .fin (-2 / Z ^ 4
          + ((X ^ 2 * Y2 ^ 2 + X2 ^ 2 * Y ^ 2 - 4 * r ^ 2 * Z ^ 2)
                / (Z ^ 4 * (X ^ 2 * Y2 ^ 2 - X2 ^ 2 * Y ^ 2))
              + r ^ 4 / (X ^ 2 * Y2 ^ 2 * (X ^ 2 * Y2 ^ 2 - X2 ^ 2 * Y ^ 2))
              + r ^ 2 / (X ^ 2 * Y2 ^ 2 * Z ^ 2))
            * (2 * Real.log (X * Y2 / (X2 * Y)))) := by
  have hd' : X * Y2 * (X * Y2) - X2 * Y * (X2 * Y) ≠ 0 := by
    intro h
    have h2 : 0 < X * Y2 := mul_pos hX hY2
    have h3 : 0 < X2 * Y := mul_pos hX2 hY
    exact hne (by nlinarith [sq_nonneg (X * Y2 - X2 * Y), sq_nonneg (X * Y2 + X2 * Y)])
  have hZ4 : Z ^ 4 ≠ 0 := by positivity
  have hXY2 : X * Y2 * (X * Y2) ≠ 0 := by positivity
  have hX2Y : X2 * Y ≠ 0 := by positivity
  have hd1 : Z ^ 4 * (X * Y2 * (X * Y2) - X2 * Y * (X2 * Y)) ≠ 0 := mul_ne_zero hZ4 hd'
  have hd2 : X * Y2 * (X * Y2) * (X * Y2 * (X * Y2) - X2 * Y * (X2 * Y)) ≠ 0 :=
    mul_ne_zero hXY2 hd'
  have hd3 : X * Y2 * Z * (X * Y2 * Z) ≠ 0 := by positivity
  have hratio : 0 < X * Y2 / (X2 * Y) := by positivity
  unfold Kernel_nlo
  simp only [hpow Z hZ, hpow r hr, Dbl.SQR_fin, Dbl.fin_mul_fin, Dbl.fin_add_fin,
    Dbl.fin_sub_fin, Dbl.fin_div_fin _ hZ4, Dbl.fin_div_fin _ hd1, Dbl.fin_div_fin _ hd2,
    Dbl.fin_div_fin _ hd3, Dbl.fin_div_fin _ hX2Y, hlog _ hratio, Dbl.isnan_fin,
    Dbl.isinf_fin, Bool.or_self, Bool.false_eq_true, if_false]
  congr 1
  have e1 : X * Y2 * (X * Y2) = X ^ 2 * Y2 ^ 2 := by ring
  have e2 : X2 * Y * (X2 * Y) = X2 ^ 2 * Y ^ 2 := by ring
  have e3 : r * Z * (r * Z) = r ^ 2 * Z ^ 2 := by ring
  have e4 : X * Y2 * Z * (X * Y2 * Z) = X ^ 2 * Y2 ^ 2 * Z ^ 2 := by ring
  have e5 : r * r = r ^ 2 := by ring
  rw [e1, e2, e3, e4, e5]
  ring

/-- At positive finite daughter sizes `Kernel_nlo_fermion` is unchanged when `(X, Y)`
and `(X2, Y2)` are exchanged; for `X * Y2 = X2 * Y` both sides are the same
expression, otherwise both brackets and both logarithms change sign. -/
theorem Kernel_nlo_fermion_swap (m : Libm ℝ)
    (hpow : ∀ x : ℝ, 0 < x → m.pow (.fin x) (.fin 4) = .fin (x ^ 4))
    (hlog : ∀ x : ℝ, 0 < x → m.log (.fin x) = .fin (Real.log x))
    (cfg : Config ℝ) (r X Y X2 Y2 Z : ℝ) (hX : 0 < X) (hY : 0 < Y) (hX2 : 0 < X2)
    (hY2 : 0 < Y2) (hZ : 0 < Z) :
    Kernel_nlo_fermion m cfg (.fin r) (.fin X) (.fin Y) (.fin X2) (.fin Y2) (.fin Z)
      = Kernel_nlo_fermion m cfg (.fin r) (.fin X2) (.fin Y2) (.fin X) (.fin Y) (.fin Z) := by
  by_cases h : X * Y2 = X2 * Y
  · unfold Kernel_nlo_fermion
    simp only [Dbl.fin_mul_fin, h]
  · have hd : X * Y2 * (X * Y2) - X2 * Y * (X2 * Y) ≠ 0 := by
      intro h'
      have h2 : 0 < X * Y2 := mul_pos hX hY2
      have h3 : 0 < X2 * Y := mul_pos hX2 hY
      exact h (by nlinarith [sq_nonneg (X * Y2 - X2 * Y), sq_nonneg (X * Y2 + X2 * Y)])
    have hd' : X2 * Y * (X2 * Y) - X * Y2 * (X * Y2) ≠ 0 := by
      intro h'; apply hd; linarith
    have hZ4 : Z ^ 4 ≠ 0 := by positivity
    have hX2Y : X2 * Y ≠ 0 := by positivity
    have hXY2 : X * Y2 ≠ 0 := by positivity
    have hr1 : 0 < X * Y2 / (X2 * Y) := by positivity
    have hr2 : 0 < X2 * Y / (X * Y2) := by positivity
    have hlogswap : Real.log (X2 * Y / (X * Y2)) = -Real.log (X * Y2 / (X2 * Y)) := by
      rw [← Real.log_inv, inv_div]
    unfold Kernel_nlo_fermion
    simp only [hpow Z hZ, Dbl.SQR_fin, Dbl.fin_mul_fin, Dbl.fin_add_fin, Dbl.fin_sub_fin,
      Dbl.fin_div_fin _ hZ4, Dbl.fin_div_fin _ (mul_ne_zero hZ4 hd),
      Dbl.fin_div_fin _ (mul_ne_zero hZ4 hd'), Dbl.fin_div_fin _ hX2Y,
      Dbl.fin_div_fin _ hXY2, hlog _ hr1, hlog _ hr2, hlogswap]
    have hk : 2 / Z ^ 4 - (X * Y2 * (X * Y2) + X2 * Y * (X2 * Y) - r * Z * (r * Z))
          / (Z ^ 4 * (X * Y2 * (X * Y2) - X2 * Y * (X2 * Y))) * 2
          * Real.log (X * Y2 / (X2 * Y))
        = 2 / Z ^ 4 - (X2 * Y * (X2 * Y) + X * Y2 * (X * Y2) - r * Z * (r * Z))
          / (Z ^ 4 * (X2 * Y * (X2 * Y) - X * Y2 * (X * Y2))) * 2
          * -Real.log (X * Y2 / (X2 * Y)) := by
      field_simp
      ring
    rw [hk]


/-- C23: with `pow` and `log` of libm exact on positive arguments, for all positive
finite `r, X, Y, X2, Y2, Z`, `Kernel_nlo_fermion(r, X, Y, X2, Y2, Z) =
Kernel_nlo_fermion(r, X2, Y2, X, Y, Z)`; `Kernel_nlo` has no such symmetry: its
values at `(1, 2, 1, 1, 1, 1)` and at the swapped point `(1, 1, 1, 2, 1, 1)`
differ. -/
theorem Kernel_nlo_fermion_symmetric (m : Libm ℝ)
    (hpow : ∀ x : ℝ, 0 < x → m.pow (.fin x) (.fin 4) = .fin (x ^ 4))
    (hlog : ∀ x : ℝ, 0 < x → m.log (.fin x) = .fin (Real.log x))
    (cfg : Config ℝ) :
    (∀ r X Y X2 Y2 Z : ℝ, 0 < r → 0 < X → 0 < Y → 0 < X2 → 0 < Y2 → 0 < Z →
      Kernel_nlo_fermion m cfg (.fin r) (.fin X) (.fin Y) (.fin X2) (.fin Y2) (.fin Z)
        = Kernel_nlo_fermion m cfg (.fin r) (.fin X2) (.fin Y2) (.fin X) (.fin Y) (.fin Z)) ∧
    Kernel_nlo m (.fin 1) (.fin 2) (.fin 1) (.fin 1) (.fin 1) (.fin 1)
      ≠ Kernel_nlo m (.fin 1) (.fin 1) (.fin 1) (.fin 2) (.fin 1) (.fin 1) := by
  refine ⟨fun r X Y X2 Y2 Z _ hX hY hX2 hY2 hZ =>
    Kernel_nlo_fermion_swap m hpow hlog cfg r X Y X2 Y2 Z hX hY hX2 hY2 hZ, ?_⟩
  rw [Kernel_nlo_value m hpow hlog 1 2 1 1 1 1 one_pos two_pos one_pos one_pos one_pos
      one_pos (by norm_num),
    Kernel_nlo_value m hpow hlog 1 1 1 2 1 1 one_pos one_pos one_pos two_pos one_pos
      one_pos (by norm_num)]
  intro h
  have h' := Dbl.fin.inj h
  have hl : Real.log (1 * 1 / (2 * 1)) = -Real.log 2 := by
    rw [show (1 * 1 / (2 * 1) : ℝ) = 2⁻¹ by norm_num, Real.log_inv]
  have hl2 : Real.log (2 * 1 / (1 * 1)) = Real.log 2 := by norm_num
  rw [hl, hl2] at h'
  have hpos : 0 < Real.log 2 := Real.log_pos one_lt_two
  norm_num at h'
  linarith

/-- C23, with the real libm in `fixedConfig` at `(1, 2, 1, 1, 1, 1)`. -/
theorem Kernel_nlo_fermion_symmetric_witness :
    Kernel_nlo_fermion
        (Libm.ofField Real.pi Real.sqrt Real.cos Real.log Real.exp (fun x y => x ^ y)
          (fun x => x / 2) (fun x => x / 2))
        (fixedConfig ℝ) (.fin 1) (.fin 2) (.fin 1) (.fin 1) (.fin 1) (.fin 1)
      = Kernel_nlo_fermion
        (Libm.ofField Real.pi Real.sqrt Real.cos Real.log Real.exp (fun x y => x ^ y)
          (fun x => x / 2) (fun x => x / 2))
        (fixedConfig ℝ) (.fin 1) (.fin 1) (.fin 1) (.fin 2) (.fin 1) (.fin 1) :=
  (Kernel_nlo_fermion_symmetric
    (Libm.ofField Real.pi Real.sqrt Real.cos Real.log Real.exp (fun x y => x ^ y)
      (fun x => x / 2) (fun x => x / 2))
    (by
      intro x hx
      simp only [Libm.ofField, hx, if_true]
      exact congrArg Dbl.fin (by exact_mod_cast Real.rpow_natCast x 4))
    (by intro x hx; simp [Libm.ofField, hx.le, hx.ne', not_lt.mpr hx.le])
    (fixedConfig ℝ)).1 1 2 1 1 1 1 one_pos two_pos one_pos one_pos one_pos one_pos

end FermionSymmetryTheorems

end NloBK

/-! ## Theorems on the single-log resummation factors -/

namespace NloBK

open KinematicalConstraint RunningCouplingLO RunningCouplingNLO ResumRC

section SingleLogGeneral

variable {F : Type} [LinearOrderedField F]

/-- The single-log factors `Kernel_lo_XY` hands to its last stage are
`singlelog_resum` and `singlelog_resum_expansion`. -/
theorem Kernel_lo_XY_singlelog (m : Libm F) (cfg : Config F) (alphas_scaling : F)
    (r X Y : Dbl F) :
    Kernel_lo_XY m cfg alphas_scaling r X Y =
      match resumFactor m cfg
        (resummationAlphas m cfg alphas_scaling r (smallestDipole r X Y)
          (couplingLO m cfg alphas_scaling r X Y).2) r X Y with
      | none => some (.fin 0)
      | some resum =>
        combineLO m cfg alphas_scaling r X Y
          (if ((couplingLO m cfg alphas_scaling r X Y).1.isnan
              || (couplingLO m cfg alphas_scaling r X Y).1.isinf) = true then .fin 0
            else (couplingLO m cfg alphas_scaling r X Y).1)
          (couplingLO m cfg alphas_scaling r X Y).2 resum
          (singlelog_resum m cfg
            (resummationAlphas m cfg alphas_scaling r (smallestDipole r X Y)
              (couplingLO m cfg alphas_scaling r X Y).2) r X Y)
          (singlelog_resum_expansion m cfg
            (resummationAlphas m cfg alphas_scaling r (smallestDipole r X Y)
              (couplingLO m cfg alphas_scaling r X Y).2) r X Y) := rfl

/-- On finite values `std::min` is the minimum. -/
theorem Dbl.min_fin_fin (a b : F) : Dbl.min (.fin a) (.fin b) = .fin (Min.min a b) := by
  unfold Dbl.min
  by_cases h : b < a
  · simp [Dbl.lt, h, min_eq_right h.le]
  · simp [Dbl.lt, h, min_eq_left (not_lt.mp h)]

/-- For positive finite `X`, `Y` the value `minxy` is positive, and it is
`min(X, Y)` unless that is below `1e-50`. -/
theorem singlelogMinxy_fin (x y : F) (hx : 0 < x) (hy : 0 < y) :
    ∃ mn : F, singlelogMinxy (Dbl.fin x) (.fin y) = .fin mn ∧ 0 < mn ∧
      (1 / 10 ^ 50 ≤ min x y → mn = min x y) := by
  unfold singlelogMinxy
  simp only [Dbl.min_fin_fin, Dbl.abs, Dbl.lt_fin_fin]
  by_cases h : |min x y| < 1 / 10 ^ 50
  · refine ⟨1 / 10 ^ 50, by rw [if_pos (decide_eq_true h)], by positivity, fun h' => ?_⟩
    rw [abs_of_pos (lt_min hx hy)] at h
    exact absurd h (not_lt.mpr h')
  · exact ⟨min x y, by rw [if_neg (by simpa using h)],
      lt_min hx hy, fun _ => rfl⟩
end SingleLogGeneral

/-- C24: with single-log resummation on, `exp`, `log` and `sqrt` of libm exact,
`KSUB > 0`, `r > 0` and positive finite `X`, `Y`, with `minxy` the value the code
uses (`min(X, Y)`, or `1e-50` when that is smaller) and `alphabar =
resummation_alphas * NC / M_PI`: the expansion term is `e = -alphabar * A1 *
|2 ln(sqrt(KSUB) r / minxy)|` with `A1 = 11/12`, which equals `-alphabar * A1 *
|ln(KSUB r^2 / minxy^2)|`, and `singlelog_resum = exp(e)`; for `alphabar >= 0` the
term is `<= 0` and the factor lies in `(0, 1]`. -/
theorem singlelog_resum_exp (m : Libm ℝ) (cfg : Config ℝ)
    (hexp : ∀ x : ℝ, m.exp (.fin x) = .fin (Real.exp x))
    (hlog : ∀ x : ℝ, 0 < x → m.log (.fin x) = .fin (Real.log x))
    (hsqrt : ∀ x : ℝ, 0 < x → m.sqrt (.fin x) = .fin (Real.sqrt x))
    (hpi : m.M_PI ≠ 0)
    (hS : cfg.RESUM_SINGLE_LOG = true) (hK : 0 < cfg.KSUB)
    (a r x y : ℝ) (hr : 0 < r) (hx : 0 < x) (hy : 0 < y) :
    ∃ mn e : ℝ,
      singlelogMinxy (Dbl.fin x) (.fin y) = .fin mn ∧ 0 < mn ∧
      (1 / 10 ^ 50 ≤ min x y → mn = min x y) ∧
      singlelog_resum_expansion m cfg (.fin a) (.fin r) (.fin x) (.fin y) = .fin e ∧
      e = -(a * cfg.NC / m.M_PI) * (11 / 12)
            * |2 * Real.log (Real.sqrt cfg.KSUB * r / mn)| ∧
      e = -(a * cfg.NC / m.M_PI) * (11 / 12) * |Real.log (cfg.KSUB * r ^ 2 / mn ^ 2)| ∧
      singlelog_resum m cfg (.fin a) (.fin r) (.fin x) (.fin y) = .fin (Real.exp e) ∧
      (0 ≤ a * cfg.NC / m.M_PI → e ≤ 0 ∧ 0 < Real.exp e ∧ Real.exp e ≤ 1) := by
  obtain ⟨mn, hmn, hmn0, hmin⟩ := singlelogMinxy_fin x y hx hy
  have hsK : 0 < Real.sqrt cfg.KSUB := Real.sqrt_pos.mpr hK
  have harg1 : 0 < Real.sqrt cfg.KSUB * r / mn := by positivity
  have harg2 : 0 < cfg.KSUB * (r / mn * (r / mn)) := by positivity
  have h12 : (12 : ℝ) ≠ 0 := by norm_num
  have hid : 2 * Real.log (Real.sqrt cfg.KSUB * r / mn)
      = Real.log (cfg.KSUB * r ^ 2 / mn ^ 2) := by
    rw [← Real.sq_sqrt hK.le, ← mul_pow, ← div_pow, Real.log_pow, Real.sq_sqrt hK.le]
    norm_num
  have hid2 : cfg.KSUB * (r / mn * (r / mn)) = cfg.KSUB * r ^ 2 / mn ^ 2 := by
    field_simp
    ring
  refine ⟨mn, -(a * cfg.NC / m.M_PI) * (11 / 12)
      * |2 * Real.log (Real.sqrt cfg.KSUB * r / mn)|, hmn, hmn0, hmin, ?_, rfl, ?_, ?_, ?_⟩
  · unfold singlelog_resum_expansion
    simp only [hmn, hS, if_true, hsqrt _ hK, Dbl.fin_mul_fin, Dbl.fin_div_fin _ hmn0.ne',
      Dbl.fin_div_fin _ hpi, Dbl.fin_div_fin _ h12, hlog _ harg1, Dbl.neg_fin, Dbl.abs]
  · rw [hid]
  · unfold singlelog_resum
    simp only [hmn, hS, if_true, Dbl.SQR_fin, Dbl.fin_mul_fin, Dbl.fin_div_fin _ hmn0.ne',
      Dbl.fin_div_fin _ hpi, Dbl.fin_div_fin _ h12, hlog _ harg2, Dbl.neg_fin, Dbl.abs,
      hexp]
    rw [hid2, hid]
  · intro hab
    have he : -(a * cfg.NC / m.M_PI) * (11 / 12)
        * |2 * Real.log (Real.sqrt cfg.KSUB * r / mn)| ≤ 0 := by
      have := abs_nonneg (2 * Real.log (Real.sqrt cfg.KSUB * r / mn))
      have h1 : 0 ≤ a * cfg.NC / m.M_PI * (11 / 12) := by positivity
      nlinarith [mul_nonneg h1 this]
    exact ⟨he, Real.exp_pos _, Real.exp_le_one_iff.mpr he⟩


/-- C24, with the real libm and `kplusSingleLogConfig` (`KSUB = 1`) at `r = 1`,
`X = 2`, `Y = 3`, coupling `1/5`. -/
theorem singlelog_resum_exp_witness :
    ∃ mn e : ℝ,
      singlelogMinxy (Dbl.fin (2 : ℝ)) (.fin 3) = .fin mn ∧ 0 < mn ∧
      (1 / 10 ^ 50 ≤ min (2 : ℝ) 3 → mn = min 2 3) ∧
      singlelog_resum_expansion
          (Libm.ofField Real.pi Real.sqrt Real.cos Real.log Real.exp (fun x y => x ^ y)
            (fun x => x / 2) (fun x => x / 2))
          (kplusSingleLogConfig ℝ) (.fin (1 / 5)) (.fin 1) (.fin 2) (.fin 3) = .fin e ∧
      e = -(1 / 5 * (kplusSingleLogConfig ℝ).NC / Real.pi) * (11 / 12)
            * |2 * Real.log (Real.sqrt (kplusSingleLogConfig ℝ).KSUB * 1 / mn)| ∧
      e = -(1 / 5 * (kplusSingleLogConfig ℝ).NC / Real.pi) * (11 / 12)
            * |Real.log ((kplusSingleLogConfig ℝ).KSUB * 1 ^ 2 / mn ^ 2)| ∧
      singlelog_resum
          (Libm.ofField Real.pi Real.sqrt Real.cos Real.log Real.exp (fun x y => x ^ y)
            (fun x => x / 2) (fun x => x / 2))
          (kplusSingleLogConfig ℝ) (.fin (1 / 5)) (.fin 1) (.fin 2) (.fin 3)
        = .fin (Real.exp e) ∧
      (0 ≤ 1 / 5 * (kplusSingleLogConfig ℝ).NC / Real.pi →
        e ≤ 0 ∧ 0 < Real.exp e ∧ Real.exp e ≤ 1) :=
  singlelog_resum_exp
    (Libm.ofField Real.pi Real.sqrt Real.cos Real.log Real.exp (fun x y => x ^ y)
      (fun x => x / 2) (fun x => x / 2))
    (kplusSingleLogConfig ℝ)
    (by intro x; simp [Libm.ofField])
    (by intro x hx; simp [Libm.ofField, hx.le, hx.ne', not_lt.mpr hx.le])
    (by intro x hx; simp [Libm.ofField, not_lt.mpr hx.le])
    Real.pi_ne_zero rfl (by norm_num [kplusSingleLogConfig, fixedConfig])
    (1 / 5) 1 2 3 one_pos two_pos (by norm_num)

end NloBK
